import Mathlib

/-!
# BaselineWalkingController: footstep queue, support phase and touchdown

A shallow embedding of `FootManager` (src/src/FootManager.cpp) and of
`CentroidalManager` (src/src/CentroidalManager.cpp).  Times and all other
`double` quantities are exact rationals, so every definition below can be
evaluated; `makeFootstep`, whose stored times are compared for equality,
rounds every operation to binary64 (`roundDouble`).  The state of the foot
manager is passed explicitly; the
controller time `ctl().t()` is an argument of every operation that reads it.
The swing synthesis, the ZMP planner and the centroidal update are functions
of the values they read.
-/

namespace BWC

/-! ## Data model -/

/-- Foot identifier (`Foot::Left`, `Foot::Right`). -/
inductive Foot where
  | Left
  | Right
  deriving DecidableEq

/-- Support phase (`SupportPhase`). -/
inductive SupportPhase where
  | DoubleSupport
  | LeftSupport
  | RightSupport
  deriving DecidableEq

/-- Three-dimensional vector (`Eigen::Vector3d`). -/
structure Vec3 where
  x : ℚ
  y : ℚ
  z : ℚ
  deriving DecidableEq

/-- Rigid transformation (`sva::PTransformd`): rotation rows and translation. -/
structure PTransformd where
  rotation : Vec3 × Vec3 × Vec3
  translation : Vec3
  deriving DecidableEq

/-- Footstep command: the foot, its landing pose and the four times. -/
structure Footstep where
  foot : Foot
  pose : PTransformd
  transitStartTime : ℚ
  swingStartTime : ℚ
  swingEndTime : ℚ
  transitEndTime : ℚ
  deriving DecidableEq


/-- No-overlap relation between consecutive queued footsteps. -/
def NoOverlap (prev next : Footstep) : Prop :=
  prev.transitEndTime ≤ next.transitStartTime

instance (a b : Footstep) : Decidable (NoOverlap a b) := by
  unfold NoOverlap
  infer_instance

/-- Fields of `FootManager::Configuration` read by the operations below. -/
structure Configuration where
  enableWrenchDistForTouchDownFoot : Bool
  fricCoeff : ℚ
  touchDownRemainingDuration : ℚ
  touchDownPosError : ℚ
  touchDownForceZ : ℚ
  deriving DecidableEq

/-- The pointer `swingFootstep_` when it is not null.  It addresses one
element of the deque `footstepQueue_`; `slot` identifies that element by the
number of `pop_front` calls that preceded it becoming the front, and `step`
is the footstep read through the pointer. -/
structure SwingRef where
  slot : Nat
  step : Footstep
  deriving DecidableEq

/-- State of `FootManager` restricted to the footstep queue, the support
phase and the touchdown flag.  `popCount` counts the elements removed from
the front of the deque so far, so that the current front has slot
`popCount`; it only serves to compare `swingFootstep_` with
`&(footstepQueue_.front())`. -/
structure FootManager where
  config : Configuration
  footstepQueue : List Footstep
  popCount : Nat
  prevFootstep : Option Footstep
  supportPhase : SupportPhase
  swingFootstep : Option SwingRef
  touchDown : Bool
  deriving DecidableEq

/-- What one tick reads from outside the modelled state: the evaluation of
the swing position interpolant `(*swingPosFunc_)(·)` and the vertical force
`surfaceWrench(surfaceName(foot)).force().z()` measured at each foot. -/
structure TickInput where
  swingPosFunc : ℚ → Vec3
  surfaceForceZ : Foot → ℚ

/-- Fatal errors of a tick. -/
inductive TickError where
  | swingFootstepNotConsistent
  | nullSwingFootstep
  deriving DecidableEq

/-! ## Operations of the foot manager -/

/-- Component-wise difference of vectors. -/
def Vec3.sub (a b : Vec3) : Vec3 :=
  ⟨a.x - b.x, a.y - b.y, a.z - b.z⟩

/-- Squared Euclidean norm. -/
def Vec3.normSq (v : Vec3) : ℚ :=
  v.x * v.x + v.y * v.y + v.z * v.z

/-- The test `v.norm() > e`, decided on rationals: the norm is non-negative,
so it exceeds `e` exactly when `e` is negative or `e * e` is below the
squared norm. -/
def Vec3.normGt (v : Vec3) (e : ℚ) : Bool :=
  decide (e < 0) || decide (e * e < v.normSq)

/-- The part of `FootManager::reset` acting on the modelled state: the queue
is cleared (every queued element counts as removed), `prevFootstep_` and
`swingFootstep_` become null, the phase is double support and the touchdown
flag is false. -/
def FootManager.reset (s : FootManager) : FootManager :=
  { s with
    footstepQueue := []
    popCount := s.popCount + s.footstepQueue.length
    prevFootstep := none
    supportPhase := SupportPhase.DoubleSupport
    swingFootstep := none
    touchDown := false }

/-- Embedding of `FootManager::appendFootstep` at control time `t`: the
returned flag and the state after the call. -/
def FootManager.appendFootstep (s : FootManager) (t : ℚ) (newFootstep : Footstep) :
    Bool × FootManager :=
  if newFootstep.transitStartTime < t then
    (false, s)
  else
    match s.footstepQueue.getLast? with
    | some lastFootstep =>
      if newFootstep.transitStartTime < lastFootstep.transitEndTime then
        (false, s)
      else
        (true, { s with footstepQueue := s.footstepQueue ++ [newFootstep] })
    | none => (true, { s with footstepQueue := s.footstepQueue ++ [newFootstep] })

/-- The loop `while(!footstepQueue_.empty() && front().transitEndTime < t)`
of `updateFootTraj`: returns the queue, `prevFootstep_` and the pop count
after the loop. -/
def evictLoop (t : ℚ) : List Footstep → Option Footstep → Nat →
    List Footstep × Option Footstep × Nat
  | [], prev, n => ([], prev, n)
  | f :: q, prev, n =>
    if f.transitEndTime < t then evictLoop t q (some f) (n + 1) else (f :: q, prev, n)

/-- State after the eviction loop at the start of `updateFootTraj`. -/
def FootManager.removeOldFootsteps (s : FootManager) (t : ℚ) : FootManager :=
  { s with
    footstepQueue := (evictLoop t s.footstepQueue s.prevFootstep s.popCount).1
    prevFootstep := (evictLoop t s.footstepQueue s.prevFootstep s.popCount).2.1
    popCount := (evictLoop t s.footstepQueue s.prevFootstep s.popCount).2.2 }

/-- Embedding of `FootManager::touchDownRemainingDuration`; `none` stands for
the dereference of a null `swingFootstep_`. -/
def FootManager.touchDownRemainingDuration (s : FootManager) (t : ℚ) : Option ℚ :=
  if s.supportPhase = SupportPhase.DoubleSupport then
    some 0
  else
    match s.swingFootstep with
    | some r => some (r.step.swingEndTime - t)
    | none => none

/-- Embedding of `FootManager::detectTouchDown`; `none` stands for the
dereference of a null `swingFootstep_`. -/
def FootManager.detectTouchDown (s : FootManager) (t : ℚ) (inp : TickInput) : Option Bool :=
  if s.supportPhase = SupportPhase.DoubleSupport then
    some false
  else
    match s.touchDownRemainingDuration t, s.swingFootstep with
    | some remaining, some r =>
      if remaining > s.config.touchDownRemainingDuration then
        some false
      else
        let swingFoot :=
          if s.supportPhase = SupportPhase.LeftSupport then Foot.Right else Foot.Left
        if ((inp.swingPosFunc r.step.swingEndTime).sub (inp.swingPosFunc t)).normGt
            s.config.touchDownPosError then
          some false
        else if inp.surfaceForceZ swingFoot < s.config.touchDownForceZ then
          some false
        else
          some true
    | _, _ => none

/-- The queue front when the single-support condition of `updateFootTraj`
holds: the queue is not empty and `swingStartTime ≤ t ≤ swingEndTime`. -/
def FootManager.swingFront (s : FootManager) (t : ℚ) : Option Footstep :=
  match s.footstepQueue with
  | [] => none
  | f :: _ => if f.swingStartTime ≤ t ∧ t ≤ f.swingEndTime then some f else none

/-- The block `// Update touchDown_` of `updateFootTraj`. -/
def FootManager.updateTouchDown (s : FootManager) (t : ℚ) (inp : TickInput) :
    Except TickError FootManager :=
  if s.touchDown then
    .ok s
  else
    match s.detectTouchDown t inp with
    | some true => .ok { s with touchDown := true }
    | some false => .ok s
    | none => .error TickError.nullSwingFootstep

/-- Embedding of `FootManager::updateFootTraj` at control time `t`, on the
modelled state: eviction, then the single-support branch (consistency check
or phase entry, then touchdown update) or the double-support branch (phase
exit).  `Except.error` is the exception of `error_and_throw`. -/
def FootManager.updateFootTraj (s0 : FootManager) (t : ℚ) (inp : TickInput) :
    Except TickError FootManager :=
  let s := s0.removeOldFootsteps t
  match s.swingFront t with
  | some front =>
    match s.swingFootstep with
    | some r =>
      if r.slot ≠ s.popCount then
        .error TickError.swingFootstepNotConsistent
      else
        s.updateTouchDown t inp
    | none =>
      FootManager.updateTouchDown
        { s with
          swingFootstep := some ⟨s.popCount, front⟩
          supportPhase :=
            if front.foot = Foot.Left then SupportPhase.RightSupport
            else SupportPhase.LeftSupport }
        t inp
  | none =>
    match s.swingFootstep with
    | some _ =>
      .ok { s with
            supportPhase := SupportPhase.DoubleSupport
            touchDown := false
            swingFootstep := none }
    | none => .ok s


/-! ## Runs -/

/-- Operations on a foot manager between which a run interleaves: `reset`,
a change of the live-tunable configuration, `appendFootstep` at a control
time and an `updateFootTraj` tick at a control time. -/
inductive Op where
  | reset
  | configure (c : Configuration)
  | append (t : ℚ) (f : Footstep)
  | tick (t : ℚ) (inp : TickInput)

/-- One operation; only a tick can raise. -/
def FootManager.step (s : FootManager) : Op → Except TickError FootManager
  | Op.reset => .ok s.reset
  | Op.configure c => .ok { s with config := c }
  | Op.append t f => .ok (s.appendFootstep t f).2
  | Op.tick t inp => s.updateFootTraj t inp

/-- A sequence of operations, stopping at the first error. -/
def FootManager.run (s : FootManager) : List Op → Except TickError FootManager
  | [] => .ok s
  | op :: ops =>
    match s.step op with
    | .ok s1 => s1.run ops
    | .error e => .error e

/-- Times of the ticks of a run, in order. -/
def tickTimes : List Op → List ℚ
  | [] => []
  | Op.tick t _ :: ops => t :: tickTimes ops
  | _ :: ops => tickTimes ops

/-- Whether an operation changes the configuration. -/
def Op.isConfigure : Op → Bool
  | Op.configure _ => true
  | _ => false

/-- Queue operations of the no-overlap invariant: an `appendFootstep` call
or the eviction loop of `updateFootTraj`, each at its control time. -/
inductive QueueOp where
  | append (t : ℚ) (f : Footstep)
  | evict (t : ℚ)

/-- One queue operation. -/
def FootManager.queueStep (s : FootManager) : QueueOp → FootManager
  | QueueOp.append t f => (s.appendFootstep t f).2
  | QueueOp.evict t => s.removeOldFootsteps t

/-- A sequence of queue operations. -/
def FootManager.queueRun (s : FootManager) : List QueueOp → FootManager
  | [] => s
  | op :: ops => (s.queueStep op).queueRun ops

/-- Calls `appendFootstep` on each footstep in order at control time `t`;
returns the flags in call order and the final state. -/
def FootManager.appendAll (s : FootManager) (t : ℚ) : List Footstep → List Bool × FootManager
  | [] => ([], s)
  | f :: fs =>
    let r := s.appendFootstep t f
    let rest := r.2.appendAll t fs
    (r.1 :: rest.1, rest.2)

/-- Support phase that the queue head and the time determine: the support
foot is opposite to the head footstep's foot while the time is inside the
head's swing interval, and double support otherwise. -/
def expectedSupportPhase (queue : List Footstep) (t : ℚ) : SupportPhase :=
  match queue with
  | [] => SupportPhase.DoubleSupport
  | f :: _ =>
    if f.swingStartTime ≤ t ∧ t ≤ f.swingEndTime then
      match f.foot with
      | Foot.Left => SupportPhase.RightSupport
      | Foot.Right => SupportPhase.LeftSupport
    else SupportPhase.DoubleSupport

/-! ## Contact set and support ratio -/

/-- The set `Feet::Both`, as the ordered duplicate-free list of a `std::set`. -/
def Feet.Both : List Foot :=
  [Foot.Left, Foot.Right]

/-- Embedding of `FootManager::getCurrentContactFeet`. -/
def FootManager.getCurrentContactFeet (s : FootManager) : List Foot :=
  if s.supportPhase = SupportPhase.DoubleSupport then
    Feet.Both
  else if s.config.enableWrenchDistForTouchDownFoot && s.touchDown then
    Feet.Both
  else if s.supportPhase = SupportPhase.LeftSupport then
    [Foot.Left]
  else
    [Foot.Right]

/-- Contact descriptor (`Contact`): name, friction coefficient, local
vertices and pose.  The name `std::to_string(foot)` is kept as the foot. -/
structure Contact where
  name : Foot
  fricCoeff : ℚ
  localVertexList : List Vec3
  pose : PTransformd
  deriving DecidableEq

/-- The operation `emplace` of `std::unordered_map` on an association list:
the entry is added unless the key is already present. -/
def emplace {α : Type} (m : List (Foot × α)) (k : Foot) (v : α) : List (Foot × α) :=
  if m.any (fun e => decide (e.1 = k)) then m else m ++ [(k, v)]

/-- Embedding of `FootManager::calcCurrentContactList`.  The vertices of each
foot surface in the surface frame and the target foot poses are read from
outside the modelled state. -/
def FootManager.calcCurrentContactList (s : FootManager)
    (localVertices : Foot → List Vec3) (targetFootPoses : Foot → PTransformd) :
    List (Foot × Contact) :=
  s.getCurrentContactFeet.foldl
    (fun contactList foot =>
      emplace contactList foot
        ⟨foot, s.config.fricCoeff, localVertices foot, targetFootPoses foot⟩)
    []

/-- Modelled from the spec: `sign` of a foot, declared outside src/; the spec
gives every foot a sign of +1 or −1, here +1 for the left foot and −1 for the
right foot. -/
def sign : Foot → ℚ
  | Foot.Left => 1
  | Foot.Right => -1

/-- The library function `mc_filter::utils::clamp`: the value limited to
`[lo, hi]`. -/
def clamp (v lo hi : ℚ) : ℚ :=
  if v > hi then hi else if v < lo then lo else v

/-- Embedding of `FootManager::leftFootSupportRatio` at control time `t`. -/
def FootManager.leftFootSupportRatio (s : FootManager) (t : ℚ) : ℚ :=
  match s.footstepQueue with
  | [] => 1 / 2
  | footstep :: _ =>
    if t ≤ footstep.transitStartTime then
      1 / 2
    else if t ≤ footstep.swingStartTime then
      let ratio :=
        (t - footstep.transitStartTime) / (footstep.swingStartTime - footstep.transitStartTime);
      -(1 / 2) * sign footstep.foot * clamp ratio 0 1 + 1 / 2
    else if t ≤ footstep.swingEndTime then
      if footstep.foot = Foot.Left then 0 else 1
    else
      let ratio :=
        (footstep.transitEndTime - t) / (footstep.transitEndTime - footstep.swingEndTime);
      -(1 / 2) * sign footstep.foot * clamp ratio 0 1 + 1 / 2

/-! ## Invariants and example data -/

/-- Support phase while the given foot swings. -/
def supportPhaseFor (swingFoot : Foot) : SupportPhase :=
  if swingFoot = Foot.Left then SupportPhase.RightSupport else SupportPhase.LeftSupport

/-- Consistency of the phase with `swingFootstep_`, which holds between
operations: without a swing footstep the phase is double support; with one,
it is the queue front and the phase is the matching single support. -/
def PhaseInv (s : FootManager) : Prop :=
  match s.swingFootstep with
  | none => s.supportPhase = SupportPhase.DoubleSupport
  | some r =>
    s.supportPhase = supportPhaseFor r.step.foot ∧ r.slot = s.popCount ∧
      s.footstepQueue.head? = some r.step

/-- The footstep of the end-to-end scenario: right foot, times 1.0, 1.1, 1.9, 2.0. -/
def scenarioStep (pose : PTransformd) : Footstep :=
  ⟨Foot.Right, pose, 1, 11 / 10, 19 / 10, 2⟩

/-- A configuration used in the examples. -/
def sampleConfig : Configuration :=
  ⟨true, 7 / 10, 1 / 5, 1 / 20, 50⟩

/-- A pose used in the examples: identity rotation, 0.2 m forward. -/
def samplePose : PTransformd :=
  ⟨(⟨1, 0, 0⟩, ⟨0, 1, 0⟩, ⟨0, 0, 1⟩), ⟨1 / 5, 0, 0⟩⟩

/-- A right-foot footstep over [1, 2]. -/
def sampleStepA : Footstep :=
  ⟨Foot.Right, samplePose, 1, 11 / 10, 19 / 10, 2⟩

/-- A left-foot footstep over [2, 3]. -/
def sampleStepB : Footstep :=
  ⟨Foot.Left, samplePose, 2, 21 / 10, 29 / 10, 3⟩

/-- A foot manager in double support with `sampleStepA` queued. -/
def sampleManager : FootManager :=
  ⟨sampleConfig, [sampleStepA], 0, none, SupportPhase.DoubleSupport, none, false⟩

/-- A footstep whose transit ends before it starts. -/
def reversedStep : Footstep :=
  ⟨Foot.Right, samplePose, 1, 1, 1, -2⟩

/-- A footstep before control time 0 that starts after `reversedStep` ends. -/
def pastStep : Footstep :=
  ⟨Foot.Left, samplePose, -1, -1, -1, 0⟩

/-- A foot manager in left support, swinging `sampleStepA`. -/
def swingingManager : FootManager :=
  ⟨sampleConfig, [sampleStepA], 0, none, SupportPhase.LeftSupport, some ⟨0, sampleStepA⟩, false⟩

/-- Tick input with the swing position at rest and a normal force of exactly
`touchDownForceZ` of `sampleConfig`. -/
def forceAtThreshold : TickInput :=
  ⟨fun _ => ⟨0, 0, 0⟩, fun _ => 50⟩

/-- Tick input whose swing position moves along x at unit speed, with a normal
force above the threshold. -/
def posErrAtThreshold : TickInput :=
  ⟨fun τ => ⟨τ, 0, 0⟩, fun _ => 60⟩

/-- A run keeps the same swing footstep: every operation returns a state whose
`swingFootstep_` is the one of the start. -/
def FootManager.staysInPhase (s : FootManager) : List Op → Prop
  | [] => True
  | op :: ops =>
    ∃ s1, s.step op = .ok s1 ∧ s1.swingFootstep = s.swingFootstep ∧ s1.staysInPhase ops

/-- The state reached from `sampleManager.reset` by queueing `sampleStepA` and
ticking at 1 and at 1.8 with `forceAtThreshold`: left support, touched down. -/
def touchedDownManager : FootManager :=
  ⟨sampleConfig, [sampleStepA], 1, none, SupportPhase.LeftSupport, some ⟨1, sampleStepA⟩, true⟩

/-- Tick input with the swing position at rest and no contact force. -/
def noForce : TickInput :=
  ⟨fun _ => ⟨0, 0, 0⟩, fun _ => 0⟩

/-- Contact descriptor that `calcCurrentContactList` builds for a foot. -/
def FootManager.contactOf (s : FootManager) (localVertices : Foot → List Vec3)
    (targetFootPoses : Foot → PTransformd) (foot : Foot) : Contact :=
  ⟨foot, s.config.fricCoeff, localVertices foot, targetFootPoses foot⟩

/-- A footstep whose transit and swing start together at time 1. -/
def noTransitStep : Footstep :=
  ⟨Foot.Left, samplePose, 1, 1, 2, 2⟩

/-- A foot manager with `noTransitStep` at the head of the queue. -/
def noTransitManager : FootManager :=
  ⟨sampleConfig, [noTransitStep], 0, none, SupportPhase.DoubleSupport, none, false⟩

/-! ## Zero-moment point of a wrench map -/

/-- Component-wise sum of vectors. -/
def Vec3.add (a b : Vec3) : Vec3 :=
  ⟨a.x + b.x, a.y + b.y, a.z + b.z⟩

/-- Product of a scalar and a vector. -/
def Vec3.smul (c : ℚ) (v : Vec3) : Vec3 :=
  ⟨c * v.x, c * v.y, c * v.z⟩

/-- The zero vector. -/
def Vec3.zero : Vec3 :=
  ⟨0, 0, 0⟩

/-- Cross product (`Eigen` `cross`). -/
def Vec3.cross (a b : Vec3) : Vec3 :=
  ⟨a.y * b.z - a.z * b.y, a.z * b.x - a.x * b.z, a.x * b.y - a.y * b.x⟩

/-- Wrench (`sva::ForceVecd`): moment and force. -/
structure ForceVecd where
  moment : Vec3
  force : Vec3
  deriving DecidableEq

/-- The zero wrench (`sva::ForceVecd::Zero()`). -/
def ForceVecd.zero : ForceVecd :=
  ⟨Vec3.zero, Vec3.zero⟩

/-- Sum of wrenches. -/
def ForceVecd.add (a b : ForceVecd) : ForceVecd :=
  ⟨a.moment.add b.moment, a.force.add b.force⟩

/-- The sum `totalWrench` that `calcZmp` accumulates over the wrench map. -/
def totalWrench (wrenchList : List (Foot × ForceVecd)) : ForceVecd :=
  wrenchList.foldl (fun total wrenchKV => total.add wrenchKV.2) ForceVecd.zero

/-- Embedding of `CentroidalManager::calcZmp`, with the division of the body
as the argument `div`, so that a result that does not depend on `div` is one
computed without dividing. -/
def calcZmpWith (div : ℚ → ℚ → ℚ) (wrenchList : List (Foot × ForceVecd))
    (zmpPlaneHeight : ℚ) (zmpPlaneNormal : Vec3) : Vec3 :=
  let zmpPlaneOrigin : Vec3 := ⟨0, 0, zmpPlaneHeight⟩
  if (totalWrench wrenchList).force.z > 0 then
    let momentInZMPPlane :=
      (totalWrench wrenchList).moment.sub (zmpPlaneOrigin.cross (totalWrench wrenchList).force)
    let numerator := zmpPlaneNormal.cross momentInZMPPlane
    zmpPlaneOrigin.add
      ⟨div numerator.x (totalWrench wrenchList).force.z,
        div numerator.y (totalWrench wrenchList).force.z,
        div numerator.z (totalWrench wrenchList).force.z⟩
  else
    zmpPlaneOrigin

/-- Embedding of `CentroidalManager::calcZmp` with the division of rationals. -/
def calcZmp (wrenchList : List (Foot × ForceVecd)) (zmpPlaneHeight : ℚ)
    (zmpPlaneNormal : Vec3) : Vec3 :=
  calcZmpWith (fun a b => a / b) wrenchList zmpPlaneHeight zmpPlaneNormal

/-- A left-foot head footstep whose swing and transit end together at time 2. -/
def noEndTransitStep : Footstep :=
  ⟨Foot.Left, samplePose, 1, 3 / 2, 2, 2⟩

/-- A foot manager with `noEndTransitStep` at the head of the queue. -/
def noEndTransitManager : FootManager :=
  ⟨sampleConfig, [noEndTransitStep], 0, none, SupportPhase.DoubleSupport, none, false⟩

/-- A wrench map whose total vertical force is −10. -/
def pullingWrenches : List (Foot × ForceVecd) :=
  [(Foot.Left, ⟨⟨1, 2, 3⟩, ⟨4, 5, 10⟩⟩), (Foot.Right, ⟨⟨0, 1, 0⟩, ⟨0, 0, -20⟩⟩)]

/-- A wrench map whose total vertical force is 300. -/
def standingWrenches : List (Foot × ForceVecd) :=
  [(Foot.Left, ⟨⟨3, -6, 1⟩, ⟨10, 0, 100⟩⟩), (Foot.Right, ⟨⟨-9, 12, 0⟩, ⟨-4, 6, 200⟩⟩)]

/-! ## Centroidal feedback -/

/-- Fields of `CentroidalManager::Configuration` read by `update`. -/
structure CentroidalConfiguration where
  useActualStateForMpc : Bool
  enableDcmFeedback : Bool
  enableComZFeedback : Bool
  dcmGain : ℚ
  zmpVelGain : ℚ
  comZGainP : ℚ
  comZGainD : ℚ
  refComZ : ℚ
  useActualCoMForWrenchDistribution : Bool
  deriving DecidableEq

/-- What `CentroidalManager::update` reads from the controller during one
tick: the estimated CoM state `realRobot().com()`, `realRobot().comVelocity()`,
the CoM task targets `comTask_->com()`, `comTask_->refVel()` written by the
previous tick, the reference ZMP velocity `calcRefZmp(t, 1)`, the control
period `dt()` and the result of the virtual `isConstantComZ()`. -/
structure CentroidalInput where
  realCom : Vec3
  realComVelocity : Vec3
  taskCom : Vec3
  taskRefVel : Vec3
  refZmpVel : Vec3
  dt : ℚ
  isConstantComZ : Bool
  deriving DecidableEq

/-- Collaborators of `update` from outside src/: the centroidal strategy
`runMpc()`, which sets `plannedZmp_` and `plannedForceZ_` from the MPC state
`mpcCom_`, `mpcComVel_`; the library function `std::sqrt`; the constant
`CCC::constants::g`. -/
structure CentroidalExternals where
  runMpc : Vec3 → Vec3 → Vec3 × ℚ
  sqrt : ℚ → ℚ
  g : ℚ

/-- Values that `CentroidalManager::update` computes: the members it sets,
the wrench requested from the wrench distribution with its reference point,
and the three targets written to the CoM task. -/
structure CentroidalResult where
  mpcCom : Vec3
  mpcComVel : Vec3
  plannedZmp : Vec3
  plannedForceZ : ℚ
  controlZmp : Vec3
  controlForceZ : ℚ
  comForWrenchDist : Vec3
  controlWrench : ForceVecd
  nextPlannedCom : Vec3
  nextPlannedComVel : Vec3
  plannedComAccel : Vec3
  deriving DecidableEq

/-- The divergent component of motion `com + comVel / omega`. -/
def dcm (com comVel : Vec3) (omega : ℚ) : Vec3 :=
  ⟨com.x + comVel.x / omega, com.y + comVel.y / omega, com.z + comVel.z / omega⟩

/-- Embedding of `CentroidalManager::update` up to the CoM task targets (the
wrench distribution itself, the base orientation target and the foot wrench
targets are left out). -/
def CentroidalManager.update (ext : CentroidalExternals) (config : CentroidalConfiguration)
    (robotMass : ℚ) (inp : CentroidalInput) : CentroidalResult :=
  let mpcCom := if config.useActualStateForMpc then inp.realCom else inp.taskCom
  let mpcComVel := if config.useActualStateForMpc then inp.realComVelocity else inp.taskRefVel
  let plannedZmp := (ext.runMpc mpcCom mpcComVel).1
  let plannedForceZ := (ext.runMpc mpcCom mpcComVel).2
  let controlZmp0 : Vec3 :=
    ⟨plannedZmp.x + config.zmpVelGain * inp.refZmpVel.x,
      plannedZmp.y + config.zmpVelGain * inp.refZmpVel.y, plannedZmp.z⟩
  let omega := ext.sqrt (plannedForceZ / (robotMass * mpcCom.z))
  let plannedDcm := dcm inp.taskCom inp.taskRefVel omega
  let actualDcm := dcm inp.realCom inp.realComVelocity omega
  let controlZmp : Vec3 :=
    if config.enableDcmFeedback then
      ⟨controlZmp0.x + config.dcmGain * (actualDcm.sub plannedDcm).x,
        controlZmp0.y + config.dcmGain * (actualDcm.sub plannedDcm).y, controlZmp0.z⟩
    else controlZmp0
  let controlForceZ :=
    if config.enableComZFeedback then
      plannedForceZ -
        (config.comZGainP * (inp.realCom.z - inp.taskCom.z) +
          config.comZGainD * (inp.realComVelocity.z - inp.taskRefVel.z))
    else plannedForceZ
  let comForWrenchDist :=
    if config.useActualCoMForWrenchDistribution then inp.realCom else inp.taskCom
  let controlWrench : ForceVecd :=
    ⟨Vec3.zero,
      ⟨controlForceZ / comForWrenchDist.z * (comForWrenchDist.x - controlZmp.x),
        controlForceZ / comForWrenchDist.z * (comForWrenchDist.y - controlZmp.y),
        controlForceZ⟩⟩
  let plannedComAccel0 : Vec3 :=
    ⟨plannedForceZ / (robotMass * mpcCom.z) * (mpcCom.x - plannedZmp.x),
      plannedForceZ / (robotMass * mpcCom.z) * (mpcCom.y - plannedZmp.y),
      plannedForceZ / robotMass - ext.g⟩
  let nextPlannedCom0 :=
    (mpcCom.add (Vec3.smul inp.dt mpcComVel)).add
      (Vec3.smul (1 / 2 * inp.dt ^ 2) plannedComAccel0)
  let nextPlannedComVel0 := mpcComVel.add (Vec3.smul inp.dt plannedComAccel0)
  { mpcCom := mpcCom
    mpcComVel := mpcComVel
    plannedZmp := plannedZmp
    plannedForceZ := plannedForceZ
    controlZmp := controlZmp
    controlForceZ := controlForceZ
    comForWrenchDist := comForWrenchDist
    controlWrench := controlWrench
    nextPlannedCom :=
      if inp.isConstantComZ then ⟨nextPlannedCom0.x, nextPlannedCom0.y, config.refComZ⟩
      else nextPlannedCom0
    nextPlannedComVel :=
      if inp.isConstantComZ then ⟨nextPlannedComVel0.x, nextPlannedComVel0.y, 0⟩
      else nextPlannedComVel0
    plannedComAccel :=
      if inp.isConstantComZ then ⟨plannedComAccel0.x, plannedComAccel0.y, 0⟩
      else plannedComAccel0 }

/-- The CoM task target as the planned-state law words it: acceleration `a`
with `a.xy = plannedForceZ / (mass · com.z) · (com.xy − plannedZmp.xy)` and
`a.z = plannedForceZ / mass − g`, position `com + dt·vel + dt²/2·a`, velocity
`vel + dt·a`; in constant-height mode the height is `refComZ` and the vertical
velocity and acceleration are zero.  Returns position, velocity, acceleration. -/
def comTaskTarget (mpcCom mpcComVel plannedZmp : Vec3) (plannedForceZ robotMass dt refComZ : ℚ)
    (constantComZ : Bool) (g : ℚ) : Vec3 × Vec3 × Vec3 :=
  let ax := plannedForceZ / (robotMass * mpcCom.z) * (mpcCom.x - plannedZmp.x)
  let ay := plannedForceZ / (robotMass * mpcCom.z) * (mpcCom.y - plannedZmp.y)
  let az := plannedForceZ / robotMass - g
  if constantComZ then
    (⟨mpcCom.x + dt * mpcComVel.x + 1 / 2 * dt ^ 2 * ax,
        mpcCom.y + dt * mpcComVel.y + 1 / 2 * dt ^ 2 * ay, refComZ⟩,
      ⟨mpcComVel.x + dt * ax, mpcComVel.y + dt * ay, 0⟩,
      ⟨ax, ay, 0⟩)
  else
    (⟨mpcCom.x + dt * mpcComVel.x + 1 / 2 * dt ^ 2 * ax,
        mpcCom.y + dt * mpcComVel.y + 1 / 2 * dt ^ 2 * ay,
        mpcCom.z + dt * mpcComVel.z + 1 / 2 * dt ^ 2 * az⟩,
      ⟨mpcComVel.x + dt * ax, mpcComVel.y + dt * ay, mpcComVel.z + dt * az⟩,
      ⟨ax, ay, az⟩)

/-- A strategy that plans the ZMP under the CoM of the MPC state, with a
vertical force of 300. -/
def zmpUnderCom : CentroidalExternals :=
  ⟨fun com _ => (⟨com.x, com.y, 0⟩, 300), fun _ => 3, 981 / 100⟩

/-- A configuration that starts the MPC from the estimated state, without
feedback. -/
def actualStateConfig : CentroidalConfiguration :=
  ⟨true, false, false, 2, 1 / 10, 1000, 100, 4 / 5, false⟩

/-- A configuration that starts the MPC from the CoM task targets, with DCM
and CoM height feedback. -/
def feedbackConfig : CentroidalConfiguration :=
  ⟨false, true, true, 2, 1 / 10, 1000, 100, 4 / 5, false⟩

/-- A tick input at standstill with the estimated CoM 1 cm ahead of the planned one. -/
def standstillInput : CentroidalInput :=
  ⟨⟨1 / 100, 0, 4 / 5⟩, ⟨0, 0, 0⟩, ⟨0, 0, 4 / 5⟩, ⟨0, 0, 0⟩, ⟨0, 0, 0⟩, 1 / 200, false⟩

/-! ## Rigid transformations -/

/-- Scalar product of vectors. -/
def Vec3.dot (a b : Vec3) : ℚ :=
  a.x * b.x + a.y * b.y + a.z * b.z

/-- The identity matrix, as rows. -/
def Mat3.one : Vec3 × Vec3 × Vec3 :=
  (⟨1, 0, 0⟩, ⟨0, 1, 0⟩, ⟨0, 0, 1⟩)

/-- Transpose of a matrix given by its rows. -/
def Mat3.transpose (m : Vec3 × Vec3 × Vec3) : Vec3 × Vec3 × Vec3 :=
  (⟨m.1.x, m.2.1.x, m.2.2.x⟩, ⟨m.1.y, m.2.1.y, m.2.2.y⟩, ⟨m.1.z, m.2.1.z, m.2.2.z⟩)

/-- Product of a matrix given by its rows and a vector. -/
def Mat3.mulVec (m : Vec3 × Vec3 × Vec3) (v : Vec3) : Vec3 :=
  ⟨m.1.dot v, m.2.1.dot v, m.2.2.dot v⟩

/-- Product of two matrices given by their rows. -/
def Mat3.mul (a b : Vec3 × Vec3 × Vec3) : Vec3 × Vec3 × Vec3 :=
  (Mat3.mulVec (Mat3.transpose b) a.1, Mat3.mulVec (Mat3.transpose b) a.2.1,
    Mat3.mulVec (Mat3.transpose b) a.2.2)

/-- The transformation `sva::PTransformd(r)`: identity rotation, translation `r`. -/
def PTransformd.ofTranslation (r : Vec3) : PTransformd :=
  ⟨Mat3.one, r⟩

/-- Composition `a * b` of the library `sva`: rotation `E_a E_b`, translation
`r_b + E_bᵀ r_a`. -/
def PTransformd.mul (a b : PTransformd) : PTransformd :=
  ⟨Mat3.mul a.rotation b.rotation,
    b.translation.add (Mat3.mulVec (Mat3.transpose b.rotation) a.translation)⟩

/-- Inverse `inv()` of the library `sva`: rotation `Eᵀ`, translation `−E r`. -/
def PTransformd.inv (a : PTransformd) : PTransformd :=
  ⟨Mat3.transpose a.rotation, Vec3.smul (-1) (Mat3.mulVec a.rotation a.translation)⟩

/-- The rotation part is orthonormal, `Eᵀ E = 1`, as for every rigid
transformation. -/
def PTransformd.IsRigid (a : PTransformd) : Prop :=
  Mat3.mul (Mat3.transpose a.rotation) a.rotation = Mat3.one

instance (a : PTransformd) : Decidable a.IsRigid := by
  unfold PTransformd.IsRigid
  infer_instance

/-- The landing pose `swingGoalPose` of the swing synthesis in
`updateFootTraj`: the footstep pose, overwritten when `overwriteLandingPose`
is set and `prevFootstep_` is not null. -/
def swingGoalPose (overwriteLandingPose : Bool) (prevFootstep : Option Footstep)
    (targetFootPoses : Foot → PTransformd) (swingFootstep : Footstep) : PTransformd :=
  match overwriteLandingPose, prevFootstep with
  | true, some prev =>
    let swingRelPose := swingFootstep.pose.mul prev.pose.inv
    swingRelPose.mul (targetFootPoses prev.foot)
  | _, _ => swingFootstep.pose

/-- A pose rotated by a quarter turn about the vertical axis. -/
def turnedPose : PTransformd :=
  ⟨(⟨0, 1, 0⟩, ⟨-1, 0, 0⟩, ⟨0, 0, 1⟩), ⟨1 / 10, 1 / 5, 0⟩⟩

/-- Target foot poses: the left foot at `turnedPose`, the right foot at `samplePose`. -/
def sampleTargetPoses : Foot → PTransformd
  | Foot.Left => turnedPose
  | Foot.Right => samplePose

/-- A left-foot footstep at `turnedPose` over [0, 1]. -/
def turnedStep : Footstep :=
  ⟨Foot.Left, turnedPose, 0, 1 / 10, 9 / 10, 1⟩

/-! ## Swing position synthesis -/

/-- Per-footstep swing configuration (`Footstep::config`): duration ratios and
offsets of the withdraw, approach and swing segments. -/
structure SwingTrajConfig where
  withdrawDurationRatio : ℚ
  approachDurationRatio : ℚ
  withdrawOffset : Vec3
  approachOffset : Vec3
  swingOffset : Vec3
  deriving DecidableEq

/-- Kind of a boundary constraint (`BoundaryConstraintType`). -/
inductive BoundaryConstraintType where
  | Velocity
  | Acceleration
  deriving DecidableEq

/-- Boundary constraint of a spline (`BoundaryConstraint`). -/
structure BoundaryConstraint where
  type : BoundaryConstraintType
  value : Vec3
  deriving DecidableEq

/-- Insertion into a `std::map` keyed by time, kept as the list of its entries
in key order: an entry whose key is already present is not inserted. -/
def mapInsert {α : Type} : List (ℚ × α) → ℚ × α → List (ℚ × α)
  | [], e => [e]
  | x :: m, e =>
    if e.1 < x.1 then e :: x :: m
    else if e.1 = x.1 then x :: m
    else x :: mapInsert m e

/-- A `std::map` built from an initializer list: the entries are inserted in
order. -/
def mapOfList {α : Type} (entries : List (ℚ × α)) : List (ℚ × α) :=
  entries.foldl mapInsert []

/-- A cubic spline (`CubicSpline`) as constructed: the waypoint map and the two
boundary constraints. -/
structure CubicSpline where
  points : List (ℚ × Vec3)
  bcStart : BoundaryConstraint
  bcEnd : BoundaryConstraint
  deriving DecidableEq

/-- A piecewise function (`PiecewiseFunc`) as built by `appendFunc`: the map
from hand-over times to segment functions, in key order. -/
structure PiecewiseFunc where
  funcs : List (ℚ × CubicSpline)
  deriving DecidableEq

/-- The call `appendFunc(t, func)`. -/
def PiecewiseFunc.appendFunc (p : PiecewiseFunc) (t : ℚ) (func : CubicSpline) : PiecewiseFunc :=
  ⟨mapInsert p.funcs (t, func)⟩

/-- What the swing position synthesis of `updateFootTraj` builds: the three
waypoint maps, the three splines and `swingPosFunc_`. -/
structure SwingPosSynthesis where
  withdrawPosWaypoints : List (ℚ × Vec3)
  approachPosWaypoints : List (ℚ × Vec3)
  swingPosWaypoints : List (ℚ × Vec3)
  withdrawPosSpline : CubicSpline
  approachPosSpline : CubicSpline
  swingPosSpline : CubicSpline
  swingPosFunc : PiecewiseFunc
  deriving DecidableEq

/-- Embedding of the block `// Set swingPosFunc_` of `updateFootTraj`, for the
position: from the pose of the swing foot at synthesis, the landing pose, the
footstep and its configuration, on the empty `swingPosFunc_` left by the
previous phase exit.  The first derivative of a spline and `sva::interpolate`
are arguments; `none` stands for an exception of `derivative`. -/
def synthesizeSwingPos (derivative : CubicSpline → ℚ → Option Vec3)
    (interpolate : PTransformd → PTransformd → ℚ → PTransformd)
    (swingStartPose swingGoalPose : PTransformd) (swingFootstep : Footstep)
    (config : SwingTrajConfig) : Option SwingPosSynthesis :=
  let withdrawDuration :=
    config.withdrawDurationRatio * (swingFootstep.swingEndTime - swingFootstep.swingStartTime)
  let approachDuration :=
    config.approachDurationRatio * (swingFootstep.swingEndTime - swingFootstep.swingStartTime)
  let zeroVelBC : BoundaryConstraint := ⟨BoundaryConstraintType.Velocity, Vec3.zero⟩
  let zeroAccelBC : BoundaryConstraint := ⟨BoundaryConstraintType.Acceleration, Vec3.zero⟩
  let withdrawPosWaypoints :=
    mapOfList
      [(swingFootstep.swingStartTime, swingStartPose.translation),
        (swingFootstep.swingStartTime + withdrawDuration,
          ((PTransformd.ofTranslation config.withdrawOffset).mul swingStartPose).translation)]
  let withdrawPosSpline : CubicSpline := ⟨withdrawPosWaypoints, zeroVelBC, zeroAccelBC⟩
  let approachPosWaypoints :=
    mapOfList
      [(swingFootstep.swingEndTime - approachDuration,
          ((PTransformd.ofTranslation config.approachOffset).mul swingGoalPose).translation),
        (swingFootstep.swingEndTime, swingGoalPose.translation)]
  let approachPosSpline : CubicSpline := ⟨approachPosWaypoints, zeroAccelBC, zeroVelBC⟩
  match withdrawPosWaypoints.getLast?, approachPosWaypoints.head?,
    derivative withdrawPosSpline (swingFootstep.swingStartTime + withdrawDuration),
    derivative approachPosSpline (swingFootstep.swingEndTime - approachDuration) with
  | some withdrawLast, some approachFirst, some withdrawEndVel, some approachStartVel =>
    let swingPosWaypoints :=
      mapOfList
        [withdrawLast,
          (1 / 2 * (swingFootstep.swingStartTime + swingFootstep.swingEndTime),
            ((PTransformd.ofTranslation config.swingOffset).mul
              (interpolate swingStartPose swingGoalPose (1 / 2))).translation),
          approachFirst]
    let swingPosSpline : CubicSpline :=
      ⟨swingPosWaypoints, ⟨BoundaryConstraintType.Velocity, withdrawEndVel⟩,
        ⟨BoundaryConstraintType.Velocity, approachStartVel⟩⟩
    some
      { withdrawPosWaypoints := withdrawPosWaypoints
        approachPosWaypoints := approachPosWaypoints
        swingPosWaypoints := swingPosWaypoints
        withdrawPosSpline := withdrawPosSpline
        approachPosSpline := approachPosSpline
        swingPosSpline := swingPosSpline
        swingPosFunc :=
          ((PiecewiseFunc.appendFunc ⟨[]⟩ (swingFootstep.swingStartTime + withdrawDuration)
              withdrawPosSpline).appendFunc
            swingFootstep.swingEndTime approachPosSpline).appendFunc
            (swingFootstep.swingEndTime - approachDuration) swingPosSpline }
  | _, _, _, _ => none

/-! ## Evaluation of splines and piecewise functions -/

/-- Modelled from the spec: one segment of a cubic spline, which is outside
src/.  The cubic on `[t0, t1]` with values `x0`, `x1` and first derivatives
`v0`, `v1` at the two ends, evaluated at `t`. -/
def hermite (t0 t1 x0 x1 v0 v1 t : ℚ) : ℚ :=
  let h := t1 - t0
  let s := (t - t0) / h
  x0 * (2 * s ^ 3 - 3 * s ^ 2 + 1) + h * v0 * (s ^ 3 - 2 * s ^ 2 + s) +
    x1 * (-2 * s ^ 3 + 3 * s ^ 2) + h * v1 * (s ^ 3 - s ^ 2)

/-- Modelled from the spec: first derivative of the segment `hermite` at `t`. -/
def hermiteDeriv (t0 t1 x0 x1 v0 v1 t : ℚ) : ℚ :=
  let h := t1 - t0
  let s := (t - t0) / h
  (x0 * (6 * s ^ 2 - 6 * s) + h * v0 * (3 * s ^ 2 - 4 * s + 1) +
    x1 * (-6 * s ^ 2 + 6 * s) + h * v1 * (3 * s ^ 2 - 2 * s)) / h

/-- Modelled from the spec: second derivative of the segment `hermite` at `t`. -/
def hermiteDeriv2 (t0 t1 x0 x1 v0 v1 t : ℚ) : ℚ :=
  let h := t1 - t0
  let s := (t - t0) / h
  (x0 * (12 * s - 6) + h * v0 * (6 * s - 4) + x1 * (-12 * s + 6) + h * v1 * (6 * s - 2)) /
    h ^ 2

/-- Modelled from the spec: first derivatives at the two waypoints of a cubic
spline through two waypoints, from its boundary constraints (kinds `bs`, `be`
with values `cs`, `ce`), the duration `h` and the value difference `d`: a
velocity constraint gives the derivative itself, an acceleration constraint
fixes the second derivative at that end. -/
def knotVelocities (bs be : BoundaryConstraintType) (cs ce h d : ℚ) : ℚ × ℚ :=
  match bs, be with
  | BoundaryConstraintType.Velocity, BoundaryConstraintType.Velocity => (cs, ce)
  | BoundaryConstraintType.Velocity, BoundaryConstraintType.Acceleration =>
    (cs, (ce * h + 6 * d / h - 2 * cs) / 4)
  | BoundaryConstraintType.Acceleration, BoundaryConstraintType.Velocity =>
    ((6 * d / h - cs * h - 2 * ce) / 4, ce)
  | BoundaryConstraintType.Acceleration, BoundaryConstraintType.Acceleration =>
    (d / h - (2 * cs + ce) * h / 6, d / h + (cs + 2 * ce) * h / 6)

/-- Modelled from the spec: first derivative at the middle waypoint of a cubic
spline through three waypoints with velocity constraints `v0`, `v2` at the
ends, fixed by the continuity of the second derivative there (`h1`, `h2`
durations and `d1`, `d2` value differences of the two segments). -/
def middleVelocity (h1 h2 d1 d2 v0 v2 : ℚ) : ℚ :=
  (3 * d1 / h1 ^ 2 + 3 * d2 / h2 ^ 2 - v0 / h1 - v2 / h2) / (2 / h1 + 2 / h2)

/-- Modelled from the spec: value (`order = 0`) or first derivative
(`order = 1`) at `t` of one coordinate of a cubic spline, for the two shapes
that the swing synthesis builds: two waypoints with any boundary constraints,
three waypoints with velocity constraints at both ends.  Other shapes are not
modelled (`none`). -/
def splineCoordinate (order : Nat) (points : List (ℚ × ℚ)) (bs be : BoundaryConstraintType)
    (cs ce t : ℚ) : Option ℚ :=
  let segment := if order = 0 then hermite else hermiteDeriv
  match points with
  | [p0, p1] =>
    let v := knotVelocities bs be cs ce (p1.1 - p0.1) (p1.2 - p0.2)
    some (segment p0.1 p1.1 p0.2 p1.2 v.1 v.2 t)
  | [p0, p1, p2] =>
    match bs, be with
    | BoundaryConstraintType.Velocity, BoundaryConstraintType.Velocity =>
      let v1 := middleVelocity (p1.1 - p0.1) (p2.1 - p1.1) (p1.2 - p0.2) (p2.2 - p1.2) cs ce
      some
        (if t ≤ p1.1 then segment p0.1 p1.1 p0.2 p1.2 cs v1 t
          else segment p1.1 p2.1 p1.2 p2.2 v1 ce t)
    | _, _ => none
  | _ => none

/-- Modelled from the spec: a vector-valued spline query, coordinate by
coordinate. -/
def CubicSpline.query (order : Nat) (f : CubicSpline) (t : ℚ) : Option Vec3 :=
  match
    splineCoordinate order (f.points.map (fun p => (p.1, p.2.x))) f.bcStart.type f.bcEnd.type
      f.bcStart.value.x f.bcEnd.value.x t,
    splineCoordinate order (f.points.map (fun p => (p.1, p.2.y))) f.bcStart.type f.bcEnd.type
      f.bcStart.value.y f.bcEnd.value.y t,
    splineCoordinate order (f.points.map (fun p => (p.1, p.2.z))) f.bcStart.type f.bcEnd.type
      f.bcStart.value.z f.bcEnd.value.z t with
  | some x, some y, some z => some ⟨x, y, z⟩
  | _, _, _ => none

/-- Modelled from the spec: the value `(*spline)(t)` of a cubic spline. -/
def CubicSpline.eval (f : CubicSpline) (t : ℚ) : Option Vec3 :=
  f.query 0 t

/-- Modelled from the spec: the first derivative `spline->derivative(t, 1)`. -/
def CubicSpline.derivative (f : CubicSpline) (t : ℚ) : Option Vec3 :=
  f.query 1 t

/-- Modelled from the spec: the segment of a piecewise function in charge at
`t`, the one with the earliest hand-over time not before `t`; `PiecewiseFunc`
is outside src/. -/
def PiecewiseFunc.segment (p : PiecewiseFunc) (t : ℚ) : Option CubicSpline :=
  (p.funcs.find? (fun e => decide (t ≤ e.1))).map (fun e => e.2)

/-- Modelled from the spec: the value `(*swingPosFunc_)(t)` of a piecewise
function, the value of the segment in charge at `t`. -/
def PiecewiseFunc.eval (p : PiecewiseFunc) (t : ℚ) : Option Vec3 :=
  match p.segment t with
  | some f => f.eval t
  | none => none

/-- Modelled from the spec: the first derivative of a piecewise function. -/
def PiecewiseFunc.derivative (p : PiecewiseFunc) (t : ℚ) : Option Vec3 :=
  match p.segment t with
  | some f => f.derivative t
  | none => none

/-- Duration of the withdraw segment, `withdrawDurationRatio` times the swing
duration. -/
def SwingTrajConfig.withdrawDuration (config : SwingTrajConfig) (f : Footstep) : ℚ :=
  config.withdrawDurationRatio * (f.swingEndTime - f.swingStartTime)

/-- Duration of the approach segment, `approachDurationRatio` times the swing
duration. -/
def SwingTrajConfig.approachDuration (config : SwingTrajConfig) (f : Footstep) : ℚ :=
  config.approachDurationRatio * (f.swingEndTime - f.swingStartTime)

/-- The withdraw spline that the synthesis builds when the withdraw duration is
positive. -/
def withdrawSplineOf (swingStartPose : PTransformd) (f : Footstep) (config : SwingTrajConfig) :
    CubicSpline :=
  ⟨[(f.swingStartTime, swingStartPose.translation),
      (f.swingStartTime + config.withdrawDuration f,
        ((PTransformd.ofTranslation config.withdrawOffset).mul swingStartPose).translation)],
    ⟨BoundaryConstraintType.Velocity, Vec3.zero⟩,
    ⟨BoundaryConstraintType.Acceleration, Vec3.zero⟩⟩

/-- The approach spline that the synthesis builds when the approach duration is
positive. -/
def approachSplineOf (swingGoalPose : PTransformd) (f : Footstep) (config : SwingTrajConfig) :
    CubicSpline :=
  ⟨[(f.swingEndTime - config.approachDuration f,
        ((PTransformd.ofTranslation config.approachOffset).mul swingGoalPose).translation),
      (f.swingEndTime, swingGoalPose.translation)],
    ⟨BoundaryConstraintType.Acceleration, Vec3.zero⟩,
    ⟨BoundaryConstraintType.Velocity, Vec3.zero⟩⟩

/-- A stand-in for `sva::interpolate` in the examples: the translations are
blended linearly and the rotation of the first pose is kept. -/
def blendTranslation (a b : PTransformd) (w : ℚ) : PTransformd :=
  ⟨a.rotation, (Vec3.smul (1 - w) a.translation).add (Vec3.smul w b.translation)⟩

/-- A swing configuration with a quarter of the swing for the withdraw and for
the approach. -/
def sampleSwingConfig : SwingTrajConfig :=
  ⟨1 / 4, 1 / 4, ⟨0, 0, 1 / 50⟩, ⟨0, 0, 1 / 50⟩, ⟨0, 0, 1 / 20⟩⟩

/-- A swing configuration with a negative approach duration ratio. -/
def negativeApproachConfig : SwingTrajConfig :=
  ⟨1 / 4, -1 / 8, ⟨0, 0, 1 / 50⟩, ⟨0, 0, 1 / 50⟩, ⟨0, 0, 1 / 20⟩⟩

/-- A swing configuration whose withdraw takes three quarters of the swing and
whose approach takes one eighth. -/
def longWithdrawConfig : SwingTrajConfig :=
  ⟨3 / 4, 1 / 8, ⟨0, 0, 1 / 50⟩, ⟨0, 0, 1 / 50⟩, ⟨0, 0, 1 / 20⟩⟩

/-- The pose of the swing foot at the start of the examples: at the origin. -/
def originPose : PTransformd :=
  ⟨Mat3.one, Vec3.zero⟩

/-- The result of the synthesis when both durations are positive and the
derivatives of the withdraw and approach splines at the hand-over times are
`d1` and `d2`. -/
def swingSynthesisOf (d1 d2 : Vec3) (interpolate : PTransformd → PTransformd → ℚ → PTransformd)
    (startPose goalPose : PTransformd) (f : Footstep) (config : SwingTrajConfig) :
    SwingPosSynthesis :=
  let swingPosWaypoints :=
    mapOfList
      [(f.swingStartTime + config.withdrawDuration f,
          ((PTransformd.ofTranslation config.withdrawOffset).mul startPose).translation),
        (1 / 2 * (f.swingStartTime + f.swingEndTime),
          ((PTransformd.ofTranslation config.swingOffset).mul
            (interpolate startPose goalPose (1 / 2))).translation),
        (f.swingEndTime - config.approachDuration f,
          ((PTransformd.ofTranslation config.approachOffset).mul goalPose).translation)]
  let swingPosSpline : CubicSpline :=
    ⟨swingPosWaypoints, ⟨BoundaryConstraintType.Velocity, d1⟩,
      ⟨BoundaryConstraintType.Velocity, d2⟩⟩
  { withdrawPosWaypoints := (withdrawSplineOf startPose f config).points
    approachPosWaypoints := (approachSplineOf goalPose f config).points
    swingPosWaypoints := swingPosWaypoints
    withdrawPosSpline := withdrawSplineOf startPose f config
    approachPosSpline := approachSplineOf goalPose f config
    swingPosSpline := swingPosSpline
    swingPosFunc :=
      ((PiecewiseFunc.appendFunc ⟨[]⟩ (f.swingStartTime + config.withdrawDuration f)
          (withdrawSplineOf startPose f config)).appendFunc
        f.swingEndTime (approachSplineOf goalPose f config)).appendFunc
        (f.swingEndTime - config.approachDuration f) swingPosSpline }

/-! ## ZMP and ground-height reference planner -/

/-- Modelled from the spec: `opposite` of a foot, declared outside src/; it
maps each foot to the other one. -/
def opposite : Foot → Foot
  | Foot.Left => Foot.Right
  | Foot.Right => Foot.Left

/-- A map from feet to poses (`std::unordered_map<Foot, sva::PTransformd>`):
the entry of each foot, if any. -/
structure FootPoseMap where
  left : Option PTransformd
  right : Option PTransformd
  deriving DecidableEq

/-- Foot poses with an entry for both feet, as `lastDoubleSupportFootPoses_`
and `targetFootPoses_` have since `reset`. -/
structure FootPoses where
  left : PTransformd
  right : PTransformd
  deriving DecidableEq

/-- The entry `footPoses.at(foot)`. -/
def FootPoses.at (p : FootPoses) : Foot → PTransformd
  | Foot.Left => p.left
  | Foot.Right => p.right

/-- The assignment `footPoses.at(foot) = pose`. -/
def FootPoses.set (p : FootPoses) (foot : Foot) (pose : PTransformd) : FootPoses :=
  match foot with
  | Foot.Left => { p with left := pose }
  | Foot.Right => { p with right := pose }

/-- The map holding both entries. -/
def FootPoses.toMap (p : FootPoses) : FootPoseMap :=
  ⟨some p.left, some p.right⟩

/-- The map `{{foot, pose}}` with a single entry. -/
def FootPoseMap.single (foot : Foot) (pose : PTransformd) : FootPoseMap :=
  match foot with
  | Foot.Left => ⟨some pose, none⟩
  | Foot.Right => ⟨none, some pose⟩

/-- Embedding of `FootManager::calcZmpWithOffset(foot, footPose)`. -/
def calcZmpWithOffsetFoot (zmpOffset : Vec3) (foot : Foot) (footPose : PTransformd) : Vec3 :=
  let offset : Vec3 :=
    if foot = Foot.Right then ⟨zmpOffset.x, zmpOffset.y * -1, zmpOffset.z⟩ else zmpOffset
  ((PTransformd.ofTranslation offset).mul footPose).translation

/-- Embedding of `FootManager::calcZmpWithOffset(footPoses)`. -/
def calcZmpWithOffset (zmpOffset : Vec3) (footPoses : FootPoseMap) : Vec3 :=
  match footPoses.left, footPoses.right with
  | none, none => Vec3.zero
  | some l, none => calcZmpWithOffsetFoot zmpOffset Foot.Left l
  | none, some r => calcZmpWithOffsetFoot zmpOffset Foot.Right r
  | some l, some r =>
    Vec3.smul (1 / 2)
      ((calcZmpWithOffsetFoot zmpOffset Foot.Left l).add
        (calcZmpWithOffsetFoot zmpOffset Foot.Right r))

/-- The lambda `calcFootMidposZ` of `updateZmpTraj`. -/
def calcFootMidposZ (footPoses : FootPoses) : ℚ :=
  1 / 2 * (footPoses.left.translation.z + footPoses.right.translation.z)

/-- What `updateZmpTraj` builds: the waypoints appended to `zmpFunc_` and to
`groundPosZFunc_`, in the order of the `appendPoint` calls, and the map
`contactFootPosesList_` in key order. -/
structure ZmpTraj where
  zmpPoints : List (ℚ × Vec3)
  groundPosZPoints : List (ℚ × ℚ)
  contactFootPosesList : List (ℚ × FootPoseMap)
  deriving DecidableEq

/-- One `appendPoint` on each interpolant and one `emplace` on the contact map. -/
def ZmpTraj.append (traj : ZmpTraj) (time : ℚ) (zmp : Vec3) (groundPosZ : ℚ)
    (contact : FootPoseMap) : ZmpTraj :=
  ⟨traj.zmpPoints ++ [(time, zmp)], traj.groundPosZPoints ++ [(time, groundPosZ)],
    mapInsert traj.contactFootPosesList (time, contact)⟩

/-- The loop `for(const auto & footstep : footstepQueue_)` of `updateZmpTraj`,
with its `break`: returns `footPoses` and the trajectory after the loop. -/
def zmpLoop (zmpOffset : Vec3) (horizonEnd : ℚ) :
    List Footstep → FootPoses → ZmpTraj → FootPoses × ZmpTraj
  | [], footPoses, traj => (footPoses, traj)
  | footstep :: rest, footPoses, traj =>
    let supportFoot := opposite footstep.foot
    let supportFootZmp := calcZmpWithOffsetFoot zmpOffset supportFoot (footPoses.at supportFoot)
    let traj1 :=
      traj.append footstep.transitStartTime (calcZmpWithOffset zmpOffset footPoses.toMap)
        (calcFootMidposZ footPoses) footPoses.toMap
    let traj2 :=
      traj1.append footstep.swingStartTime supportFootZmp (calcFootMidposZ footPoses)
        (FootPoseMap.single supportFoot (footPoses.at supportFoot))
    let footPoses1 := footPoses.set footstep.foot footstep.pose
    let traj3 :=
      traj2.append footstep.swingEndTime supportFootZmp (calcFootMidposZ footPoses1)
        footPoses1.toMap
    let traj4 :=
      traj3.append footstep.transitEndTime (calcZmpWithOffset zmpOffset footPoses1.toMap)
        (calcFootMidposZ footPoses1) footPoses1.toMap
    if horizonEnd ≤ footstep.transitEndTime then (footPoses1, traj4)
    else zmpLoop zmpOffset horizonEnd rest footPoses1 traj4

/-- Embedding of `FootManager::updateZmpTraj` at control time `t`, up to the
`calcCoeff` calls (the low-pass filter update is left out). -/
def updateZmpTraj (zmpOffset : Vec3) (zmpHorizon : ℚ) (footstepQueue : List Footstep)
    (lastDoubleSupportFootPoses : FootPoses) (t : ℚ) : ZmpTraj :=
  let footPoses := lastDoubleSupportFootPoses
  let initial : ZmpTraj :=
    if footstepQueue.isEmpty ∨ (∃ front ∈ footstepQueue.head?, t < front.transitStartTime) then
      ZmpTraj.append ⟨[], [], []⟩ t (calcZmpWithOffset zmpOffset footPoses.toMap)
        (calcFootMidposZ footPoses) footPoses.toMap
    else ⟨[], [], []⟩
  let afterLoop := zmpLoop zmpOffset (t + zmpHorizon) footstepQueue footPoses initial
  if footstepQueue.isEmpty ∨
      (∃ back ∈ footstepQueue.getLast?, back.transitEndTime < t + zmpHorizon) then
    ⟨afterLoop.2.zmpPoints ++
        [(t + zmpHorizon, calcZmpWithOffset zmpOffset afterLoop.1.toMap)],
      afterLoop.2.groundPosZPoints ++ [(t + zmpHorizon, calcFootMidposZ afterLoop.1)],
      afterLoop.2.contactFootPosesList⟩
  else afterLoop.2

/-- Foot poses after the queue: for every queued footstep in order, the pose of
its foot is replaced by the footstep pose. -/
def posesAfterQueue (footPoses : FootPoses) (footstepQueue : List Footstep) : FootPoses :=
  footstepQueue.foldl (fun poses footstep => poses.set footstep.foot footstep.pose) footPoses

/-- Modelled from the spec: the value of a cubic interpolator
(`CubicInterpolator`, outside src/) through the given waypoints: between two
consecutive waypoints, the cubic with their values and a zero first derivative
at both. -/
def cubicInterpolatorValue : List (ℚ × Vec3) → ℚ → Option Vec3
  | [], _ => none
  | [_], _ => none
  | p0 :: p1 :: rest, t =>
    if t ≤ p1.1 ∨ rest = [] then
      some
        ⟨hermite p0.1 p1.1 p0.2.x p1.2.x 0 0 t, hermite p0.1 p1.1 p0.2.y p1.2.y 0 0 t,
          hermite p0.1 p1.1 p0.2.z p1.2.z 0 0 t⟩
    else cubicInterpolatorValue (p1 :: rest) t

/-- Double-support foot poses of the examples. -/
def standingPoses : FootPoses :=
  ⟨turnedPose, samplePose⟩

/-! ## Contact-pose history and generated footsteps -/

/-- The map without entries (`std::unordered_map<Foot, sva::PTransformd>{}`). -/
def FootPoseMap.empty : FootPoseMap :=
  ⟨none, none⟩

/-- Position of `upper_bound(t)` in a `std::map` kept as the list of its
entries in key order: the number of entries before the first one whose key is
above `t`. -/
def upperBound {α : Type} : List (ℚ × α) → ℚ → Nat
  | [], _ => 0
  | e :: m, t => if t < e.1 then 0 else upperBound m t + 1

/-- Embedding of `FootManager::calcContactFootPoses`: the empty map when
`upper_bound(t)` is `begin()`, otherwise the entry before it. -/
def calcContactFootPoses (contactFootPosesList : List (ℚ × FootPoseMap)) (t : ℚ) : FootPoseMap :=
  match upperBound contactFootPosesList t with
  | 0 => FootPoseMap.empty
  | it + 1 =>
    match contactFootPosesList.get? it with
    | some e => e.2
    | none => FootPoseMap.empty

/-- Rounding to the nearest integer, ties to the even one. -/
def roundHalfEven (y : ℚ) : ℤ :=
  if y - ⌊y⌋ < 1 / 2 then ⌊y⌋
  else if 1 / 2 < y - ⌊y⌋ then ⌊y⌋ + 1
  else if ⌊y⌋ % 2 = 0 then ⌊y⌋
  else ⌊y⌋ + 1

/-- The spacing of the `double` values (IEEE 754 binary64) around `x ≥ 0`:
`2^(e - 52)` with `e` the binary exponent of `x`, not below the exponent
-1022 of the smallest normal number. -/
def doubleQuantum (x : ℚ) : ℚ :=
  (2 : ℚ) ^ (max (Int.log 2 x) (-1022) - 52)

/-- The `double` nearest to `x ≥ 0`, ties to the even significand. -/
def roundDoubleNonneg (x : ℚ) : ℚ :=
  roundHalfEven (x / doubleQuantum x) * doubleQuantum x

/-- The result that an operation on `double` values stores for the exact
result `x`: the nearest binary64 number, ties to even (the default rounding
mode).  Overflow to infinity is not modelled. -/
def roundDouble (x : ℚ) : ℚ :=
  if 0 ≤ x then roundDoubleNonneg x else -roundDoubleNonneg (-x)

/-- The rational `x` is a `double` value. -/
def IsDouble (x : ℚ) : Prop :=
  roundDouble x = x

/-- Embedding of `FootManager::makeFootstep`, from the configuration fields
`footstepDuration`, `doubleSupportRatio` and `midToFootTranss`.  The four
times are computed as the source computes them, in `double` arithmetic: every
product, difference and sum is rounded by `roundDouble`, in the order of
evaluation of the C++ expressions.  The pose product is exact, and the
per-footstep configuration loaded into the footstep is kept apart, as
`SwingTrajConfig`. -/
def makeFootstep (footstepDuration doubleSupportRatio : ℚ)
    (midToFootTranss : Foot → PTransformd) (foot : Foot) (footMidpose : PTransformd)
    (startTime : ℚ) : Footstep :=
  ⟨foot, (midToFootTranss foot).mul footMidpose, startTime,
    roundDouble
      (startTime +
        roundDouble (roundDouble (1 / 2 * doubleSupportRatio) * footstepDuration)),
    roundDouble
      (startTime +
        roundDouble
          (roundDouble (1 - roundDouble (1 / 2 * doubleSupportRatio)) * footstepDuration)),
    roundDouble (startTime + footstepDuration)⟩

/-- The keys of a `std::map` are strictly increasing. -/
def KeysSorted {α : Type} (m : List (ℚ × α)) : Prop :=
  m.Pairwise (fun a b => a.1 < b.1)

/-- A contact-pose history with entries at times 1, 2 and 3, inserted out of
order. -/
def sampleHistory : List (ℚ × FootPoseMap) :=
  mapOfList
    [(2, FootPoseMap.single Foot.Left turnedPose), (1, standingPoses.toMap),
      (3, FootPoseMap.single Foot.Right samplePose)]

/-- A wrench map with moments about the world origin: the left foot carries
the force (−15/2, 0, 300) applied at the point (0, 0, 4/5). -/
def originWrenches : List (Foot × ForceVecd) :=
  [(Foot.Left, ⟨⟨0, -6, 0⟩, ⟨-15 / 2, 0, 300⟩⟩)]

/-! ## Coverage of the ZMP reference -/

/-- One pass through the body of the loop of `updateZmpTraj` for `footstep`:
the updated `footPoses` and the trajectory after the four groups of
`appendPoint` and `emplace` calls. -/
def zmpLoopBody (zmpOffset : Vec3) (footstep : Footstep) (footPoses : FootPoses)
    (traj : ZmpTraj) : FootPoses × ZmpTraj :=
  let supportFoot := opposite footstep.foot
  let supportFootZmp := calcZmpWithOffsetFoot zmpOffset supportFoot (footPoses.at supportFoot)
  let traj1 :=
    traj.append footstep.transitStartTime (calcZmpWithOffset zmpOffset footPoses.toMap)
      (calcFootMidposZ footPoses) footPoses.toMap
  let traj2 :=
    traj1.append footstep.swingStartTime supportFootZmp (calcFootMidposZ footPoses)
      (FootPoseMap.single supportFoot (footPoses.at supportFoot))
  let footPoses1 := footPoses.set footstep.foot footstep.pose
  let traj3 :=
    traj2.append footstep.swingEndTime supportFootZmp (calcFootMidposZ footPoses1)
      footPoses1.toMap
  let traj4 :=
    traj3.append footstep.transitEndTime (calcZmpWithOffset zmpOffset footPoses1.toMap)
      (calcFootMidposZ footPoses1) footPoses1.toMap
  (footPoses1, traj4)

/-- Every waypoint and contact entry of `a` is in `b`, and `b` keeps the
contact map in key order when `a` does. -/
def ZmpTraj.Extends (a b : ZmpTraj) : Prop :=
  (∀ p ∈ a.zmpPoints, p ∈ b.zmpPoints) ∧
  (∀ p ∈ a.groundPosZPoints, p ∈ b.groundPosZPoints) ∧
  (∀ x ∈ a.contactFootPosesList, x ∈ b.contactFootPosesList) ∧
  (KeysSorted a.contactFootPosesList → KeysSorted b.contactFootPosesList)

/-- The trajectory has a ZMP waypoint, a ground-height waypoint and a contact
entry at time `time`. -/
def ZmpTraj.HasTime (traj : ZmpTraj) (time : ℚ) : Prop :=
  (∃ p ∈ traj.zmpPoints, p.1 = time) ∧ (∃ p ∈ traj.groundPosZPoints, p.1 = time) ∧
  (∃ x ∈ traj.contactFootPosesList, x.1 = time)

/-! ## The consistency error -/

/-- The condition on a tick at time `t` that follows a single-support phase:
when the transit of the active swing footstep has ended before `t`, so that the
phase cannot go on, `t` lies outside the swing interval of the queue head
after eviction (or the queue is then empty). -/
def FootManager.tickExitsPhase (s : FootManager) (t : ℚ) : Prop :=
  match s.swingFootstep with
  | some r => r.step.transitEndTime < t → (s.removeOldFootsteps t).swingFront t = none
  | none => True

/-- A run in which every tick satisfies `tickExitsPhase` in the state it
starts from, up to the first error. -/
def FootManager.phasesExited (s : FootManager) : List Op → Prop
  | [] => True
  | op :: ops =>
    (match op with
      | Op.tick t _ => s.tickExitsPhase t
      | _ => True) ∧
    (match s.step op with
      | .ok s1 => s1.phasesExited ops
      | .error _ => True)

/-- The state reached from `sampleManager.reset` by queueing `sampleStepA` and
`sampleStepB` and ticking at 1.5: left support, swinging `sampleStepA`. -/
def swingingTwoManager : FootManager :=
  ⟨sampleConfig, [sampleStepA, sampleStepB], 1, none, SupportPhase.LeftSupport,
    some ⟨1, sampleStepA⟩, false⟩

/-- A run that queues `sampleStepA` and `sampleStepB` and ticks inside the
swing interval of `sampleStepA`. -/
def twoStepRun : List Op :=
  [Op.append 0 sampleStepA, Op.append 0 sampleStepB, Op.tick (3 / 2) noForce]

/-- A run that queues `sampleStepA`, ticks inside its swing interval and ticks
again after its transit. -/
def exitRun : List Op :=
  [Op.append 0 sampleStepA, Op.tick (3 / 2) noForce, Op.tick (5 / 2) noForce]

/-! ## Swing interpolants -/

/-- The swing interpolants held by `FootManager`: the segments of
`swingPosFunc_` in key order, and the waypoints of `swingRotFunc_` and of
`baseYawFunc_` in the order of the `appendPoint` calls. -/
structure SwingInterpolants where
  swingPosFunc : PiecewiseFunc
  swingRotFunc : List (ℚ × (Vec3 × Vec3 × Vec3))
  baseYawFunc : List (ℚ × (Vec3 × Vec3 × Vec3))
  deriving DecidableEq

/-- The interpolants after `swingPosFunc_->clearFuncs()`,
`swingRotFunc_->clearPoints()` and `baseYawFunc_->clearPoints()`. -/
def SwingInterpolants.cleared : SwingInterpolants :=
  ⟨⟨[]⟩, [], []⟩

/-- What the blocks `// Set swingPosFunc_ and swingRotFunc_` and
`// Set baseYawFunc_` of `updateFootTraj` pass to `appendFunc` and
`appendPoint` at a tick: the hand-over times with the withdraw, approach and
swing splines, the four rotation waypoints and the two base-yaw waypoints.
They are computed from the robot and target foot poses, which are outside the
modelled state (`synthesizeSwingPos` gives the position part). -/
structure SwingSynthesis where
  withdrawPos : ℚ × CubicSpline
  approachPos : ℚ × CubicSpline
  swingPos : ℚ × CubicSpline
  rotWithdrawStart : ℚ × (Vec3 × Vec3 × Vec3)
  rotWithdrawEnd : ℚ × (Vec3 × Vec3 × Vec3)
  rotApproachStart : ℚ × (Vec3 × Vec3 × Vec3)
  rotApproachEnd : ℚ × (Vec3 × Vec3 × Vec3)
  yawStart : ℚ × (Vec3 × Vec3 × Vec3)
  yawEnd : ℚ × (Vec3 × Vec3 × Vec3)

/-- The `appendFunc` and `appendPoint` calls of the synthesis at phase entry,
on the interpolants as they are. -/
def SwingInterpolants.synthesize (i : SwingInterpolants) (syn : SwingSynthesis) :
    SwingInterpolants :=
  ⟨((i.swingPosFunc.appendFunc syn.withdrawPos.1 syn.withdrawPos.2).appendFunc
      syn.approachPos.1 syn.approachPos.2).appendFunc syn.swingPos.1 syn.swingPos.2,
    i.swingRotFunc ++
      [syn.rotWithdrawStart, syn.rotWithdrawEnd, syn.rotApproachStart, syn.rotApproachEnd],
    i.baseYawFunc ++ [syn.yawStart, syn.yawEnd]⟩

/-- State of `FootManager` with the swing interpolants: the state `manager` of
the queue, phase and touchdown flag, and the interpolants `interp`. -/
structure SwingState where
  manager : FootManager
  interp : SwingInterpolants
  deriving DecidableEq

/-- The part of `FootManager::reset` acting on the state with interpolants:
the three interpolants are cleared. -/
def SwingState.reset (s : SwingState) : SwingState :=
  ⟨s.manager.reset, SwingInterpolants.cleared⟩

/-- Embedding of `FootManager::updateFootTraj` at control time `t` on the
state with interpolants: as `FootManager.updateFootTraj`, with the synthesis
at phase entry and the clearing at phase exit. -/
def SwingState.updateFootTraj (s0 : SwingState) (t : ℚ) (inp : TickInput)
    (syn : SwingSynthesis) : Except TickError SwingState :=
  let s := s0.manager.removeOldFootsteps t
  match s.swingFront t with
  | some front =>
    match s.swingFootstep with
    | some r =>
      if r.slot ≠ s.popCount then
        .error TickError.swingFootstepNotConsistent
      else
        match s.updateTouchDown t inp with
        | .ok s1 => .ok ⟨s1, s0.interp⟩
        | .error e => .error e
    | none =>
      match
        FootManager.updateTouchDown
          { s with
            swingFootstep := some ⟨s.popCount, front⟩
            supportPhase :=
              if front.foot = Foot.Left then SupportPhase.RightSupport
              else SupportPhase.LeftSupport }
          t inp with
      | .ok s1 => .ok ⟨s1, s0.interp.synthesize syn⟩
      | .error e => .error e
  | none =>
    match s.swingFootstep with
    | some _ =>
      .ok
        ⟨{ s with
            supportPhase := SupportPhase.DoubleSupport
            touchDown := false
            swingFootstep := none },
          SwingInterpolants.cleared⟩
    | none => .ok ⟨s, s0.interp⟩

/-- Operations on the state with interpolants: those of `Op`, a tick carrying
what its synthesis would append. -/
inductive SwingOp where
  | reset
  | configure (c : Configuration)
  | append (t : ℚ) (f : Footstep)
  | tick (t : ℚ) (inp : TickInput) (syn : SwingSynthesis)

/-- The operation on the state without interpolants. -/
def SwingOp.toOp : SwingOp → Op
  | SwingOp.reset => Op.reset
  | SwingOp.configure c => Op.configure c
  | SwingOp.append t f => Op.append t f
  | SwingOp.tick t inp _ => Op.tick t inp

/-- One operation on the state with interpolants; only a tick can raise. -/
def SwingState.step (s : SwingState) : SwingOp → Except TickError SwingState
  | SwingOp.reset => .ok s.reset
  | SwingOp.configure c => .ok ⟨{ s.manager with config := c }, s.interp⟩
  | SwingOp.append t f => .ok ⟨(s.manager.appendFootstep t f).2, s.interp⟩
  | SwingOp.tick t inp syn => s.updateFootTraj t inp syn

/-- A sequence of operations on the state with interpolants, stopping at the
first error. -/
def SwingState.run (s : SwingState) : List SwingOp → Except TickError SwingState
  | [] => .ok s
  | op :: ops =>
    match s.step op with
    | .ok s1 => s1.run ops
    | .error e => .error e

/-- Consistency of the state with interpolants, which holds between
operations: `PhaseInv`, and without a swing footstep the touchdown flag is
false and the interpolants are empty. -/
def SwingInv (s : SwingState) : Prop :=
  PhaseInv s.manager ∧
    (s.manager.swingFootstep = none →
      s.manager.touchDown = false ∧ s.interp = SwingInterpolants.cleared)

/-- A spline through two waypoints at rest, over [11/10, 19/10]. -/
def sampleSpline : CubicSpline :=
  ⟨[(11 / 10, ⟨0, 0, 0⟩), (19 / 10, ⟨1 / 5, 0, 0⟩)],
    ⟨BoundaryConstraintType.Velocity, Vec3.zero⟩, ⟨BoundaryConstraintType.Velocity, Vec3.zero⟩⟩

/-- A synthesis for `sampleStepA` with identity rotations. -/
def sampleSynthesis : SwingSynthesis :=
  ⟨(13 / 10, sampleSpline), (19 / 10, sampleSpline), (17 / 10, sampleSpline),
    (11 / 10, Mat3.one), (13 / 10, Mat3.one), (17 / 10, Mat3.one), (19 / 10, Mat3.one),
    (11 / 10, Mat3.one), (19 / 10, Mat3.one)⟩

/-- A run that queues `sampleStepA` and ticks inside its swing interval. -/
def swingEntryRun : List SwingOp :=
  [SwingOp.append 0 sampleStepA, SwingOp.tick (3 / 2) noForce sampleSynthesis]

/-- The state reached from the reset of `sampleSwingState` by `swingEntryRun`:
left support, swinging `sampleStepA`, with the synthesised interpolants. -/
def swingEntryState : SwingState :=
  ⟨⟨sampleConfig, [sampleStepA], 1, none, SupportPhase.LeftSupport, some ⟨1, sampleStepA⟩,
      false⟩,
    SwingInterpolants.cleared.synthesize sampleSynthesis⟩

/-- The state after the tick at 1.95 from `swingEntryState`: double support,
no swing footstep, empty interpolants. -/
def swingExitState : SwingState :=
  ⟨⟨sampleConfig, [sampleStepA], 1, none, SupportPhase.DoubleSupport, none, false⟩,
    SwingInterpolants.cleared⟩

/-- The foot manager `sampleManager` with interpolants left from a synthesis. -/
def sampleSwingState : SwingState :=
  ⟨sampleManager, SwingInterpolants.cleared.synthesize sampleSynthesis⟩

/-! ## Eviction loop -/

theorem evictLoop_queue (t : ℚ) (q : List Footstep) (p : Option Footstep) (n : Nat) :
    (evictLoop t q p n).1 = q.dropWhile (fun f => decide (f.transitEndTime < t)) := by
  induction q generalizing p n with
  | nil => rfl
  | cons f q ih =>
    by_cases h : f.transitEndTime < t
    · simp [evictLoop, h, ih]
    · simp [evictLoop, h]

theorem evictLoop_prev (t : ℚ) (q : List Footstep) (p : Option Footstep) (n : Nat) :
    (evictLoop t q p n).2.1 =
      match (q.takeWhile (fun f => decide (f.transitEndTime < t))).getLast? with
      | some f => some f
      | none => p := by
  induction q generalizing p n with
  | nil => rfl
  | cons f q ih =>
    by_cases h : f.transitEndTime < t
    · simp only [evictLoop, h, if_true, ih, List.takeWhile_cons, decide_True]
      cases hq : q.takeWhile (fun f => decide (f.transitEndTime < t)) with
      | nil => simp
      | cons g r =>
        cases h2 : (g :: r).getLast? with
        | none => simp at h2
        | some x => simp [List.getLast?_cons_cons, h2]
    · simp [evictLoop, h]

theorem evictLoop_count (t : ℚ) (q : List Footstep) (p : Option Footstep) (n : Nat) :
    (evictLoop t q p n).2.2 =
      n + (q.takeWhile (fun f => decide (f.transitEndTime < t))).length := by
  induction q generalizing p n with
  | nil => rfl
  | cons f q ih =>
    by_cases h : f.transitEndTime < t
    · simp [evictLoop, h, ih]; omega
    · simp [evictLoop, h]

theorem chain_transitEnd_le (f : Footstep) (q : List Footstep)
    (hc : List.Chain' NoOverlap (f :: q))
    (hv : ∀ g ∈ q, g.transitStartTime ≤ g.transitEndTime) :
    ∀ g ∈ q, f.transitEndTime ≤ g.transitEndTime := by
  induction q generalizing f with
  | nil => simp
  | cons a q ih =>
    intro g hg
    have h1 : f.transitEndTime ≤ a.transitStartTime := (List.chain'_cons.1 hc).1
    have h2 : a.transitStartTime ≤ a.transitEndTime := hv a (List.mem_cons_self _ _)
    rcases List.mem_cons.1 hg with rfl | hg
    · exact le_trans h1 h2
    · have := ih a (List.chain'_cons.1 hc).2 (fun g hg => hv g (List.mem_cons_of_mem _ hg)) g hg
      exact le_trans (le_trans h1 h2) this

theorem dropWhile_eq_filter (t : ℚ) (q : List Footstep)
    (hc : List.Chain' NoOverlap q)
    (hv : ∀ g ∈ q, g.transitStartTime ≤ g.transitEndTime) :
    q.dropWhile (fun f => decide (f.transitEndTime < t)) =
        q.filter (fun f => decide (t ≤ f.transitEndTime)) ∧
      q.takeWhile (fun f => decide (f.transitEndTime < t)) =
        q.filter (fun f => decide (f.transitEndTime < t)) := by
  induction q with
  | nil => simp
  | cons f q ih =>
    have hv' : ∀ g ∈ q, g.transitStartTime ≤ g.transitEndTime :=
      fun g hg => hv g (List.mem_cons_of_mem _ hg)
    by_cases h : f.transitEndTime < t
    · have ih' := ih hc.tail hv'
      simp [List.dropWhile_cons, List.takeWhile_cons, h, not_le.2 h, ih'.1, ih'.2]
    · have hle : t ≤ f.transitEndTime := not_lt.1 h
      have hall := chain_transitEnd_le f q hc hv'
      have hkeep : ∀ g ∈ q, t ≤ g.transitEndTime := fun g hg => le_trans hle (hall g hg)
      constructor
      · simp only [List.dropWhile_cons, h, decide_False, Bool.false_eq_true, if_false]
        symm
        rw [List.filter_eq_self]
        intro g hg
        rcases List.mem_cons.1 hg with rfl | hg
        · simpa using hle
        · simpa using hkeep g hg
      · simp only [List.takeWhile_cons, h, decide_False, Bool.false_eq_true, if_false]
        symm
        rw [List.filter_eq_nil_iff]
        intro g hg
        rcases List.mem_cons.1 hg with rfl | hg
        · simpa using hle
        · simpa using hkeep g hg

/-! ## Appending footsteps -/

/-- C1: a footstep whose `transitStartTime` is before the control time, or
before the `transitEndTime` of the last queued footstep, is rejected:
`appendFootstep` returns false and the whole foot manager state is unchanged. -/
theorem appendFootstep_rejects (s : FootManager) (t : ℚ) (f : Footstep)
    (h : f.transitStartTime < t ∨
      ∃ l, s.footstepQueue.getLast? = some l ∧ f.transitStartTime < l.transitEndTime) :
    s.appendFootstep t f = (false, s) := by
  unfold FootManager.appendFootstep
  rcases h with h | ⟨l, hl, hlt⟩
  · simp [h]
  · by_cases ht : f.transitStartTime < t
    · simp [ht]
    · simp [ht, hl, hlt]

theorem appendFootstep_rejects_witness :
    sampleManager.appendFootstep 0 sampleStepA = (false, sampleManager) :=
  appendFootstep_rejects sampleManager 0 sampleStepA
    (Or.inr ⟨sampleStepA, rfl, by norm_num [sampleStepA]⟩)

theorem appendFootstep_accepts (s : FootManager) (t : ℚ) (f : Footstep)
    (ht : t ≤ f.transitStartTime)
    (hl : ∀ l, s.footstepQueue.getLast? = some l → l.transitEndTime ≤ f.transitStartTime) :
    s.appendFootstep t f = (true, { s with footstepQueue := s.footstepQueue ++ [f] }) := by
  unfold FootManager.appendFootstep
  rw [if_neg (not_lt.2 ht)]
  cases hq : s.footstepQueue.getLast? with
  | none => rfl
  | some l => simp [not_lt.2 (hl l hq)]

theorem appendAll_from (s : FootManager) (t : ℚ) (fs : List Footstep)
    (hfuture : ∀ f ∈ fs, t ≤ f.transitStartTime)
    (hchain : List.Chain' NoOverlap fs)
    (hjoin : ∀ l, s.footstepQueue.getLast? = some l → ∀ f, fs.head? = some f →
      l.transitEndTime ≤ f.transitStartTime) :
    (s.appendAll t fs).1 = List.replicate fs.length true ∧
      (s.appendAll t fs).2 = { s with footstepQueue := s.footstepQueue ++ fs } := by
  induction fs generalizing s with
  | nil => simp [FootManager.appendAll]
  | cons f fs ih =>
    have hacc := appendFootstep_accepts s t f (hfuture f (List.mem_cons_self _ _))
      (fun l hl => hjoin l hl f rfl)
    have ih' := ih { s with footstepQueue := s.footstepQueue ++ [f] }
      (fun g hg => hfuture g (List.mem_cons_of_mem _ hg)) hchain.tail
      (by
        intro l hl g hg
        simp at hl
        subst hl
        cases fs with
        | nil => simp at hg
        | cons a r =>
          simp only [List.head?_cons, Option.some.injEq] at hg
          subst hg
          exact (List.chain'_cons.1 hchain).1)
    simp only [FootManager.appendAll, hacc, ih'.1, ih'.2, List.length_cons, List.replicate_succ]
    simp

/-- C2 (amended): on an empty queue, at control time `t`, for footsteps that
all start at or after `t` and that do not overlap, every `appendFootstep`
call returns true and the resulting queue is exactly the sequence, in order;
nothing else in the state changes. -/
theorem appendAll_accepts_all (s : FootManager) (t : ℚ) (fs : List Footstep)
    (hempty : s.footstepQueue = [])
    (hfuture : ∀ f ∈ fs, t ≤ f.transitStartTime)
    (hchain : List.Chain' NoOverlap fs) :
    (s.appendAll t fs).1 = List.replicate fs.length true ∧
      (s.appendAll t fs).2.footstepQueue = fs ∧
      (s.appendAll t fs).2 = { s with footstepQueue := fs } := by
  have h := appendAll_from s t fs hfuture hchain (by simp [hempty])
  refine ⟨h.1, ?_, ?_⟩
  · rw [h.2]; simp [hempty]
  · rw [h.2]; simp [hempty]

theorem appendAll_accepts_all_witness :
    (sampleManager.reset.appendAll 0 [sampleStepA, sampleStepB]).1 = List.replicate 2 true ∧
      (sampleManager.reset.appendAll 0 [sampleStepA, sampleStepB]).2.footstepQueue =
        [sampleStepA, sampleStepB] ∧
      (sampleManager.reset.appendAll 0 [sampleStepA, sampleStepB]).2 =
        { sampleManager.reset with footstepQueue := [sampleStepA, sampleStepB] } :=
  appendAll_accepts_all sampleManager.reset 0 [sampleStepA, sampleStepB] rfl
    (by norm_num [sampleStepA, sampleStepB])
    (by norm_num [NoOverlap, sampleStepA, sampleStepB])

/-- C2 (as stated) fails: at control time 0 on the empty queue, the first
footstep starts at 1 ≥ 0 and the second starts at −1, not before the
`transitEndTime` −2 of the first, yet the second call returns false and the
queue holds only the first footstep. -/
theorem appendAll_counterexample :
    sampleManager.reset.footstepQueue = [] ∧
      (0 : ℚ) ≤ reversedStep.transitStartTime ∧
      List.Chain' NoOverlap [reversedStep, pastStep] ∧
      (sampleManager.reset.appendAll 0 [reversedStep, pastStep]).1 = [true, false] ∧
      (sampleManager.reset.appendAll 0 [reversedStep, pastStep]).2.footstepQueue =
        [reversedStep] := by
  refine ⟨rfl, by norm_num [reversedStep], by norm_num [NoOverlap, reversedStep, pastStep], ?_, ?_⟩
  · norm_num [FootManager.appendAll, FootManager.appendFootstep, FootManager.reset,
      sampleManager, reversedStep, pastStep]
  · norm_num [FootManager.appendAll, FootManager.appendFootstep, FootManager.reset,
      sampleManager, reversedStep, pastStep]

/-! ## No-overlap invariant and eviction -/

theorem appendFootstep_queue (s : FootManager) (t : ℚ) (f : Footstep) :
    (s.appendFootstep t f).2.footstepQueue = s.footstepQueue ∨
      ((s.appendFootstep t f).2.footstepQueue = s.footstepQueue ++ [f] ∧
        ∀ l, s.footstepQueue.getLast? = some l → l.transitEndTime ≤ f.transitStartTime) := by
  unfold FootManager.appendFootstep
  by_cases ht : f.transitStartTime < t
  · simp [ht]
  · cases hq : s.footstepQueue.getLast? with
    | none => simp [ht, hq]
    | some l =>
      by_cases hl : f.transitStartTime < l.transitEndTime
      · simp [ht, hl]
      · right
        simp [ht, hl]
        exact not_lt.1 hl

theorem appendFootstep_noOverlap (s : FootManager) (t : ℚ) (f : Footstep)
    (h : List.Chain' NoOverlap s.footstepQueue) :
    List.Chain' NoOverlap (s.appendFootstep t f).2.footstepQueue := by
  rcases appendFootstep_queue s t f with hq | ⟨hq, hl⟩
  · rw [hq]; exact h
  · rw [hq, List.chain'_append]
    refine ⟨h, List.chain'_singleton _, ?_⟩
    intro x hx y hy
    simp only [List.head?_cons, Option.mem_def, Option.some.injEq] at hy
    subst hy
    exact hl x hx

theorem removeOldFootsteps_queue (s : FootManager) (t : ℚ) :
    (s.removeOldFootsteps t).footstepQueue =
      s.footstepQueue.dropWhile (fun f => decide (f.transitEndTime < t)) :=
  evictLoop_queue t s.footstepQueue s.prevFootstep s.popCount

theorem removeOldFootsteps_noOverlap (s : FootManager) (t : ℚ)
    (h : List.Chain' NoOverlap s.footstepQueue) :
    List.Chain' NoOverlap (s.removeOldFootsteps t).footstepQueue := by
  rw [removeOldFootsteps_queue]
  exact h.suffix (List.dropWhile_suffix _)

theorem queueRun_noOverlap (s : FootManager) (ops : List QueueOp)
    (h : List.Chain' NoOverlap s.footstepQueue) :
    List.Chain' NoOverlap (s.queueRun ops).footstepQueue := by
  induction ops generalizing s with
  | nil => exact h
  | cons op ops ih =>
    apply ih
    cases op with
    | append t f => exact appendFootstep_noOverlap s t f h
    | evict t => exact removeOldFootsteps_noOverlap s t h

theorem updateTouchDown_ok (s s1 : FootManager) (t : ℚ) (inp : TickInput)
    (h : s.updateTouchDown t inp = .ok s1) :
    s1.config = s.config ∧ s1.footstepQueue = s.footstepQueue ∧ s1.popCount = s.popCount ∧
      s1.prevFootstep = s.prevFootstep ∧ s1.supportPhase = s.supportPhase ∧
      s1.swingFootstep = s.swingFootstep ∧
      (s.touchDown = true → s1.touchDown = true) ∧
      (s1.touchDown = true → s.touchDown = true ∨ s.detectTouchDown t inp = some true) := by
  unfold FootManager.updateTouchDown at h
  by_cases htd : s.touchDown = true
  · rw [if_pos htd] at h
    cases h
    simp [htd]
  · rw [if_neg htd] at h
    cases hd : s.detectTouchDown t inp with
    | none => rw [hd] at h; cases h
    | some b =>
      rw [hd] at h
      cases b with
      | true => cases h; simp
      | false => cases h; simp

/-- Inversion of a tick that does not raise, by branch. -/
theorem updateFootTraj_cases (s s1 : FootManager) (t : ℚ) (inp : TickInput)
    (h : s.updateFootTraj t inp = .ok s1) :
    (∃ front, (s.removeOldFootsteps t).swingFront t = some front ∧
      ((∃ r, (s.removeOldFootsteps t).swingFootstep = some r ∧
          r.slot = (s.removeOldFootsteps t).popCount ∧
          (s.removeOldFootsteps t).updateTouchDown t inp = .ok s1) ∨
        ((s.removeOldFootsteps t).swingFootstep = none ∧
          FootManager.updateTouchDown
            { s.removeOldFootsteps t with
              swingFootstep := some ⟨(s.removeOldFootsteps t).popCount, front⟩
              supportPhase :=
                if front.foot = Foot.Left then SupportPhase.RightSupport
                else SupportPhase.LeftSupport }
            t inp = .ok s1))) ∨
    ((s.removeOldFootsteps t).swingFront t = none ∧
      ((∃ r, (s.removeOldFootsteps t).swingFootstep = some r ∧
          s1 = { s.removeOldFootsteps t with
                 supportPhase := SupportPhase.DoubleSupport
                 touchDown := false
                 swingFootstep := none }) ∨
        ((s.removeOldFootsteps t).swingFootstep = none ∧ s1 = s.removeOldFootsteps t))) := by
  unfold FootManager.updateFootTraj at h
  simp only at h
  cases hf : (s.removeOldFootsteps t).swingFront t with
  | some front =>
    left
    refine ⟨front, rfl, ?_⟩
    rw [hf] at h
    simp only at h
    cases hs : (s.removeOldFootsteps t).swingFootstep with
    | some r =>
      left
      rw [hs] at h
      simp only at h
      by_cases hr : r.slot = (s.removeOldFootsteps t).popCount
      · rw [if_neg (not_not.2 hr)] at h
        exact ⟨r, rfl, hr, h⟩
      · rw [if_pos hr] at h
        cases h
    | none =>
      right
      rw [hs] at h
      exact ⟨rfl, h⟩
  | none =>
    right
    refine ⟨rfl, ?_⟩
    rw [hf] at h
    simp only at h
    cases hs : (s.removeOldFootsteps t).swingFootstep with
    | some r =>
      left
      rw [hs] at h
      simp only at h
      cases h
      exact ⟨r, rfl, rfl⟩
    | none =>
      right
      rw [hs] at h
      simp only at h
      cases h
      exact ⟨rfl, rfl⟩

theorem updateFootTraj_queue (s s1 : FootManager) (t : ℚ) (inp : TickInput)
    (h : s.updateFootTraj t inp = .ok s1) :
    s1.footstepQueue = (s.removeOldFootsteps t).footstepQueue ∧
      s1.prevFootstep = (s.removeOldFootsteps t).prevFootstep ∧
      s1.popCount = (s.removeOldFootsteps t).popCount ∧
      s1.config = s.config := by
  have hcfg : (s.removeOldFootsteps t).config = s.config := rfl
  rcases updateFootTraj_cases s s1 t inp h with
    ⟨front, _, ⟨r, _, _, hu⟩ | ⟨_, hu⟩⟩ | ⟨_, ⟨r, _, rfl⟩ | ⟨_, rfl⟩⟩
  · have := updateTouchDown_ok _ _ _ _ hu
    exact ⟨this.2.1, this.2.2.2.1, this.2.2.1, this.1.trans hcfg⟩
  · have := updateTouchDown_ok _ _ _ _ hu
    exact ⟨this.2.1, this.2.2.2.1, this.2.2.1, this.1.trans hcfg⟩
  · exact ⟨rfl, rfl, rfl, hcfg⟩
  · exact ⟨rfl, rfl, rfl, hcfg⟩

theorem step_noOverlap (s s1 : FootManager) (op : Op)
    (h : List.Chain' NoOverlap s.footstepQueue) (hs : s.step op = .ok s1) :
    List.Chain' NoOverlap s1.footstepQueue := by
  cases op with
  | reset => cases hs; exact List.chain'_nil
  | configure c => cases hs; exact h
  | append t f => cases hs; exact appendFootstep_noOverlap s t f h
  | tick t inp =>
    rw [(updateFootTraj_queue s s1 t inp hs).1]
    exact removeOldFootsteps_noOverlap s t h

theorem run_noOverlap (s s1 : FootManager) (ops : List Op)
    (h : List.Chain' NoOverlap s.footstepQueue) (hr : s.run ops = .ok s1) :
    List.Chain' NoOverlap s1.footstepQueue := by
  induction ops generalizing s with
  | nil => cases hr; exact h
  | cons op ops ih =>
    unfold FootManager.run at hr
    cases hs : s.step op with
    | error e => rw [hs] at hr; cases hr
    | ok s2 =>
      rw [hs] at hr
      exact ih s2 (step_noOverlap s s2 op h hs) hr

/-- C4: when every queued footstep has `transitStartTime ≤ transitEndTime`
and the queue has no overlap, the eviction step of `updateFootTraj` at time
`t` leaves exactly the footsteps with `transitEndTime ≥ t`, in order, and
`prevFootstep` becomes the last footstep removed, or is unchanged when none
is removed; a tick that does not raise ends with that queue and that
`prevFootstep`. -/
theorem eviction_removes_expired (s : FootManager) (t : ℚ)
    (hvalid : ∀ f ∈ s.footstepQueue, f.transitStartTime ≤ f.transitEndTime)
    (hchain : List.Chain' NoOverlap s.footstepQueue) :
    (s.removeOldFootsteps t).footstepQueue =
        s.footstepQueue.filter (fun f => decide (t ≤ f.transitEndTime)) ∧
      (s.removeOldFootsteps t).prevFootstep =
        (match (s.footstepQueue.filter (fun f => decide (f.transitEndTime < t))).getLast? with
          | some f => some f
          | none => s.prevFootstep) ∧
      ∀ inp s1, s.updateFootTraj t inp = .ok s1 →
        s1.footstepQueue = s.footstepQueue.filter (fun f => decide (t ≤ f.transitEndTime)) ∧
        s1.prevFootstep =
          (match (s.footstepQueue.filter (fun f => decide (f.transitEndTime < t))).getLast? with
            | some f => some f
            | none => s.prevFootstep) := by
  have hf := dropWhile_eq_filter t s.footstepQueue hchain hvalid
  have hq : (s.removeOldFootsteps t).footstepQueue =
      s.footstepQueue.filter (fun f => decide (t ≤ f.transitEndTime)) := by
    rw [removeOldFootsteps_queue, hf.1]
  have hp : (s.removeOldFootsteps t).prevFootstep =
      (match (s.footstepQueue.filter (fun f => decide (f.transitEndTime < t))).getLast? with
        | some f => some f
        | none => s.prevFootstep) := by
    rw [← hf.2]
    exact evictLoop_prev t s.footstepQueue s.prevFootstep s.popCount
  refine ⟨hq, hp, ?_⟩
  intro inp s1 h
  have hu := updateFootTraj_queue s s1 t inp h
  exact ⟨hu.1.trans hq, hu.2.1.trans hp⟩

/-! ## Support phase -/

theorem swingFront_eq_some (s : FootManager) (t : ℚ) (f : Footstep)
    (h : s.swingFront t = some f) :
    s.footstepQueue.head? = some f ∧ f.swingStartTime ≤ t ∧ t ≤ f.swingEndTime := by
  unfold FootManager.swingFront at h
  cases hq : s.footstepQueue with
  | nil => rw [hq] at h; cases h
  | cons g q =>
    rw [hq] at h
    simp only at h
    by_cases hc : g.swingStartTime ≤ t ∧ t ≤ g.swingEndTime
    · rw [if_pos hc] at h
      cases h
      exact ⟨rfl, hc.1, hc.2⟩
    · rw [if_neg hc] at h
      cases h

theorem expectedSupportPhase_eq (s : FootManager) (t : ℚ) :
    expectedSupportPhase s.footstepQueue t =
      match s.swingFront t with
      | some f => supportPhaseFor f.foot
      | none => SupportPhase.DoubleSupport := by
  unfold expectedSupportPhase FootManager.swingFront
  cases s.footstepQueue with
  | nil => rfl
  | cons g q =>
    by_cases hc : g.swingStartTime ≤ t ∧ t ≤ g.swingEndTime
    · simp only [if_pos hc]
      cases g.foot <;> simp [supportPhaseFor]
    · simp only [if_neg hc]

theorem swingFront_congr (s s1 : FootManager) (t : ℚ)
    (h : s1.footstepQueue = s.footstepQueue) : s1.swingFront t = s.swingFront t := by
  unfold FootManager.swingFront
  rw [h]

theorem removeOldFootsteps_popCount_eq (s : FootManager) (t : ℚ)
    (h : (s.removeOldFootsteps t).popCount = s.popCount) :
    (s.removeOldFootsteps t).footstepQueue = s.footstepQueue := by
  have hc : (s.removeOldFootsteps t).popCount =
      s.popCount + (s.footstepQueue.takeWhile (fun f => decide (f.transitEndTime < t))).length :=
    evictLoop_count t s.footstepQueue s.prevFootstep s.popCount
  have hlen : (s.footstepQueue.takeWhile (fun f => decide (f.transitEndTime < t))).length = 0 := by
    omega
  have hnil := List.length_eq_zero.1 hlen
  rw [removeOldFootsteps_queue]
  have := List.takeWhile_append_dropWhile (fun f => decide (f.transitEndTime < t)) s.footstepQueue
  rw [hnil] at this
  simpa using this

/-- After a tick that does not raise, the phase is the one that the queue
head and the time determine, and the phase consistency holds again. -/
theorem updateFootTraj_phase (s s1 : FootManager) (t : ℚ) (inp : TickInput)
    (hinv : PhaseInv s) (h : s.updateFootTraj t inp = .ok s1) :
    s1.supportPhase = expectedSupportPhase s1.footstepQueue t ∧ PhaseInv s1 := by
  have hq := (updateFootTraj_queue s s1 t inp h).1
  have hpc := (updateFootTraj_queue s s1 t inp h).2.2.1
  rw [expectedSupportPhase_eq, swingFront_congr _ _ t hq]
  have hsw : (s.removeOldFootsteps t).swingFootstep = s.swingFootstep := rfl
  have hph : (s.removeOldFootsteps t).supportPhase = s.supportPhase := rfl
  rcases updateFootTraj_cases s s1 t inp h with
    ⟨front, hf, ⟨r, hr, hslot, hu⟩ | ⟨hnone, hu⟩⟩ | ⟨hf, ⟨r, hr, rfl⟩ | ⟨hnone, rfl⟩⟩
  · have ho := updateTouchDown_ok _ _ _ _ hu
    rw [hsw] at hr
    unfold PhaseInv at hinv
    rw [hr] at hinv
    simp only at hinv
    have hsame := removeOldFootsteps_popCount_eq s t (by rw [← hslot]; exact hinv.2.1)
    have hhead := (swingFront_eq_some _ _ _ hf).1
    rw [hsame, hinv.2.2] at hhead
    have hfr : r.step = front := Option.some.inj hhead
    rw [hf]
    simp only
    refine ⟨?_, ?_⟩
    · rw [ho.2.2.2.2.1, hph, hinv.1, hfr]
    · unfold PhaseInv
      rw [ho.2.2.2.2.2.1, hsw, hr]
      simp only
      refine ⟨?_, ?_, ?_⟩
      · rw [ho.2.2.2.2.1, hph]; exact hinv.1
      · rw [ho.2.2.1]; exact hslot
      · rw [ho.2.1, hsame]; exact hinv.2.2
  · have ho := updateTouchDown_ok _ _ _ _ hu
    have hhead := (swingFront_eq_some _ _ _ hf).1
    rw [hf]
    simp only
    refine ⟨?_, ?_⟩
    · rw [ho.2.2.2.2.1]; rfl
    · unfold PhaseInv
      rw [ho.2.2.2.2.2.1]
      simp only
      refine ⟨?_, ?_, ?_⟩
      · rw [ho.2.2.2.2.1]; rfl
      · rw [ho.2.2.1]
      · rw [ho.2.1]; exact hhead
  · rw [hf]
    exact ⟨rfl, rfl⟩
  · rw [hf]
    unfold PhaseInv at hinv
    rw [← hsw, hnone] at hinv
    simp only at hinv
    refine ⟨hinv, ?_⟩
    unfold PhaseInv
    rw [hnone]
    exact hinv

theorem appendFootstep_fields (s : FootManager) (t : ℚ) (f : Footstep) :
    (s.appendFootstep t f).2.config = s.config ∧
      (s.appendFootstep t f).2.popCount = s.popCount ∧
      (s.appendFootstep t f).2.prevFootstep = s.prevFootstep ∧
      (s.appendFootstep t f).2.supportPhase = s.supportPhase ∧
      (s.appendFootstep t f).2.swingFootstep = s.swingFootstep ∧
      (s.appendFootstep t f).2.touchDown = s.touchDown := by
  unfold FootManager.appendFootstep
  by_cases ht : f.transitStartTime < t
  · simp [ht]
  · cases hq : s.footstepQueue.getLast? with
    | none => simp [ht]
    | some l =>
      by_cases hl : f.transitStartTime < l.transitEndTime
      · simp [ht, hl]
      · simp [ht, hl]

theorem appendFootstep_phaseInv (s : FootManager) (t : ℚ) (f : Footstep) (hinv : PhaseInv s) :
    PhaseInv (s.appendFootstep t f).2 := by
  have hfl := appendFootstep_fields s t f
  unfold PhaseInv at hinv ⊢
  rw [hfl.2.2.2.2.1]
  cases hs : s.swingFootstep with
  | none =>
    rw [hs] at hinv
    simp only at hinv ⊢
    rw [hfl.2.2.2.1]; exact hinv
  | some r =>
    rw [hs] at hinv
    simp only at hinv ⊢
    refine ⟨by rw [hfl.2.2.2.1]; exact hinv.1, by rw [hfl.2.1]; exact hinv.2.1, ?_⟩
    rcases appendFootstep_queue s t f with hq | ⟨hq, _⟩
    · rw [hq]; exact hinv.2.2
    · rw [hq]
      cases hq' : s.footstepQueue with
      | nil => rw [hq'] at hinv; simp at hinv
      | cons a q => rw [hq'] at hinv; simpa using hinv.2.2

theorem step_phaseInv (s s1 : FootManager) (op : Op) (hinv : PhaseInv s)
    (h : s.step op = .ok s1) : PhaseInv s1 := by
  cases op with
  | reset => cases h; rfl
  | configure c => cases h; exact hinv
  | append t f => cases h; exact appendFootstep_phaseInv s t f hinv
  | tick t inp => exact (updateFootTraj_phase s s1 t inp hinv h).2

theorem run_phaseInv (s s1 : FootManager) (ops : List Op) (hinv : PhaseInv s)
    (h : s.run ops = .ok s1) : PhaseInv s1 := by
  induction ops generalizing s with
  | nil => cases h; exact hinv
  | cons op ops ih =>
    unfold FootManager.run at h
    cases hs : s.step op with
    | error e => rw [hs] at h; cases h
    | ok s2 =>
      rw [hs] at h
      exact ih s2 (step_phaseInv s s2 op hinv hs) h

theorem reset_phaseInv (s : FootManager) : PhaseInv s.reset := rfl

theorem detectTouchDown_isSome (s : FootManager) (t : ℚ) (inp : TickInput) (r : SwingRef)
    (h : s.swingFootstep = some r) : ∃ b, s.detectTouchDown t inp = some b := by
  unfold FootManager.detectTouchDown FootManager.touchDownRemainingDuration
  rw [h]
  by_cases hp : s.supportPhase = SupportPhase.DoubleSupport
  · exact ⟨false, by simp [hp]⟩
  · simp only [if_neg hp]
    split_ifs <;> exact ⟨_, rfl⟩

theorem updateTouchDown_progress (s : FootManager) (t : ℚ) (inp : TickInput) (r : SwingRef)
    (h : s.swingFootstep = some r) : ∃ s1, s.updateTouchDown t inp = .ok s1 := by
  unfold FootManager.updateTouchDown
  by_cases htd : s.touchDown = true
  · exact ⟨s, by rw [if_pos htd]⟩
  · rw [if_neg htd]
    obtain ⟨b, hb⟩ := detectTouchDown_isSome s t inp r h
    rw [hb]
    cases b
    · exact ⟨_, rfl⟩
    · exact ⟨_, rfl⟩

/-- A tick raises only through the consistency check: it returns a state
unless, after eviction, the front is inside its swing interval while
`swingFootstep_` addresses another element. -/
theorem updateFootTraj_progress (s : FootManager) (t : ℚ) (inp : TickInput)
    (h : ∀ front r, (s.removeOldFootsteps t).swingFront t = some front →
      s.swingFootstep = some r → r.slot = (s.removeOldFootsteps t).popCount) :
    ∃ s1, s.updateFootTraj t inp = .ok s1 := by
  unfold FootManager.updateFootTraj
  simp only
  have hsw : (s.removeOldFootsteps t).swingFootstep = s.swingFootstep := rfl
  cases hf : (s.removeOldFootsteps t).swingFront t with
  | some front =>
    simp only
    cases hs : (s.removeOldFootsteps t).swingFootstep with
    | some r =>
      simp only
      rw [if_neg (not_not.2 (h front r hf (hsw ▸ hs)))]
      exact updateTouchDown_progress _ t inp r hs
    | none =>
      simp only
      exact updateTouchDown_progress _ t inp _ rfl
  | none =>
    simp only
    cases hs : (s.removeOldFootsteps t).swingFootstep with
    | some r => exact ⟨_, rfl⟩
    | none => exact ⟨_, rfl⟩

theorem scenario_phases (s0 : FootManager) (pose : PTransformd) (t0 t1 t2 t3 : ℚ)
    (i1 i2 i3 : TickInput) (h0 : t0 ≤ 1) (h1 : t1 < 11 / 10) (h2 : 11 / 10 ≤ t2)
    (h2' : t2 ≤ 19 / 10) (h3 : 19 / 10 < t3) :
    ∃ a b c,
      s0.reset.run [Op.append t0 (scenarioStep pose), Op.tick t1 i1] = .ok a ∧
        a.supportPhase = SupportPhase.DoubleSupport ∧
      a.updateFootTraj t2 i2 = .ok b ∧ b.supportPhase = SupportPhase.LeftSupport ∧
      b.updateFootTraj t3 i3 = .ok c ∧ c.supportPhase = SupportPhase.DoubleSupport := by
  have hacc : s0.reset.appendFootstep t0 (scenarioStep pose) =
      (true, { s0.reset with footstepQueue := [scenarioStep pose] }) :=
    appendFootstep_accepts s0.reset t0 (scenarioStep pose) h0 (by intro l hl; cases hl)
  have hn1 : ¬ ((2 : ℚ) < t1) := by linarith
  have hn1' : ¬ ((11 / 10 : ℚ) ≤ t1 ∧ t1 ≤ 19 / 10) := fun h => absurd h.1 (not_le.2 h1)
  have hn2 : ¬ ((2 : ℚ) < t2) := by linarith
  have hn3 : ¬ ((11 / 10 : ℚ) ≤ t3 ∧ t3 ≤ 19 / 10) := fun h => absurd h.2 (not_le.2 h3)
  have htick : FootManager.updateFootTraj
      { s0.reset with footstepQueue := [scenarioStep pose] } t1 i1 =
      .ok { s0.reset with footstepQueue := [scenarioStep pose] } := by
    simp [FootManager.updateFootTraj, FootManager.removeOldFootsteps, evictLoop,
      FootManager.swingFront, scenarioStep, hn1, hn1', FootManager.reset]
  have ha : s0.reset.run [Op.append t0 (scenarioStep pose), Op.tick t1 i1] =
      .ok { s0.reset with footstepQueue := [scenarioStep pose] } := by
    simp only [FootManager.run, FootManager.step, hacc, htick]
  have hinvA : PhaseInv { s0.reset with footstepQueue := [scenarioStep pose] } := rfl
  obtain ⟨b, hb⟩ := updateFootTraj_progress
    { s0.reset with footstepQueue := [scenarioStep pose] } t2 i2 (by intro f r _ hr; cases hr)
  have hbq := (updateFootTraj_queue _ _ _ _ hb).1
  rw [removeOldFootsteps_queue] at hbq
  have hbq' : b.footstepQueue = [scenarioStep pose] := by
    rw [hbq]; simp [scenarioStep, hn2]
  have hbp := updateFootTraj_phase _ _ _ _ hinvA hb
  obtain ⟨c, hc⟩ := updateFootTraj_progress b t3 i3 (by
    intro f r hf
    have hfr := swingFront_eq_some _ _ _ hf
    have hsub : (b.removeOldFootsteps t3).footstepQueue.head? = some f := hfr.1
    rw [removeOldFootsteps_queue, hbq'] at hsub
    by_cases h23 : (2 : ℚ) < t3
    · simp [scenarioStep, h23] at hsub
    · simp [scenarioStep, h23] at hsub
      subst hsub
      exact absurd hfr.2.2 (not_le.2 h3))
  have hcp := updateFootTraj_phase _ _ _ _ hbp.2 hc
  have hcq := (updateFootTraj_queue _ _ _ _ hc).1
  rw [removeOldFootsteps_queue, hbq'] at hcq
  refine ⟨_, b, c, ha, rfl, hb, ?_, hc, ?_⟩
  · rw [hbp.1, hbq']
    simp [expectedSupportPhase, scenarioStep, h2, h2']
  · rw [hcp.1, hcq]
    by_cases h23 : (2 : ℚ) < t3
    · simp [scenarioStep, h23, expectedSupportPhase]
    · simp [scenarioStep, h23, expectedSupportPhase, hn3]

/-- C5: in every state reachable from `reset`, after an `updateFootTraj` tick
at time `t` that does not raise, the support phase is the one that the queue
head after eviction and `t` determine: right support while a left-foot head
swings, left support while a right-foot head swings, double support
otherwise.  For the single right-foot footstep with times 1.0, 1.1, 1.9, 2.0,
ticks before 1.1, inside [1.1, 1.9] and after 1.9 do not raise and give
double support, left support, double support. -/
theorem supportPhase_determined :
    (∀ (s0 s1 s2 : FootManager) (ops : List Op) (t : ℚ) (inp : TickInput),
      s0.reset.run ops = .ok s1 → s1.updateFootTraj t inp = .ok s2 →
      s2.supportPhase = expectedSupportPhase s2.footstepQueue t) ∧
    (∀ (s0 : FootManager) (pose : PTransformd) (t0 t1 t2 t3 : ℚ) (i1 i2 i3 : TickInput),
      t0 ≤ 1 → t1 < 11 / 10 → 11 / 10 ≤ t2 → t2 ≤ 19 / 10 → 19 / 10 < t3 →
      ∃ a b c,
        s0.reset.run [Op.append t0 (scenarioStep pose), Op.tick t1 i1] = .ok a ∧
          a.supportPhase = SupportPhase.DoubleSupport ∧
        a.updateFootTraj t2 i2 = .ok b ∧ b.supportPhase = SupportPhase.LeftSupport ∧
        b.updateFootTraj t3 i3 = .ok c ∧ c.supportPhase = SupportPhase.DoubleSupport) :=
  ⟨fun s0 s1 s2 ops t inp hrun htick =>
      (updateFootTraj_phase s1 s2 t inp (run_phaseInv _ _ ops (reset_phaseInv s0) hrun) htick).1,
    fun s0 pose t0 t1 t2 t3 i1 i2 i3 h0 h1 h2 h2' h3 =>
      scenario_phases s0 pose t0 t1 t2 t3 i1 i2 i3 h0 h1 h2 h2' h3⟩

/-! ## Touchdown detection -/

theorem normGt_eq_false_iff (v : Vec3) (e : ℚ) :
    v.normGt e = false ↔ Real.sqrt ((v.normSq : ℚ) : ℝ) ≤ ((e : ℚ) : ℝ) := by
  unfold Vec3.normGt
  rw [Real.sqrt_le_iff]
  simp only [Bool.or_eq_false_iff, decide_eq_false_iff_not, not_lt]
  constructor
  · rintro ⟨h0, h1⟩
    refine ⟨by exact_mod_cast h0, ?_⟩
    have : ((v.normSq : ℚ) : ℝ) ≤ ((e * e : ℚ) : ℝ) := by exact_mod_cast h1
    rw [pow_two]
    simpa using this
  · rintro ⟨h0, h1⟩
    refine ⟨by exact_mod_cast h0, ?_⟩
    rw [pow_two] at h1
    exact_mod_cast h1

theorem detectTouchDown_doubleSupport (s : FootManager) (t : ℚ) (inp : TickInput)
    (h : s.supportPhase = SupportPhase.DoubleSupport) :
    s.detectTouchDown t inp = some false := by
  unfold FootManager.detectTouchDown
  rw [if_pos h]

theorem detectTouchDown_single (s : FootManager) (t : ℚ) (inp : TickInput) (r : SwingRef)
    (hp : s.supportPhase ≠ SupportPhase.DoubleSupport) (hr : s.swingFootstep = some r) :
    s.detectTouchDown t inp = some true ↔
      r.step.swingEndTime - t ≤ s.config.touchDownRemainingDuration ∧
      ((inp.swingPosFunc r.step.swingEndTime).sub (inp.swingPosFunc t)).normGt
        s.config.touchDownPosError = false ∧
      s.config.touchDownForceZ ≤
        inp.surfaceForceZ
          (if s.supportPhase = SupportPhase.LeftSupport then Foot.Right else Foot.Left) := by
  unfold FootManager.detectTouchDown FootManager.touchDownRemainingDuration
  rw [if_neg hp, if_neg hp, hr]
  simp only
  by_cases ha : r.step.swingEndTime - t > s.config.touchDownRemainingDuration
  · rw [if_pos ha]
    simp [not_le.2 ha]
  · rw [if_neg ha]
    by_cases hb : ((inp.swingPosFunc r.step.swingEndTime).sub (inp.swingPosFunc t)).normGt
        s.config.touchDownPosError = true
    · rw [if_pos hb]
      simp [hb]
    · rw [if_neg hb]
      by_cases hc : inp.surfaceForceZ
          (if s.supportPhase = SupportPhase.LeftSupport then Foot.Right else Foot.Left) <
          s.config.touchDownForceZ
      · rw [if_pos hc]
        simp [not_le.2 hc]
      · rw [if_neg hc]
        simp [not_lt.1 ha, not_lt.1 hc, hb]

theorem updateFootTraj_keeps_touchDown (s s1 : FootManager) (t : ℚ) (inp : TickInput)
    (htd : s.touchDown = true) (hne : s.swingFootstep ≠ none)
    (h : s.updateFootTraj t inp = .ok s1) (hsame : s1.swingFootstep = s.swingFootstep) :
    s1.touchDown = true := by
  have hsw : (s.removeOldFootsteps t).swingFootstep = s.swingFootstep := rfl
  have htd' : (s.removeOldFootsteps t).touchDown = true := htd
  rcases updateFootTraj_cases s s1 t inp h with
    ⟨front, _, ⟨r, _, _, hu⟩ | ⟨hnone, _⟩⟩ | ⟨_, ⟨r, _, rfl⟩ | ⟨hnone, rfl⟩⟩
  · exact (updateTouchDown_ok _ _ _ _ hu).2.2.2.2.2.2.1 htd'
  · exact absurd (hsw ▸ hnone) hne
  · exact absurd hsame.symm hne
  · exact absurd (hsw ▸ hnone) hne

theorem step_keeps_touchDown (s s1 : FootManager) (op : Op)
    (htd : s.touchDown = true) (hne : s.swingFootstep ≠ none)
    (h : s.step op = .ok s1) (hsame : s1.swingFootstep = s.swingFootstep) :
    s1.touchDown = true := by
  cases op with
  | reset => cases h; exact absurd hsame.symm hne
  | configure c => cases h; exact htd
  | append t f => cases h; rw [(appendFootstep_fields s t f).2.2.2.2.2]; exact htd
  | tick t inp => exact updateFootTraj_keeps_touchDown s s1 t inp htd hne h hsame

theorem staysInPhase_touchDown (s : FootManager) (ops : List Op)
    (htd : s.touchDown = true) (hne : s.swingFootstep ≠ none) (hstay : s.staysInPhase ops) :
    ∃ s1, s.run ops = .ok s1 ∧ s1.touchDown = true ∧ s1.swingFootstep = s.swingFootstep := by
  induction ops generalizing s with
  | nil => exact ⟨s, rfl, htd, rfl⟩
  | cons op ops ih =>
    obtain ⟨s2, hstep, hsame, hrest⟩ := hstay
    have htd2 := step_keeps_touchDown s s2 op htd hne hstep hsame
    obtain ⟨s1, hrun, h1, h2⟩ := ih s2 htd2 (by rw [hsame]; exact hne) hrest
    refine ⟨s1, ?_, h1, h2.trans hsame⟩
    unfold FootManager.run
    rw [hstep]
    exact hrun

theorem updateFootTraj_clears_touchDown (s s1 : FootManager) (t : ℚ) (inp : TickInput)
    (htd : s.touchDown = true) (h : s.updateFootTraj t inp = .ok s1)
    (hclear : s1.touchDown = false) :
    s.swingFootstep ≠ none ∧ s1.swingFootstep = none ∧
      s1.supportPhase = SupportPhase.DoubleSupport := by
  have hsw : (s.removeOldFootsteps t).swingFootstep = s.swingFootstep := rfl
  have htd' : (s.removeOldFootsteps t).touchDown = true := htd
  rcases updateFootTraj_cases s s1 t inp h with
    ⟨front, _, ⟨r, _, _, hu⟩ | ⟨hnone, hu⟩⟩ | ⟨_, ⟨r, hr, rfl⟩ | ⟨hnone, rfl⟩⟩
  · have := (updateTouchDown_ok _ _ _ _ hu).2.2.2.2.2.2.1 htd'
    rw [this] at hclear; cases hclear
  · have := (updateTouchDown_ok _ _ _ _ hu).2.2.2.2.2.2.1 htd'
    rw [this] at hclear; cases hclear
  · refine ⟨?_, rfl, rfl⟩
    rw [← hsw, hr]
    simp
  · rw [htd'] at hclear; cases hclear

/-- C7: once `touchDown` is true with a swing footstep set, it is true after
every sequence of operations (ticks with any inputs at any times,
`appendFootstep` calls, configuration changes) throughout which the swing
footstep stays the same; and a tick that turns it from true to false is a
phase exit: a swing footstep was set before, none is set after, and the phase
after is double support. -/
theorem touchDown_latch :
    (∀ (s : FootManager) (ops : List Op), s.touchDown = true → s.swingFootstep ≠ none →
      s.staysInPhase ops →
      ∃ s1, s.run ops = .ok s1 ∧ s1.touchDown = true ∧ s1.swingFootstep = s.swingFootstep) ∧
    (∀ (s s1 : FootManager) (t : ℚ) (inp : TickInput), s.touchDown = true →
      s.updateFootTraj t inp = .ok s1 → s1.touchDown = false →
      s.swingFootstep ≠ none ∧ s1.swingFootstep = none ∧
        s1.supportPhase = SupportPhase.DoubleSupport) :=
  ⟨staysInPhase_touchDown, updateFootTraj_clears_touchDown⟩

theorem run_append (s s2 : FootManager) (ops : List Op) (op : Op) :
    s.run (ops ++ [op]) = .ok s2 ↔ ∃ s1, s.run ops = .ok s1 ∧ s1.step op = .ok s2 := by
  induction ops generalizing s with
  | nil =>
    simp only [List.nil_append, FootManager.run]
    cases hs : s.step op with
    | error e => simp [hs]
    | ok s3 => simp [hs, FootManager.run]
  | cons o ops ih =>
    simp only [List.cons_append, FootManager.run]
    cases hs : s.step o with
    | error e => simp
    | ok s3 => simpa using ih s3

theorem tickTimes_append (ops : List Op) (op : Op) :
    tickTimes (ops ++ [op]) = tickTimes ops ++ tickTimes [op] := by
  induction ops with
  | nil => simp [tickTimes]
  | cons o ops ih =>
    cases o <;> simp [tickTimes, ih]

theorem detectTouchDown_true_remaining (s : FootManager) (t : ℚ) (inp : TickInput)
    (h : s.detectTouchDown t inp = some true) :
    ∃ r, s.swingFootstep = some r ∧
      r.step.swingEndTime - s.config.touchDownRemainingDuration ≤ t := by
  by_cases hp : s.supportPhase = SupportPhase.DoubleSupport
  · rw [detectTouchDown_doubleSupport s t inp hp] at h
    cases h
  · cases hr : s.swingFootstep with
    | none =>
      unfold FootManager.detectTouchDown FootManager.touchDownRemainingDuration at h
      rw [if_neg hp, if_neg hp, hr] at h
      cases h
    | some r =>
      have := ((detectTouchDown_single s t inp r hp hr).1 h).1
      exact ⟨r, rfl, by linarith⟩

/-- Invariant behind C8: the configuration is the initial one and, when
`touchDown` is true, a swing footstep is set and some tick so far happened at
or after its `swingEndTime − touchDownRemainingDuration`. -/
theorem run_touchDown_bound (s0 s : FootManager) (ops : List Op)
    (hcfg : ∀ op ∈ ops, op.isConfigure = false) (hrun : s0.reset.run ops = .ok s) :
    s.config = s0.config ∧
      (s.touchDown = true → ∃ r, s.swingFootstep = some r ∧ ∃ τ ∈ tickTimes ops,
        r.step.swingEndTime - s0.config.touchDownRemainingDuration ≤ τ) := by
  induction ops using List.reverseRecOn generalizing s with
  | nil =>
    cases hrun
    exact ⟨rfl, fun h => by cases h⟩
  | append_singleton ops op ih =>
    obtain ⟨s1, hrun1, hstep⟩ := (run_append _ _ _ _).1 hrun
    have ih1 := ih s1 (fun o ho => hcfg o (List.mem_append_left _ ho)) hrun1
    have hmono : ∀ τ ∈ tickTimes ops, τ ∈ tickTimes (ops ++ [op]) := by
      intro τ hτ
      rw [tickTimes_append]
      exact List.mem_append_left _ hτ
    cases op with
    | reset =>
      cases hstep
      exact ⟨ih1.1, fun h => by cases h⟩
    | configure c =>
      have := hcfg (Op.configure c) (List.mem_append_right _ (List.mem_singleton_self _))
      cases this
    | append t f =>
      cases hstep
      have hfl := appendFootstep_fields s1 t f
      refine ⟨hfl.1.trans ih1.1, ?_⟩
      intro htd
      rw [hfl.2.2.2.2.2] at htd
      obtain ⟨r, hr, τ, hτ, hb⟩ := ih1.2 htd
      exact ⟨r, hfl.2.2.2.2.1.trans hr, τ, hmono τ hτ, hb⟩
    | tick t inp =>
      have hstep' : s1.updateFootTraj t inp = .ok s := hstep
      have hc : s.config = s0.config := (updateFootTraj_queue s1 s t inp hstep').2.2.2.trans ih1.1
      refine ⟨hc, ?_⟩
      intro htd
      have hsw : (s1.removeOldFootsteps t).swingFootstep = s1.swingFootstep := rfl
      have htdE : (s1.removeOldFootsteps t).touchDown = s1.touchDown := rfl
      have hcfgE : (s1.removeOldFootsteps t).config = s0.config := ih1.1
      have hnow : t ∈ tickTimes (ops ++ [Op.tick t inp]) := by
        rw [tickTimes_append]
        exact List.mem_append_right _ (by simp [tickTimes])
      rcases updateFootTraj_cases s1 s t inp hstep' with
        ⟨front, _, ⟨r, hr, _, hu⟩ | ⟨hnone, hu⟩⟩ | ⟨_, ⟨r, hr, rfl⟩ | ⟨hnone, rfl⟩⟩
      · have ho := updateTouchDown_ok _ _ _ _ hu
        rcases ho.2.2.2.2.2.2.2 htd with hold | hdet
        · obtain ⟨r', hr', τ, hτ, hb⟩ := ih1.2 (htdE ▸ hold)
          exact ⟨r', ho.2.2.2.2.2.1.trans (hsw.trans hr'), τ, hmono τ hτ, hb⟩
        · obtain ⟨r', hr', hb⟩ := detectTouchDown_true_remaining _ t inp hdet
          rw [hcfgE] at hb
          exact ⟨r', ho.2.2.2.2.2.1.trans hr', t, hnow, hb⟩
      · have ho := updateTouchDown_ok _ _ _ _ hu
        rcases ho.2.2.2.2.2.2.2 htd with hold | hdet
        · obtain ⟨r', hr', _⟩ := ih1.2 (htdE ▸ hold)
          rw [← hsw, hnone] at hr'
          cases hr'
        · obtain ⟨r', hr', hb⟩ := detectTouchDown_true_remaining _ t inp hdet
          have hb' : r'.step.swingEndTime - s0.config.touchDownRemainingDuration ≤ t := by
            rw [← hcfgE]; exact hb
          exact ⟨r', ho.2.2.2.2.2.1.trans hr', t, hnow, hb'⟩
      · cases htd
      · obtain ⟨r', hr', _⟩ := ih1.2 (htdE ▸ htd)
        rw [← hsw, hnone] at hr'
        cases hr'

theorem getCurrentContactFeet_cases (s : FootManager) :
    s.getCurrentContactFeet = Feet.Both ∨ s.getCurrentContactFeet = [Foot.Left] ∨
      s.getCurrentContactFeet = [Foot.Right] := by
  unfold FootManager.getCurrentContactFeet
  split_ifs <;> simp

theorem calcCurrentContactList_eq (s : FootManager) (localVertices : Foot → List Vec3)
    (targetFootPoses : Foot → PTransformd) :
    s.calcCurrentContactList localVertices targetFootPoses =
      s.getCurrentContactFeet.map
        (fun foot => (foot, s.contactOf localVertices targetFootPoses foot)) := by
  unfold FootManager.calcCurrentContactList
  rcases getCurrentContactFeet_cases s with h | h | h <;>
    rw [h] <;> simp [Feet.Both, emplace, FootManager.contactOf]

/-- C9: `getCurrentContactFeet` returns both feet in double support; in left
(resp. right) support without the touchdown grace condition it returns
exactly the left (resp. right) foot; in single support with the grace
condition it returns both feet.  `calcCurrentContactList` holds, for each foot
of that set in order, the contact built for it, so exactly one entry per foot
of the set and none for another foot. -/
theorem contact_set_membership (s : FootManager) :
    (s.supportPhase = SupportPhase.DoubleSupport → s.getCurrentContactFeet = Feet.Both) ∧
    (s.supportPhase = SupportPhase.LeftSupport →
      ¬ (s.config.enableWrenchDistForTouchDownFoot = true ∧ s.touchDown = true) →
      s.getCurrentContactFeet = [Foot.Left]) ∧
    (s.supportPhase = SupportPhase.RightSupport →
      ¬ (s.config.enableWrenchDistForTouchDownFoot = true ∧ s.touchDown = true) →
      s.getCurrentContactFeet = [Foot.Right]) ∧
    (s.supportPhase ≠ SupportPhase.DoubleSupport →
      s.config.enableWrenchDistForTouchDownFoot = true ∧ s.touchDown = true →
      s.getCurrentContactFeet = Feet.Both) ∧
    (∀ (localVertices : Foot → List Vec3) (targetFootPoses : Foot → PTransformd),
      s.calcCurrentContactList localVertices targetFootPoses =
          s.getCurrentContactFeet.map
            (fun foot => (foot, s.contactOf localVertices targetFootPoses foot)) ∧
        ∀ foot : Foot,
          ((s.calcCurrentContactList localVertices targetFootPoses).filter
              (fun e => decide (e.1 = foot))).length =
            if foot ∈ s.getCurrentContactFeet then 1 else 0) := by
  refine ⟨?_, ?_, ?_, ?_, ?_⟩
  · intro h
    simp [FootManager.getCurrentContactFeet, h]
  · intro h hg
    have hg' : (s.config.enableWrenchDistForTouchDownFoot && s.touchDown) = false := by
      simpa using hg
    simp [FootManager.getCurrentContactFeet, h, hg']
  · intro h hg
    have hg' : (s.config.enableWrenchDistForTouchDownFoot && s.touchDown) = false := by
      simpa using hg
    simp [FootManager.getCurrentContactFeet, h, hg']
  · intro h hg
    simp [FootManager.getCurrentContactFeet, h, hg.1, hg.2]
  · intro lv tp
    refine ⟨calcCurrentContactList_eq s lv tp, ?_⟩
    intro foot
    rw [calcCurrentContactList_eq]
    rcases getCurrentContactFeet_cases s with h | h | h <;>
      rw [h] <;> cases foot <;> simp [Feet.Both, List.filter]

theorem contact_set_membership_witness :
    touchedDownManager.getCurrentContactFeet = Feet.Both ∧
      { touchedDownManager with touchDown := false }.getCurrentContactFeet = [Foot.Left] :=
  ⟨(contact_set_membership touchedDownManager).2.2.2.1 (by decide) ⟨rfl, rfl⟩,
    (contact_set_membership { touchedDownManager with touchDown := false }).2.1 rfl
      (by decide)⟩

/-! ## Left-foot support ratio -/

theorem clamp_one : clamp 1 0 1 = 1 := by
  norm_num [clamp]

/-- C10 (amended): for every head footstep and every time `t` with
`swingStartTime ≤ t ≤ swingEndTime` and `transitStartTime < t`,
`leftFootSupportRatio` returns 0 when the head footstep's foot is left and 1
when it is right (the timing order of the footstep is not needed). -/
theorem leftFootSupportRatio_swing (s : FootManager) (f : Footstep) (rest : List Footstep)
    (t : ℚ) (hq : s.footstepQueue = f :: rest)
    (hs : f.swingStartTime ≤ t) (he : t ≤ f.swingEndTime) (ht : f.transitStartTime < t) :
    s.leftFootSupportRatio t = if f.foot = Foot.Left then 0 else 1 := by
  unfold FootManager.leftFootSupportRatio
  rw [hq]
  simp only
  rw [if_neg (not_le.2 ht)]
  by_cases hts : t ≤ f.swingStartTime
  · have heq : t = f.swingStartTime := le_antisymm hts hs
    have hpos : f.swingStartTime - f.transitStartTime ≠ 0 := by
      have : f.transitStartTime < f.swingStartTime := heq ▸ ht
      exact ne_of_gt (sub_pos.2 this)
    rw [if_pos hts, heq, div_self hpos, clamp_one]
    cases f.foot
    · norm_num [sign]
    · norm_num [sign]
      simp
  · rw [if_neg hts, if_pos he]

theorem leftFootSupportRatio_swing_witness :
    sampleManager.leftFootSupportRatio (3 / 2) =
      if sampleStepA.foot = Foot.Left then 0 else 1 :=
  leftFootSupportRatio_swing sampleManager sampleStepA [] (3 / 2) rfl
    (by norm_num [sampleStepA]) (by norm_num [sampleStepA]) (by norm_num [sampleStepA])

/-- C10 (as stated) fails when the transit and the swing start together: for
the left-foot head footstep with times 1, 1, 2, 2, which satisfies the timing
order, at `t = 1` inside the closed swing interval `leftFootSupportRatio`
returns 0.5, not 0. -/
theorem leftFootSupportRatio_counterexample :
    noTransitManager.footstepQueue = [noTransitStep] ∧
      noTransitStep.foot = Foot.Left ∧
      noTransitStep.transitStartTime ≤ noTransitStep.swingStartTime ∧
      noTransitStep.swingStartTime ≤ noTransitStep.swingEndTime ∧
      noTransitStep.swingEndTime ≤ noTransitStep.transitEndTime ∧
      noTransitStep.swingStartTime ≤ 1 ∧ (1 : ℚ) ≤ noTransitStep.swingEndTime ∧
      noTransitManager.leftFootSupportRatio 1 = 1 / 2 ∧
      noTransitManager.leftFootSupportRatio 1 ≠ 0 := by
  have h : noTransitManager.leftFootSupportRatio 1 = 1 / 2 := by
    norm_num [FootManager.leftFootSupportRatio, noTransitManager, noTransitStep]
  refine ⟨rfl, rfl, ?_, ?_, ?_, ?_, ?_, h, ?_⟩
  · norm_num [noTransitStep]
  · norm_num [noTransitStep]
  · norm_num [noTransitStep]
  · norm_num [noTransitStep]
  · norm_num [noTransitStep]
  · rw [h]; norm_num

/-! ## Instances on concrete runs -/

theorem eviction_removes_expired_witness :
    ({ sampleManager with footstepQueue := [sampleStepA, sampleStepB] }.removeOldFootsteps
        (5 / 2)).footstepQueue = [sampleStepB] ∧
      ({ sampleManager with footstepQueue := [sampleStepA, sampleStepB] }.removeOldFootsteps
        (5 / 2)).prevFootstep = some sampleStepA := by
  have h := eviction_removes_expired
    { sampleManager with footstepQueue := [sampleStepA, sampleStepB] } (5 / 2)
    (by norm_num [sampleStepA, sampleStepB])
    (by norm_num [NoOverlap, sampleStepA, sampleStepB])
  refine ⟨h.1.trans ?_, h.2.1.trans ?_⟩
  · norm_num [List.filter, sampleStepA, sampleStepB]
  · norm_num [List.filter, sampleStepA, sampleStepB]

theorem supportPhase_determined_witness :
    ∃ a b c,
      sampleManager.reset.run [Op.append 0 (scenarioStep samplePose), Op.tick 1 noForce] =
          .ok a ∧
        a.supportPhase = SupportPhase.DoubleSupport ∧
      a.updateFootTraj (3 / 2) noForce = .ok b ∧ b.supportPhase = SupportPhase.LeftSupport ∧
      b.updateFootTraj 2 noForce = .ok c ∧ c.supportPhase = SupportPhase.DoubleSupport :=
  supportPhase_determined.2 sampleManager samplePose 0 1 (3 / 2) 2 noForce noForce noForce
    (by norm_num) (by norm_num) (by norm_num) (by norm_num) (by norm_num)

theorem touchedDown_run :
    sampleManager.reset.run
        ([Op.append 0 sampleStepA, Op.tick 1 noForce] ++ [Op.tick (9 / 5) forceAtThreshold]) =
      .ok touchedDownManager := by
  norm_num [FootManager.run, FootManager.step, FootManager.appendFootstep, FootManager.reset,
    FootManager.updateFootTraj, FootManager.removeOldFootsteps, evictLoop,
    FootManager.swingFront, FootManager.updateTouchDown, FootManager.detectTouchDown,
    FootManager.touchDownRemainingDuration, sampleManager, sampleStepA, sampleConfig,
    forceAtThreshold, noForce, touchedDownManager, Vec3.normGt, Vec3.sub, Vec3.normSq]
  simp
  norm_num

theorem touchedDown_stays :
    touchedDownManager.staysInPhase [Op.tick (37 / 20) noForce, Op.append 5 sampleStepB] := by
  norm_num [FootManager.staysInPhase, FootManager.step, FootManager.appendFootstep,
    FootManager.updateFootTraj, FootManager.removeOldFootsteps, evictLoop,
    FootManager.swingFront, FootManager.updateTouchDown,
    sampleStepA, sampleStepB, touchedDownManager]

theorem touchDown_latch_witness :
    ∃ s1, touchedDownManager.run [Op.tick (37 / 20) noForce, Op.append 5 sampleStepB] = .ok s1 ∧
      s1.touchDown = true ∧ s1.swingFootstep = touchedDownManager.swingFootstep :=
  touchDown_latch.1 touchedDownManager [Op.tick (37 / 20) noForce, Op.append 5 sampleStepB]
    rfl (by simp [touchedDownManager]) touchedDown_stays

theorem clamp_nonpos (v : ℚ) (h : v ≤ 0) : clamp v 0 1 = 0 := by
  unfold clamp
  rw [if_neg (by linarith)]
  by_cases hv : v < 0
  · rw [if_pos hv]
  · rw [if_neg hv]; linarith

/-- C11 (amended): `leftFootSupportRatio` returns exactly 0.5 when the queue
is empty; for every head footstep, at every time `t ≤ transitStartTime`; and,
for a head footstep with `swingStartTime ≤ swingEndTime ≤ transitEndTime`, at
every time `t ≥ transitEndTime` that is after `swingEndTime`.  When the
denominator `transitEndTime − swingEndTime` is zero the C++ quotient is −∞ and
the rational one is 0; both are clamped to 0. -/
theorem leftFootSupportRatio_half (s : FootManager) (t : ℚ) :
    (s.footstepQueue = [] → s.leftFootSupportRatio t = 1 / 2) ∧
    (∀ f rest, s.footstepQueue = f :: rest → t ≤ f.transitStartTime →
      s.leftFootSupportRatio t = 1 / 2) ∧
    (∀ f rest, s.footstepQueue = f :: rest → f.swingStartTime ≤ f.swingEndTime →
      f.swingEndTime ≤ f.transitEndTime → f.transitEndTime ≤ t → f.swingEndTime < t →
      s.leftFootSupportRatio t = 1 / 2) := by
  refine ⟨?_, ?_, ?_⟩
  · intro hq
    unfold FootManager.leftFootSupportRatio
    rw [hq]
  · intro f rest hq ht
    unfold FootManager.leftFootSupportRatio
    rw [hq]
    simp only
    rw [if_pos ht]
  · intro f rest hq h2 h3 hte hse
    unfold FootManager.leftFootSupportRatio
    rw [hq]
    simp only
    by_cases h0 : t ≤ f.transitStartTime
    · rw [if_pos h0]
    · rw [if_neg h0, if_neg (not_le.2 (lt_of_le_of_lt h2 hse)), if_neg (not_le.2 hse)]
      have hr : (f.transitEndTime - t) / (f.transitEndTime - f.swingEndTime) ≤ 0 :=
        div_nonpos_of_nonpos_of_nonneg (by linarith) (by linarith)
      rw [clamp_nonpos _ hr]
      ring

theorem leftFootSupportRatio_half_witness :
    sampleManager.leftFootSupportRatio (1 / 2) = 1 / 2 ∧
      sampleManager.leftFootSupportRatio 2 = 1 / 2 :=
  ⟨(leftFootSupportRatio_half sampleManager (1 / 2)).2.1 sampleStepA [] rfl
      (by norm_num [sampleStepA]),
    (leftFootSupportRatio_half sampleManager 2).2.2 sampleStepA [] rfl
      (by norm_num [sampleStepA]) (by norm_num [sampleStepA]) (by norm_num [sampleStepA])
      (by norm_num [sampleStepA])⟩

/-- C11 (as stated) fails when the swing and the transit end together: for the
left-foot head footstep with times 1, 1.5, 2, 2, which satisfies the timing
order, at `t = 2 ≥ transitEndTime` the time is still inside the swing interval
and `leftFootSupportRatio` returns 0, not 0.5. -/
theorem leftFootSupportRatio_half_counterexample :
    noEndTransitManager.footstepQueue = [noEndTransitStep] ∧
      noEndTransitStep.transitStartTime ≤ noEndTransitStep.swingStartTime ∧
      noEndTransitStep.swingStartTime ≤ noEndTransitStep.swingEndTime ∧
      noEndTransitStep.swingEndTime ≤ noEndTransitStep.transitEndTime ∧
      noEndTransitStep.transitEndTime ≤ 2 ∧
      noEndTransitManager.leftFootSupportRatio 2 = 0 ∧
      noEndTransitManager.leftFootSupportRatio 2 ≠ 1 / 2 := by
  have h : noEndTransitManager.leftFootSupportRatio 2 = 0 := by
    norm_num [FootManager.leftFootSupportRatio, noEndTransitManager, noEndTransitStep]
  refine ⟨rfl, ?_, ?_, ?_, ?_, h, ?_⟩
  · norm_num [noEndTransitStep]
  · norm_num [noEndTransitStep]
  · norm_num [noEndTransitStep]
  · norm_num [noEndTransitStep]
  · rw [h]; norm_num

theorem totalWrench_nil : totalWrench [] = ForceVecd.zero := rfl

/-- C12: `calcZmp` returns the ZMP-plane origin `(0, 0, zmpPlaneHeight)` for
the empty wrench map and for every wrench map whose summed vertical force is
not positive, whatever the division operator of the body is (no division is
performed); and when the body divides, the divisor is the strictly positive
summed vertical force. -/
theorem calcZmp_degenerate (zmpPlaneHeight : ℚ) (zmpPlaneNormal : Vec3) :
    (∀ div, calcZmpWith div [] zmpPlaneHeight zmpPlaneNormal = ⟨0, 0, zmpPlaneHeight⟩) ∧
    calcZmp [] zmpPlaneHeight zmpPlaneNormal = ⟨0, 0, zmpPlaneHeight⟩ ∧
    (∀ wrenchList : List (Foot × ForceVecd), (totalWrench wrenchList).force.z ≤ 0 →
      (∀ div, calcZmpWith div wrenchList zmpPlaneHeight zmpPlaneNormal =
        ⟨0, 0, zmpPlaneHeight⟩) ∧
      calcZmp wrenchList zmpPlaneHeight zmpPlaneNormal = ⟨0, 0, zmpPlaneHeight⟩) ∧
    (∀ (wrenchList : List (Foot × ForceVecd)) (div₁ div₂ : ℚ → ℚ → ℚ),
      (∀ a b, 0 < b → div₁ a b = div₂ a b) →
      calcZmpWith div₁ wrenchList zmpPlaneHeight zmpPlaneNormal =
        calcZmpWith div₂ wrenchList zmpPlaneHeight zmpPlaneNormal) := by
  have hneg : ∀ (wrenchList : List (Foot × ForceVecd)) div,
      (totalWrench wrenchList).force.z ≤ 0 →
      calcZmpWith div wrenchList zmpPlaneHeight zmpPlaneNormal = ⟨0, 0, zmpPlaneHeight⟩ := by
    intro wrenchList div h
    unfold calcZmpWith
    simp only
    rw [if_neg (not_lt.2 h)]
  have hnil : (totalWrench []).force.z ≤ 0 := by
    rw [totalWrench_nil]
    exact le_refl _
  refine ⟨fun div => hneg [] div hnil, hneg [] _ hnil,
    fun wrenchList h => ⟨fun div => hneg wrenchList div h, hneg wrenchList _ h⟩, ?_⟩
  intro wrenchList div₁ div₂ hdiv
  unfold calcZmpWith
  simp only
  by_cases h : (totalWrench wrenchList).force.z > 0
  · rw [if_pos h, if_pos h, hdiv _ _ h, hdiv _ _ h, hdiv _ _ h]
  · rw [if_neg h, if_neg h]

theorem calcZmp_degenerate_witness :
    calcZmp pullingWrenches (1 / 10) ⟨0, 0, 1⟩ = ⟨0, 0, 1 / 10⟩ :=
  ((calcZmp_degenerate (1 / 10) ⟨0, 0, 1⟩).2.2.1 pullingWrenches
    (by norm_num [totalWrench, pullingWrenches, ForceVecd.add, ForceVecd.zero, Vec3.add,
      Vec3.zero])).2

/-- C19 (amended): after `update`, with `plannedZmp` and `plannedForceZ` the
output of the strategy on the MPC state, the vertical component of
`controlZmp` is `plannedZmp.z`; the horizontal components are
`plannedZmp.xy + zmpVelGain · refZmpVel.xy` plus, only when
`enableDcmFeedback` is set, `dcmGain · (actualDcm − plannedDcm).xy` with
`DCM = CoM + CoM velocity / omega` and
`omega = sqrt(plannedForceZ / (mass · mpcCom.z))`; with DCM feedback disabled
and `useActualStateForMpc` not set, `controlZmp` is the same for every
estimated real-robot CoM state. -/
theorem controlZmp_law (ext : CentroidalExternals) (config : CentroidalConfiguration)
    (robotMass : ℚ) (inp : CentroidalInput) :
    ((CentroidalManager.update ext config robotMass inp).mpcCom =
        (if config.useActualStateForMpc then inp.realCom else inp.taskCom) ∧
      (CentroidalManager.update ext config robotMass inp).mpcComVel =
        (if config.useActualStateForMpc then inp.realComVelocity else inp.taskRefVel) ∧
      ((CentroidalManager.update ext config robotMass inp).plannedZmp,
          (CentroidalManager.update ext config robotMass inp).plannedForceZ) =
        ext.runMpc (CentroidalManager.update ext config robotMass inp).mpcCom
          (CentroidalManager.update ext config robotMass inp).mpcComVel) ∧
    (CentroidalManager.update ext config robotMass inp).controlZmp.z =
      (CentroidalManager.update ext config robotMass inp).plannedZmp.z ∧
    (config.enableDcmFeedback = false →
      (CentroidalManager.update ext config robotMass inp).controlZmp =
        ⟨(CentroidalManager.update ext config robotMass inp).plannedZmp.x +
            config.zmpVelGain * inp.refZmpVel.x,
          (CentroidalManager.update ext config robotMass inp).plannedZmp.y +
            config.zmpVelGain * inp.refZmpVel.y,
          (CentroidalManager.update ext config robotMass inp).plannedZmp.z⟩) ∧
    (config.enableDcmFeedback = true →
      ∀ omega, omega = ext.sqrt ((CentroidalManager.update ext config robotMass inp).plannedForceZ /
          (robotMass * (CentroidalManager.update ext config robotMass inp).mpcCom.z)) →
      (CentroidalManager.update ext config robotMass inp).controlZmp =
        ⟨(CentroidalManager.update ext config robotMass inp).plannedZmp.x +
            config.zmpVelGain * inp.refZmpVel.x +
            config.dcmGain * ((dcm inp.realCom inp.realComVelocity omega).x -
              (dcm inp.taskCom inp.taskRefVel omega).x),
          (CentroidalManager.update ext config robotMass inp).plannedZmp.y +
            config.zmpVelGain * inp.refZmpVel.y +
            config.dcmGain * ((dcm inp.realCom inp.realComVelocity omega).y -
              (dcm inp.taskCom inp.taskRefVel omega).y),
          (CentroidalManager.update ext config robotMass inp).plannedZmp.z⟩) ∧
    (config.enableDcmFeedback = false → config.useActualStateForMpc = false →
      ∀ realCom realComVelocity : Vec3,
        (CentroidalManager.update ext config robotMass
            { inp with realCom := realCom, realComVelocity := realComVelocity }).controlZmp =
          (CentroidalManager.update ext config robotMass inp).controlZmp) := by
  refine ⟨⟨rfl, rfl, rfl⟩, ?_, ?_, ?_, ?_⟩
  · unfold CentroidalManager.update
    simp only
    split_ifs <;> rfl
  · intro h
    unfold CentroidalManager.update
    simp only [h]
    rfl
  · intro h omega homega
    unfold CentroidalManager.update
    simp only [h, homega, Vec3.sub]
    rfl
  · intro h hm realCom realComVelocity
    unfold CentroidalManager.update
    simp only [h, hm]
    rfl

theorem controlZmp_law_witness :
    (CentroidalManager.update zmpUnderCom feedbackConfig 30 standstillInput).controlZmp =
      ⟨(CentroidalManager.update zmpUnderCom feedbackConfig 30 standstillInput).plannedZmp.x +
          feedbackConfig.zmpVelGain * standstillInput.refZmpVel.x +
          feedbackConfig.dcmGain *
            ((dcm standstillInput.realCom standstillInput.realComVelocity 3).x -
              (dcm standstillInput.taskCom standstillInput.taskRefVel 3).x),
        (CentroidalManager.update zmpUnderCom feedbackConfig 30 standstillInput).plannedZmp.y +
          feedbackConfig.zmpVelGain * standstillInput.refZmpVel.y +
          feedbackConfig.dcmGain *
            ((dcm standstillInput.realCom standstillInput.realComVelocity 3).y -
              (dcm standstillInput.taskCom standstillInput.taskRefVel 3).y),
        (CentroidalManager.update zmpUnderCom feedbackConfig 30 standstillInput).plannedZmp.z⟩ :=
  (controlZmp_law zmpUnderCom feedbackConfig 30 standstillInput).2.2.2.1 rfl 3 rfl

/-- C19 (as stated) fails when `useActualStateForMpc` is set: with DCM
feedback disabled and a strategy that plans the ZMP under the CoM of the MPC
state, two ticks that differ only in the estimated real-robot CoM give
different controlled ZMPs, because the MPC state is the estimated state. -/
theorem controlZmp_counterexample :
    actualStateConfig.enableDcmFeedback = false ∧
      (CentroidalManager.update zmpUnderCom actualStateConfig 30 standstillInput).controlZmp =
        ⟨1 / 100, 0, 0⟩ ∧
      (CentroidalManager.update zmpUnderCom actualStateConfig 30
          { standstillInput with realCom := ⟨3 / 100, 0, 4 / 5⟩ }).controlZmp =
        ⟨3 / 100, 0, 0⟩ ∧
      (CentroidalManager.update zmpUnderCom actualStateConfig 30
          { standstillInput with realCom := ⟨3 / 100, 0, 4 / 5⟩ }).controlZmp ≠
        (CentroidalManager.update zmpUnderCom actualStateConfig 30 standstillInput).controlZmp := by
  have h1 : (CentroidalManager.update zmpUnderCom actualStateConfig 30
      standstillInput).controlZmp = ⟨1 / 100, 0, 0⟩ := by
    norm_num [CentroidalManager.update, zmpUnderCom, actualStateConfig, standstillInput]
  have h2 : (CentroidalManager.update zmpUnderCom actualStateConfig 30
      { standstillInput with realCom := ⟨3 / 100, 0, 4 / 5⟩ }).controlZmp = ⟨3 / 100, 0, 0⟩ := by
    norm_num [CentroidalManager.update, zmpUnderCom, actualStateConfig, standstillInput]
  refine ⟨rfl, h1, h2, ?_⟩
  rw [h1, h2]
  norm_num

theorem update_comTaskTarget (ext : CentroidalExternals) (config : CentroidalConfiguration)
    (robotMass : ℚ) (inp : CentroidalInput) :
    ((CentroidalManager.update ext config robotMass inp).nextPlannedCom,
        (CentroidalManager.update ext config robotMass inp).nextPlannedComVel,
        (CentroidalManager.update ext config robotMass inp).plannedComAccel) =
      comTaskTarget (CentroidalManager.update ext config robotMass inp).mpcCom
        (CentroidalManager.update ext config robotMass inp).mpcComVel
        (CentroidalManager.update ext config robotMass inp).plannedZmp
        (CentroidalManager.update ext config robotMass inp).plannedForceZ
        robotMass inp.dt config.refComZ inp.isConstantComZ ext.g := by
  unfold CentroidalManager.update comTaskTarget
  simp only [Vec3.add, Vec3.smul]
  cases inp.isConstantComZ
  · simp only [Bool.false_eq_true, if_false, Prod.mk.injEq, Vec3.mk.injEq]
  · simp only [if_true, Prod.mk.injEq, Vec3.mk.injEq]

/-- C20: the CoM task target written by `update` is the planned-state law of
`mpcCom`, `mpcComVel`, `plannedZmp`, `plannedForceZ`, the robot mass, `dt`,
`refComZ`, the constant-height mode and `g`; hence two runs that agree on
these write the same position, velocity and acceleration, whatever their
gains, feedback flags, controlled ZMP and controlled vertical force are. -/
theorem comTaskTarget_decoupled :
    (∀ (ext : CentroidalExternals) (config : CentroidalConfiguration) (robotMass : ℚ)
        (inp : CentroidalInput),
      ((CentroidalManager.update ext config robotMass inp).nextPlannedCom,
          (CentroidalManager.update ext config robotMass inp).nextPlannedComVel,
          (CentroidalManager.update ext config robotMass inp).plannedComAccel) =
        comTaskTarget (CentroidalManager.update ext config robotMass inp).mpcCom
          (CentroidalManager.update ext config robotMass inp).mpcComVel
          (CentroidalManager.update ext config robotMass inp).plannedZmp
          (CentroidalManager.update ext config robotMass inp).plannedForceZ
          robotMass inp.dt config.refComZ inp.isConstantComZ ext.g) ∧
    (∀ (ext ext' : CentroidalExternals) (config config' : CentroidalConfiguration)
        (robotMass : ℚ) (inp inp' : CentroidalInput),
      (CentroidalManager.update ext config robotMass inp).mpcCom =
        (CentroidalManager.update ext' config' robotMass inp').mpcCom →
      (CentroidalManager.update ext config robotMass inp).mpcComVel =
        (CentroidalManager.update ext' config' robotMass inp').mpcComVel →
      (CentroidalManager.update ext config robotMass inp).plannedZmp =
        (CentroidalManager.update ext' config' robotMass inp').plannedZmp →
      (CentroidalManager.update ext config robotMass inp).plannedForceZ =
        (CentroidalManager.update ext' config' robotMass inp').plannedForceZ →
      inp.dt = inp'.dt → config.refComZ = config'.refComZ →
      inp.isConstantComZ = inp'.isConstantComZ → ext.g = ext'.g →
      (CentroidalManager.update ext config robotMass inp).nextPlannedCom =
          (CentroidalManager.update ext' config' robotMass inp').nextPlannedCom ∧
        (CentroidalManager.update ext config robotMass inp).nextPlannedComVel =
          (CentroidalManager.update ext' config' robotMass inp').nextPlannedComVel ∧
        (CentroidalManager.update ext config robotMass inp).plannedComAccel =
          (CentroidalManager.update ext' config' robotMass inp').plannedComAccel) := by
  refine ⟨update_comTaskTarget, ?_⟩
  intro ext ext' config config' robotMass inp inp' h1 h2 h3 h4 h5 h6 h7 h8
  have ha := update_comTaskTarget ext config robotMass inp
  have hb := update_comTaskTarget ext' config' robotMass inp'
  rw [h1, h2, h3, h4, h5, h6, h7, h8, ← hb] at ha
  simp only [Prod.mk.injEq] at ha
  exact ha

theorem comTaskTarget_decoupled_witness :
    (CentroidalManager.update zmpUnderCom feedbackConfig 30 standstillInput).nextPlannedCom =
        (CentroidalManager.update zmpUnderCom
          { feedbackConfig with
            enableDcmFeedback := false, enableComZFeedback := false, dcmGain := 0,
            zmpVelGain := 5, comZGainP := 0, comZGainD := 7 }
          30 standstillInput).nextPlannedCom ∧
      (CentroidalManager.update zmpUnderCom feedbackConfig 30 standstillInput).nextPlannedComVel =
        (CentroidalManager.update zmpUnderCom
          { feedbackConfig with
            enableDcmFeedback := false, enableComZFeedback := false, dcmGain := 0,
            zmpVelGain := 5, comZGainP := 0, comZGainD := 7 }
          30 standstillInput).nextPlannedComVel ∧
      (CentroidalManager.update zmpUnderCom feedbackConfig 30 standstillInput).plannedComAccel =
        (CentroidalManager.update zmpUnderCom
          { feedbackConfig with
            enableDcmFeedback := false, enableComZFeedback := false, dcmGain := 0,
            zmpVelGain := 5, comZGainP := 0, comZGainD := 7 }
          30 standstillInput).plannedComAccel :=
  comTaskTarget_decoupled.2 zmpUnderCom zmpUnderCom feedbackConfig _ 30 standstillInput
    standstillInput rfl rfl rfl rfl rfl rfl rfl rfl


/-! ## Landing pose -/

theorem PTransformd.mul_assoc (a b c : PTransformd) : (a.mul b).mul c = a.mul (b.mul c) := by
  simp only [PTransformd.mul, Mat3.mul, Mat3.mulVec, Mat3.transpose, Vec3.dot, Vec3.add,
    PTransformd.mk.injEq, Prod.mk.injEq, Vec3.mk.injEq]
  refine ⟨⟨⟨?_, ?_, ?_⟩, ⟨?_, ?_, ?_⟩, ⟨?_, ?_, ?_⟩⟩, ⟨?_, ?_, ?_⟩⟩ <;> ring

theorem PTransformd.inv_mul_self (p : PTransformd) (h : p.IsRigid) :
    p.inv.mul p = PTransformd.ofTranslation Vec3.zero := by
  unfold PTransformd.IsRigid at h
  simp only [Mat3.mul, Mat3.mulVec, Mat3.transpose, Vec3.dot, Mat3.one, Prod.mk.injEq,
    Vec3.mk.injEq] at h
  obtain ⟨⟨h11, h12, h13⟩, ⟨h21, h22, h23⟩, ⟨h31, h32, h33⟩⟩ := h
  simp only [PTransformd.mul, PTransformd.inv, PTransformd.ofTranslation, Mat3.mul,
    Mat3.mulVec, Mat3.transpose, Vec3.dot, Vec3.add, Vec3.smul, Vec3.zero, Mat3.one,
    PTransformd.mk.injEq, Prod.mk.injEq, Vec3.mk.injEq]
  refine ⟨⟨⟨?_, ?_, ?_⟩, ⟨?_, ?_, ?_⟩, ⟨?_, ?_, ?_⟩⟩, ⟨?_, ?_, ?_⟩⟩
  · linear_combination h11
  · linear_combination h12
  · linear_combination h13
  · linear_combination h21
  · linear_combination h22
  · linear_combination h23
  · linear_combination h31
  · linear_combination h32
  · linear_combination h33
  · linear_combination (-p.translation.x) * h11 + (-p.translation.y) * h12 +
      (-p.translation.z) * h13
  · linear_combination (-p.translation.x) * h21 + (-p.translation.y) * h22 +
      (-p.translation.z) * h23
  · linear_combination (-p.translation.x) * h31 + (-p.translation.y) * h32 +
      (-p.translation.z) * h33

theorem PTransformd.mul_identity (a : PTransformd) :
    a.mul (PTransformd.ofTranslation Vec3.zero) = a := by
  cases a with
  | mk rotation translation =>
    obtain ⟨r1, r2, r3⟩ := rotation
    simp [PTransformd.mul, PTransformd.ofTranslation, Mat3.mul, Mat3.mulVec, Mat3.transpose,
      Vec3.dot, Vec3.add, Vec3.zero, Mat3.one]

theorem hermite_left (t0 t1 x0 x1 v0 v1 : ℚ) : hermite t0 t1 x0 x1 v0 v1 t0 = x0 := by
  simp [hermite]

theorem hermite_right (t0 t1 x0 x1 v0 v1 : ℚ) (h : t0 < t1) :
    hermite t0 t1 x0 x1 v0 v1 t1 = x1 := by
  have hne : t1 - t0 ≠ 0 := ne_of_gt (sub_pos.2 h)
  simp only [hermite, div_self hne]
  ring

theorem hermiteDeriv_left (t0 t1 x0 x1 v0 v1 : ℚ) (h : t0 < t1) :
    hermiteDeriv t0 t1 x0 x1 v0 v1 t0 = v0 := by
  have hne : t1 - t0 ≠ 0 := ne_of_gt (sub_pos.2 h)
  simp only [hermiteDeriv, sub_self, zero_div]
  field_simp

theorem hermiteDeriv_right (t0 t1 x0 x1 v0 v1 : ℚ) (h : t0 < t1) :
    hermiteDeriv t0 t1 x0 x1 v0 v1 t1 = v1 := by
  have hne : t1 - t0 ≠ 0 := ne_of_gt (sub_pos.2 h)
  simp only [hermiteDeriv, div_self hne]
  field_simp
  ring

/-- The modelled segment has the derivative `hermiteDeriv`: the difference
quotient of `hermite` between `t` and `u` is the derivative at `t` plus a
multiple of `u − t`. -/
theorem hermite_sub (t0 t1 x0 x1 v0 v1 t u : ℚ) (h : t0 < t1) :
    hermite t0 t1 x0 x1 v0 v1 u - hermite t0 t1 x0 x1 v0 v1 t =
      (u - t) * hermiteDeriv t0 t1 x0 x1 v0 v1 t +
        (u - t) ^ 2 * (hermiteDeriv2 t0 t1 x0 x1 v0 v1 t / 2 +
          (u - t) * ((2 * (x0 - x1) + (t1 - t0) * (v0 + v1)) / (t1 - t0) ^ 3)) := by
  have hne : t1 - t0 ≠ 0 := ne_of_gt (sub_pos.2 h)
  simp only [hermite, hermiteDeriv, hermiteDeriv2]
  field_simp
  ring

/-- An acceleration constraint at the end of a two-waypoint spline is met by
the modelled end velocities. -/
theorem knotVelocities_accel_end (bs : BoundaryConstraintType) (cs ce t0 t1 x0 x1 : ℚ)
    (h : t0 < t1) :
    hermiteDeriv2 t0 t1 x0 x1
        (knotVelocities bs BoundaryConstraintType.Acceleration cs ce (t1 - t0) (x1 - x0)).1
        (knotVelocities bs BoundaryConstraintType.Acceleration cs ce (t1 - t0) (x1 - x0)).2 t1 =
      ce := by
  have hne : t1 - t0 ≠ 0 := ne_of_gt (sub_pos.2 h)
  cases bs <;> simp only [knotVelocities, hermiteDeriv2, div_self hne] <;> field_simp <;> ring

/-- An acceleration constraint at the start of a two-waypoint spline is met by
the modelled end velocities. -/
theorem knotVelocities_accel_start (be : BoundaryConstraintType) (cs ce t0 t1 x0 x1 : ℚ)
    (h : t0 < t1) :
    hermiteDeriv2 t0 t1 x0 x1
        (knotVelocities BoundaryConstraintType.Acceleration be cs ce (t1 - t0) (x1 - x0)).1
        (knotVelocities BoundaryConstraintType.Acceleration be cs ce (t1 - t0) (x1 - x0)).2 t0 =
      cs := by
  have hne : t1 - t0 ≠ 0 := ne_of_gt (sub_pos.2 h)
  cases be <;> simp only [knotVelocities, hermiteDeriv2, sub_self, zero_div] <;> field_simp <;>
    ring

/-- The modelled middle velocity makes the second derivative continuous at the
middle waypoint of a three-waypoint spline. -/
theorem middleVelocity_c2 (t0 t1 t2 x0 x1 x2 v0 v2 : ℚ) (h1 : t0 < t1) (h2 : t1 < t2) :
    hermiteDeriv2 t0 t1 x0 x1 v0
        (middleVelocity (t1 - t0) (t2 - t1) (x1 - x0) (x2 - x1) v0 v2) t1 =
      hermiteDeriv2 t1 t2 x1 x2
        (middleVelocity (t1 - t0) (t2 - t1) (x1 - x0) (x2 - x1) v0 v2) v2 t1 := by
  have hne1 : t1 - t0 ≠ 0 := ne_of_gt (sub_pos.2 h1)
  have hne2 : t2 - t1 ≠ 0 := ne_of_gt (sub_pos.2 h2)
  have hp1 : 0 < t1 - t0 := sub_pos.2 h1
  have hp2 : 0 < t2 - t1 := sub_pos.2 h2
  have hsum : 2 / (t1 - t0) + 2 / (t2 - t1) ≠ 0 := by positivity
  have hsum' : 2 * (t2 - t1) + 2 * (t1 - t0) ≠ 0 := by
    have : 0 < 2 * (t2 - t1) + 2 * (t1 - t0) := by positivity
    exact ne_of_gt this
  simp only [middleVelocity, hermiteDeriv2, div_self hne1, sub_self, zero_div]
  field_simp
  ring

/-! ### Waypoint maps -/

theorem mapOfList_pair {α : Type} (a b : ℚ × α) (h : a.1 < b.1) : mapOfList [a, b] = [a, b] := by
  simp [mapOfList, mapInsert, not_lt.2 (le_of_lt h), ne_of_gt h]

theorem mapOfList_pair_swap {α : Type} (a b : ℚ × α) (h : b.1 < a.1) :
    mapOfList [a, b] = [b, a] := by
  simp [mapOfList, mapInsert, h]

theorem mapOfList_pair_same {α : Type} (a b : ℚ × α) (h : b.1 = a.1) :
    mapOfList [a, b] = [a] := by
  simp [mapOfList, mapInsert, h]

theorem mapOfList_triple {α : Type} (a b c : ℚ × α) (h1 : a.1 < b.1) (h2 : b.1 < c.1) :
    mapOfList [a, b, c] = [a, b, c] := by
  have h3 : a.1 < c.1 := lt_trans h1 h2
  simp [mapOfList, mapInsert, not_lt.2 (le_of_lt h1), ne_of_gt h1, not_lt.2 (le_of_lt h2),
    ne_of_gt h2, not_lt.2 (le_of_lt h3), ne_of_gt h3]

theorem mapOfList_triple_swap {α : Type} (a b c : ℚ × α) (h1 : b.1 < a.1) (h2 : a.1 < c.1) :
    mapOfList [a, b, c] = [b, a, c] := by
  have h3 : b.1 < c.1 := lt_trans h1 h2
  simp [mapOfList, mapInsert, h1, not_lt.2 (le_of_lt h2), ne_of_gt h2, not_lt.2 (le_of_lt h3),
    ne_of_gt h3]

theorem appendFunc_three (w s a : CubicSpline) (kw ks ka : ℚ) (h1 : kw < ks) (h2 : ks < ka) :
    ((PiecewiseFunc.appendFunc ⟨[]⟩ kw w).appendFunc ka a).appendFunc ks s =
      ⟨[(kw, w), (ks, s), (ka, a)]⟩ := by
  have h3 : kw < ka := lt_trans h1 h2
  simp [PiecewiseFunc.appendFunc, mapInsert, not_lt.2 (le_of_lt h1), ne_of_gt h1, h2,
    not_lt.2 (le_of_lt h3), ne_of_gt h3]

/-! ### The synthesis with positive durations -/

/-- With positive withdraw and approach durations and derivatives that do not
raise, the synthesis returns the withdraw and approach splines on two
waypoints each, the swing spline on the map of the withdraw end, the
midpoint and the approach start, and the three appended functions. -/
theorem synthesizeSwingPos_pos (derivative : CubicSpline → ℚ → Option Vec3)
    (interpolate : PTransformd → PTransformd → ℚ → PTransformd)
    (startPose goalPose : PTransformd) (f : Footstep) (config : SwingTrajConfig)
    (d1 d2 : Vec3) (hw : 0 < config.withdrawDuration f) (ha : 0 < config.approachDuration f)
    (hd1 : derivative (withdrawSplineOf startPose f config)
      (f.swingStartTime + config.withdrawDuration f) = some d1)
    (hd2 : derivative (approachSplineOf goalPose f config)
      (f.swingEndTime - config.approachDuration f) = some d2) :
    synthesizeSwingPos derivative interpolate startPose goalPose f config =
      some (swingSynthesisOf d1 d2 interpolate startPose goalPose f config) := by
  have hwm : mapOfList
      [(f.swingStartTime, startPose.translation),
        (f.swingStartTime + config.withdrawDuration f,
          ((PTransformd.ofTranslation config.withdrawOffset).mul startPose).translation)] =
      (withdrawSplineOf startPose f config).points :=
    mapOfList_pair _ _ (by simpa using hw)
  have ham : mapOfList
      [(f.swingEndTime - config.approachDuration f,
          ((PTransformd.ofTranslation config.approachOffset).mul goalPose).translation),
        (f.swingEndTime, goalPose.translation)] =
      (approachSplineOf goalPose f config).points :=
    mapOfList_pair _ _ (by simpa using ha)
  unfold synthesizeSwingPos
  unfold swingSynthesisOf
  simp only [SwingTrajConfig.withdrawDuration, SwingTrajConfig.approachDuration,
    withdrawSplineOf, approachSplineOf] at hwm ham hd1 hd2 ⊢
  rw [hwm, ham, hd1, hd2]
  rfl

theorem synthesizeSwingPos_inv (derivative : CubicSpline → ℚ → Option Vec3)
    (interpolate : PTransformd → PTransformd → ℚ → PTransformd)
    (startPose goalPose : PTransformd) (f : Footstep) (config : SwingTrajConfig)
    (r : SwingPosSynthesis) (hw : 0 < config.withdrawDuration f)
    (ha : 0 < config.approachDuration f)
    (h : synthesizeSwingPos derivative interpolate startPose goalPose f config = some r) :
    ∃ d1 d2,
      derivative (withdrawSplineOf startPose f config)
          (f.swingStartTime + config.withdrawDuration f) = some d1 ∧
        derivative (approachSplineOf goalPose f config)
          (f.swingEndTime - config.approachDuration f) = some d2 ∧
        r = swingSynthesisOf d1 d2 interpolate startPose goalPose f config := by
  have hwm : mapOfList
      [(f.swingStartTime, startPose.translation),
        (f.swingStartTime + config.withdrawDuration f,
          ((PTransformd.ofTranslation config.withdrawOffset).mul startPose).translation)] =
      (withdrawSplineOf startPose f config).points :=
    mapOfList_pair _ _ (by simpa using hw)
  have ham : mapOfList
      [(f.swingEndTime - config.approachDuration f,
          ((PTransformd.ofTranslation config.approachOffset).mul goalPose).translation),
        (f.swingEndTime, goalPose.translation)] =
      (approachSplineOf goalPose f config).points :=
    mapOfList_pair _ _ (by simpa using ha)
  cases hd1 : derivative (withdrawSplineOf startPose f config)
      (f.swingStartTime + config.withdrawDuration f) with
  | none =>
    exfalso
    unfold synthesizeSwingPos at h
    simp only [SwingTrajConfig.withdrawDuration, SwingTrajConfig.approachDuration,
      withdrawSplineOf, approachSplineOf] at hwm ham hd1 h
    rw [hwm, ham, hd1] at h
    simp at h
  | some d1 =>
    cases hd2 : derivative (approachSplineOf goalPose f config)
        (f.swingEndTime - config.approachDuration f) with
    | none =>
      exfalso
      unfold synthesizeSwingPos at h
      simp only [SwingTrajConfig.withdrawDuration, SwingTrajConfig.approachDuration,
        withdrawSplineOf, approachSplineOf] at hwm ham hd2 h
      rw [hwm, ham, hd2] at h
      simp at h
    | some d2 =>
      have := synthesizeSwingPos_pos derivative interpolate startPose goalPose f config d1 d2
        hw ha hd1 hd2
      rw [this] at h
      exact ⟨d1, d2, rfl, rfl, (Option.some.inj h).symm⟩

/-! ### Queries of the modelled splines -/

theorem splineCoordinate_two (order : Nat) (p0 p1 : ℚ × ℚ) (bs be : BoundaryConstraintType)
    (cs ce t : ℚ) :
    splineCoordinate order [p0, p1] bs be cs ce t =
      some ((if order = 0 then hermite else hermiteDeriv) p0.1 p1.1 p0.2 p1.2
        (knotVelocities bs be cs ce (p1.1 - p0.1) (p1.2 - p0.2)).1
        (knotVelocities bs be cs ce (p1.1 - p0.1) (p1.2 - p0.2)).2 t) := rfl

theorem CubicSpline.query_two_isSome (order : Nat) (f : CubicSpline) (p0 p1 : ℚ × Vec3)
    (hp : f.points = [p0, p1]) (t : ℚ) : ∃ v, f.query order t = some v := by
  unfold CubicSpline.query
  rw [hp]
  simp only [List.map, splineCoordinate_two]
  exact ⟨_, rfl⟩

theorem CubicSpline.eval_two_first (f : CubicSpline) (p0 p1 : ℚ × Vec3)
    (hp : f.points = [p0, p1]) : f.eval p0.1 = some p0.2 := by
  unfold CubicSpline.eval CubicSpline.query
  rw [hp]
  simp only [List.map, splineCoordinate_two, if_true, hermite_left]

theorem CubicSpline.eval_two_last (f : CubicSpline) (p0 p1 : ℚ × Vec3)
    (hp : f.points = [p0, p1]) (h : p0.1 < p1.1) : f.eval p1.1 = some p1.2 := by
  unfold CubicSpline.eval CubicSpline.query
  rw [hp]
  simp only [List.map, splineCoordinate_two, if_true, hermite_right _ _ _ _ _ _ h]

theorem splineCoordinate_three (order : Nat) (p0 p1 p2 : ℚ × ℚ) (cs ce t : ℚ) :
    splineCoordinate order [p0, p1, p2] BoundaryConstraintType.Velocity
        BoundaryConstraintType.Velocity cs ce t =
      some
        (if t ≤ p1.1 then
          (if order = 0 then hermite else hermiteDeriv) p0.1 p1.1 p0.2 p1.2 cs
            (middleVelocity (p1.1 - p0.1) (p2.1 - p1.1) (p1.2 - p0.2) (p2.2 - p1.2) cs ce) t
        else
          (if order = 0 then hermite else hermiteDeriv) p1.1 p2.1 p1.2 p2.2
            (middleVelocity (p1.1 - p0.1) (p2.1 - p1.1) (p1.2 - p0.2) (p2.2 - p1.2) cs ce)
            ce t) := rfl

theorem CubicSpline.eval_three_first (f : CubicSpline) (p0 p1 p2 : ℚ × Vec3)
    (hp : f.points = [p0, p1, p2]) (hs : f.bcStart.type = BoundaryConstraintType.Velocity)
    (he : f.bcEnd.type = BoundaryConstraintType.Velocity) (h : p0.1 < p1.1) :
    f.eval p0.1 = some p0.2 := by
  unfold CubicSpline.eval CubicSpline.query
  rw [hp, hs, he]
  simp only [List.map, splineCoordinate_three, if_true, if_pos (le_of_lt h), hermite_left]

theorem CubicSpline.eval_three_last (f : CubicSpline) (p0 p1 p2 : ℚ × Vec3)
    (hp : f.points = [p0, p1, p2]) (hs : f.bcStart.type = BoundaryConstraintType.Velocity)
    (he : f.bcEnd.type = BoundaryConstraintType.Velocity) (h : p1.1 < p2.1) :
    f.eval p2.1 = some p2.2 := by
  unfold CubicSpline.eval CubicSpline.query
  rw [hp, hs, he]
  simp only [List.map, splineCoordinate_three, if_true, if_neg (not_le.2 h),
    hermite_right _ _ _ _ _ _ h]

theorem CubicSpline.derivative_three_first (f : CubicSpline) (p0 p1 p2 : ℚ × Vec3)
    (hp : f.points = [p0, p1, p2]) (hs : f.bcStart.type = BoundaryConstraintType.Velocity)
    (he : f.bcEnd.type = BoundaryConstraintType.Velocity) (h : p0.1 < p1.1) :
    f.derivative p0.1 = some f.bcStart.value := by
  unfold CubicSpline.derivative CubicSpline.query
  rw [hp, hs, he]
  simp only [List.map, splineCoordinate_three, if_pos (le_of_lt h), one_ne_zero, if_false,
    hermiteDeriv_left _ _ _ _ _ _ h]

theorem CubicSpline.derivative_three_last (f : CubicSpline) (p0 p1 p2 : ℚ × Vec3)
    (hp : f.points = [p0, p1, p2]) (hs : f.bcStart.type = BoundaryConstraintType.Velocity)
    (he : f.bcEnd.type = BoundaryConstraintType.Velocity) (h : p1.1 < p2.1) :
    f.derivative p2.1 = some f.bcEnd.value := by
  unfold CubicSpline.derivative CubicSpline.query
  rw [hp, hs, he]
  simp only [List.map, splineCoordinate_three, if_neg (not_le.2 h), one_ne_zero, if_false,
    hermiteDeriv_right _ _ _ _ _ _ h]

theorem PiecewiseFunc.segment_three (w s a : CubicSpline) (kw ks ka t : ℚ) :
    (PiecewiseFunc.mk [(kw, w), (ks, s), (ka, a)]).segment t =
      if t ≤ kw then some w else if t ≤ ks then some s else if t ≤ ka then some a else none := by
  unfold PiecewiseFunc.segment
  by_cases h1 : t ≤ kw
  · simp [List.find?, h1]
  · by_cases h2 : t ≤ ks
    · simp [List.find?, h1, h2]
    · by_cases h3 : t ≤ ka
      · simp [List.find?, h1, h2, h3]
      · simp [List.find?, h1, h2, h3]

theorem synthesizeSwingPos_of (derivative : CubicSpline → ℚ → Option Vec3)
    (interpolate : PTransformd → PTransformd → ℚ → PTransformd)
    (startPose goalPose : PTransformd) (f : Footstep) (config : SwingTrajConfig)
    (withdrawLast approachFirst : ℚ × Vec3) (d1 d2 : Vec3)
    (h1 : (mapOfList
      [(f.swingStartTime, startPose.translation),
        (f.swingStartTime + config.withdrawDuration f,
          ((PTransformd.ofTranslation config.withdrawOffset).mul
            startPose).translation)]).getLast? = some withdrawLast)
    (h2 : (mapOfList
      [(f.swingEndTime - config.approachDuration f,
          ((PTransformd.ofTranslation config.approachOffset).mul goalPose).translation),
        (f.swingEndTime, goalPose.translation)]).head? = some approachFirst)
    (h3 : derivative
      ⟨mapOfList
        [(f.swingStartTime, startPose.translation),
          (f.swingStartTime + config.withdrawDuration f,
            ((PTransformd.ofTranslation config.withdrawOffset).mul startPose).translation)],
        ⟨BoundaryConstraintType.Velocity, Vec3.zero⟩,
        ⟨BoundaryConstraintType.Acceleration, Vec3.zero⟩⟩
      (f.swingStartTime + config.withdrawDuration f) = some d1)
    (h4 : derivative
      ⟨mapOfList
        [(f.swingEndTime - config.approachDuration f,
            ((PTransformd.ofTranslation config.approachOffset).mul goalPose).translation),
          (f.swingEndTime, goalPose.translation)],
        ⟨BoundaryConstraintType.Acceleration, Vec3.zero⟩,
        ⟨BoundaryConstraintType.Velocity, Vec3.zero⟩⟩
      (f.swingEndTime - config.approachDuration f) = some d2) :
    ∃ r, synthesizeSwingPos derivative interpolate startPose goalPose f config = some r ∧
      r.withdrawPosWaypoints =
        mapOfList
          [(f.swingStartTime, startPose.translation),
            (f.swingStartTime + config.withdrawDuration f,
              ((PTransformd.ofTranslation config.withdrawOffset).mul startPose).translation)] ∧
      r.approachPosWaypoints =
        mapOfList
          [(f.swingEndTime - config.approachDuration f,
              ((PTransformd.ofTranslation config.approachOffset).mul goalPose).translation),
            (f.swingEndTime, goalPose.translation)] ∧
      r.approachPosSpline.points = r.approachPosWaypoints ∧
      r.withdrawPosSpline.points = r.withdrawPosWaypoints := by
  unfold synthesizeSwingPos
  simp only [SwingTrajConfig.withdrawDuration, SwingTrajConfig.approachDuration] at h1 h2 h3 h4 ⊢
  rw [h1, h2, h3, h4]
  exact ⟨_, rfl, rfl, rfl, rfl, rfl⟩

/-- C14 (amended): for a synthesis with positive withdraw and approach
durations whose withdraw ends before the approach starts, the withdraw
segment's first waypoint is `(swingStartTime, translation of the swing foot's
pose at synthesis)`, the approach segment's last waypoint is
`(swingEndTime, translation of the landing pose)`, and, in the modelled
evaluation of splines and piecewise functions, `swingPosFunc(swingStartTime)`
is the former translation and `swingPosFunc(swingEndTime)` the latter. -/
theorem swingPos_endpoints (interpolate : PTransformd → PTransformd → ℚ → PTransformd)
    (startPose goalPose : PTransformd) (f : Footstep) (config : SwingTrajConfig)
    (hw : 0 < config.withdrawDuration f) (ha : 0 < config.approachDuration f)
    (hsep : f.swingStartTime + config.withdrawDuration f <
      f.swingEndTime - config.approachDuration f) :
    ∃ r, synthesizeSwingPos CubicSpline.derivative interpolate startPose goalPose f config =
        some r ∧
      r.withdrawPosSpline.points = r.withdrawPosWaypoints ∧
      r.approachPosSpline.points = r.approachPosWaypoints ∧
      r.withdrawPosWaypoints.head? = some (f.swingStartTime, startPose.translation) ∧
      r.approachPosWaypoints.getLast? = some (f.swingEndTime, goalPose.translation) ∧
      r.swingPosFunc.eval f.swingStartTime = some startPose.translation ∧
      r.swingPosFunc.eval f.swingEndTime = some goalPose.translation := by
  obtain ⟨d1, hd1⟩ := CubicSpline.query_two_isSome 1 (withdrawSplineOf startPose f config) _ _
    rfl (f.swingStartTime + config.withdrawDuration f)
  obtain ⟨d2, hd2⟩ := CubicSpline.query_two_isSome 1 (approachSplineOf goalPose f config) _ _
    rfl (f.swingEndTime - config.approachDuration f)
  have hsyn := synthesizeSwingPos_pos CubicSpline.derivative interpolate startPose goalPose f
    config d1 d2 hw ha hd1 hd2
  have hkw : f.swingStartTime < f.swingStartTime + config.withdrawDuration f := by linarith
  have hka : f.swingEndTime - config.approachDuration f < f.swingEndTime := by linarith
  have hfunc : (swingSynthesisOf d1 d2 interpolate startPose goalPose f config).swingPosFunc =
      ⟨[(f.swingStartTime + config.withdrawDuration f, withdrawSplineOf startPose f config),
        (f.swingEndTime - config.approachDuration f,
          (swingSynthesisOf d1 d2 interpolate startPose goalPose f config).swingPosSpline),
        (f.swingEndTime, approachSplineOf goalPose f config)]⟩ :=
    appendFunc_three _ _ _ _ _ _ hsep hka
  refine ⟨swingSynthesisOf d1 d2 interpolate startPose goalPose f config, hsyn, ?_, ?_, ?_, ?_,
    ?_, ?_⟩
  · simp only [swingSynthesisOf]
  · simp only [swingSynthesisOf]
  · simp only [swingSynthesisOf, withdrawSplineOf, List.head?]
  · simp only [swingSynthesisOf, approachSplineOf, List.getLast?_cons_cons,
      List.getLast?_singleton]
  · unfold PiecewiseFunc.eval
    rw [hfunc, PiecewiseFunc.segment_three, if_pos (le_of_lt hkw)]
    exact CubicSpline.eval_two_first (withdrawSplineOf startPose f config)
      (f.swingStartTime, startPose.translation)
      (f.swingStartTime + config.withdrawDuration f,
        ((PTransformd.ofTranslation config.withdrawOffset).mul startPose).translation) rfl
  · unfold PiecewiseFunc.eval
    rw [hfunc, PiecewiseFunc.segment_three, if_neg (not_le.2 (lt_trans hsep hka)),
      if_neg (not_le.2 hka), if_pos (le_refl _)]
    exact CubicSpline.eval_two_last (approachSplineOf goalPose f config)
      (f.swingEndTime - config.approachDuration f,
        ((PTransformd.ofTranslation config.approachOffset).mul goalPose).translation)
      (f.swingEndTime, goalPose.translation) rfl hka

theorem swingPos_endpoints_witness :
    ∃ r, synthesizeSwingPos CubicSpline.derivative blendTranslation originPose samplePose
        (scenarioStep samplePose) sampleSwingConfig = some r ∧
      r.withdrawPosSpline.points = r.withdrawPosWaypoints ∧
      r.approachPosSpline.points = r.approachPosWaypoints ∧
      r.withdrawPosWaypoints.head? =
        some ((scenarioStep samplePose).swingStartTime, originPose.translation) ∧
      r.approachPosWaypoints.getLast? =
        some ((scenarioStep samplePose).swingEndTime, samplePose.translation) ∧
      r.swingPosFunc.eval (scenarioStep samplePose).swingStartTime =
        some originPose.translation ∧
      r.swingPosFunc.eval (scenarioStep samplePose).swingEndTime =
        some samplePose.translation :=
  swingPos_endpoints blendTranslation originPose samplePose (scenarioStep samplePose)
    sampleSwingConfig
    (by norm_num [SwingTrajConfig.withdrawDuration, sampleSwingConfig, scenarioStep])
    (by norm_num [SwingTrajConfig.approachDuration, sampleSwingConfig, scenarioStep])
    (by norm_num [SwingTrajConfig.withdrawDuration, SwingTrajConfig.approachDuration,
      sampleSwingConfig, scenarioStep])

/-- C14 (as stated) fails for a synthesis whose approach duration is not
positive.  With `approachDurationRatio = −1/8` on the footstep with swing
interval [1.1, 1.9], the approach waypoint map is keyed by 2.0 and 1.9, so
its last waypoint is at time 2.0 with the offset translation, not
`(swingEndTime, landing translation)`. -/
theorem swingPos_endpoints_counterexample :
    ∃ r, synthesizeSwingPos CubicSpline.derivative blendTranslation originPose samplePose
        (scenarioStep samplePose) negativeApproachConfig = some r ∧
      r.approachPosSpline.points = r.approachPosWaypoints ∧
      r.approachPosWaypoints.getLast? = some (2, ⟨1 / 5, 0, 1 / 50⟩) ∧
      r.approachPosWaypoints.getLast? ≠
        some ((scenarioStep samplePose).swingEndTime, samplePose.translation) := by
  have hw : (mapOfList
      [((scenarioStep samplePose).swingStartTime, originPose.translation),
        ((scenarioStep samplePose).swingStartTime +
            negativeApproachConfig.withdrawDuration (scenarioStep samplePose),
          ((PTransformd.ofTranslation negativeApproachConfig.withdrawOffset).mul
            originPose).translation)]) =
      [((scenarioStep samplePose).swingStartTime, originPose.translation),
        ((scenarioStep samplePose).swingStartTime +
            negativeApproachConfig.withdrawDuration (scenarioStep samplePose),
          ((PTransformd.ofTranslation negativeApproachConfig.withdrawOffset).mul
            originPose).translation)] :=
    mapOfList_pair _ _ (by
      norm_num [SwingTrajConfig.withdrawDuration, negativeApproachConfig, scenarioStep])
  have ha : (mapOfList
      [((scenarioStep samplePose).swingEndTime -
            negativeApproachConfig.approachDuration (scenarioStep samplePose),
          ((PTransformd.ofTranslation negativeApproachConfig.approachOffset).mul
            samplePose).translation),
        ((scenarioStep samplePose).swingEndTime, samplePose.translation)]) =
      [((scenarioStep samplePose).swingEndTime, samplePose.translation),
        ((scenarioStep samplePose).swingEndTime -
            negativeApproachConfig.approachDuration (scenarioStep samplePose),
          ((PTransformd.ofTranslation negativeApproachConfig.approachOffset).mul
            samplePose).translation)] :=
    mapOfList_pair_swap _ _ (by
      norm_num [SwingTrajConfig.approachDuration, negativeApproachConfig, scenarioStep])
  obtain ⟨d1, hd1⟩ := CubicSpline.query_two_isSome 1
    ⟨_, ⟨BoundaryConstraintType.Velocity, Vec3.zero⟩,
      ⟨BoundaryConstraintType.Acceleration, Vec3.zero⟩⟩ _ _ hw
    ((scenarioStep samplePose).swingStartTime +
      negativeApproachConfig.withdrawDuration (scenarioStep samplePose))
  obtain ⟨d2, hd2⟩ := CubicSpline.query_two_isSome 1
    ⟨_, ⟨BoundaryConstraintType.Acceleration, Vec3.zero⟩,
      ⟨BoundaryConstraintType.Velocity, Vec3.zero⟩⟩ _ _ ha
    ((scenarioStep samplePose).swingEndTime -
      negativeApproachConfig.approachDuration (scenarioStep samplePose))
  obtain ⟨r, hr, _, hra, hrs, _⟩ := synthesizeSwingPos_of CubicSpline.derivative blendTranslation
    originPose samplePose (scenarioStep samplePose) negativeApproachConfig _ _ d1 d2
    (by rw [hw]; rfl) (by rw [ha]; rfl) hd1 hd2
  have hlast : r.approachPosWaypoints.getLast? = some (2, ⟨1 / 5, 0, 1 / 50⟩) := by
    rw [hra, ha]
    norm_num [SwingTrajConfig.approachDuration, negativeApproachConfig, scenarioStep,
      samplePose, PTransformd.mul, PTransformd.ofTranslation, Mat3.mulVec, Mat3.transpose,
      Vec3.dot, Vec3.add]
  refine ⟨r, hr, hrs, hlast, ?_⟩
  rw [hlast]
  norm_num [scenarioStep]

theorem swingSynthesisOf_waypoints (d1 d2 : Vec3)
    (interpolate : PTransformd → PTransformd → ℚ → PTransformd)
    (startPose goalPose : PTransformd) (f : Footstep) (config : SwingTrajConfig)
    (h1 : f.swingStartTime + config.withdrawDuration f <
      1 / 2 * (f.swingStartTime + f.swingEndTime))
    (h2 : 1 / 2 * (f.swingStartTime + f.swingEndTime) <
      f.swingEndTime - config.approachDuration f) :
    (swingSynthesisOf d1 d2 interpolate startPose goalPose f config).swingPosWaypoints =
      [(f.swingStartTime + config.withdrawDuration f,
          ((PTransformd.ofTranslation config.withdrawOffset).mul startPose).translation),
        (1 / 2 * (f.swingStartTime + f.swingEndTime),
          ((PTransformd.ofTranslation config.swingOffset).mul
            (interpolate startPose goalPose (1 / 2))).translation),
        (f.swingEndTime - config.approachDuration f,
          ((PTransformd.ofTranslation config.approachOffset).mul goalPose).translation)] := by
  simp only [swingSynthesisOf]
  exact mapOfList_triple _ _ _ h1 h2

/-- C15 (amended): for a synthesis with positive withdraw and approach
durations, the withdraw ending before the middle of the swing and the
approach starting after it, the swing segment's first waypoint is the
withdraw segment's last waypoint, its last waypoint is the approach segment's
first waypoint, its boundary constraints are the velocities given by the
first derivatives of the withdraw spline at `swingStartTime + withdrawDuration`
and of the approach spline at `swingEndTime − approachDuration`, and the
hand-over times of the piecewise function are these two times and
`swingEndTime`; in the modelled evaluation of splines, the adjoining segments
have the same value and the same first derivative at both hand-over times. -/
theorem swingPos_continuity (interpolate : PTransformd → PTransformd → ℚ → PTransformd)
    (startPose goalPose : PTransformd) (f : Footstep) (config : SwingTrajConfig)
    (hw : 0 < config.withdrawDuration f) (ha : 0 < config.approachDuration f)
    (h1 : f.swingStartTime + config.withdrawDuration f <
      1 / 2 * (f.swingStartTime + f.swingEndTime))
    (h2 : 1 / 2 * (f.swingStartTime + f.swingEndTime) <
      f.swingEndTime - config.approachDuration f) :
    (∀ (derivative : CubicSpline → ℚ → Option Vec3) (r : SwingPosSynthesis),
      synthesizeSwingPos derivative interpolate startPose goalPose f config = some r →
      r.withdrawPosSpline.points = r.withdrawPosWaypoints ∧
      r.swingPosSpline.points = r.swingPosWaypoints ∧
      r.approachPosSpline.points = r.approachPosWaypoints ∧
      r.swingPosWaypoints.head? = r.withdrawPosWaypoints.getLast? ∧
      r.swingPosWaypoints.getLast? = r.approachPosWaypoints.head? ∧
      (r.withdrawPosWaypoints.getLast?.map fun p => p.1) =
        some (f.swingStartTime + config.withdrawDuration f) ∧
      (r.approachPosWaypoints.head?.map fun p => p.1) =
        some (f.swingEndTime - config.approachDuration f) ∧
      (∃ d1 d2,
        derivative r.withdrawPosSpline (f.swingStartTime + config.withdrawDuration f) =
            some d1 ∧
          derivative r.approachPosSpline (f.swingEndTime - config.approachDuration f) =
            some d2 ∧
          r.swingPosSpline.bcStart = ⟨BoundaryConstraintType.Velocity, d1⟩ ∧
          r.swingPosSpline.bcEnd = ⟨BoundaryConstraintType.Velocity, d2⟩) ∧
      r.swingPosFunc.funcs =
        [(f.swingStartTime + config.withdrawDuration f, r.withdrawPosSpline),
          (f.swingEndTime - config.approachDuration f, r.swingPosSpline),
          (f.swingEndTime, r.approachPosSpline)]) ∧
    (∃ r, synthesizeSwingPos CubicSpline.derivative interpolate startPose goalPose f config =
        some r ∧
      (∃ p v,
        r.withdrawPosSpline.eval (f.swingStartTime + config.withdrawDuration f) = some p ∧
          r.swingPosSpline.eval (f.swingStartTime + config.withdrawDuration f) = some p ∧
          r.withdrawPosSpline.derivative (f.swingStartTime + config.withdrawDuration f) =
            some v ∧
          r.swingPosSpline.derivative (f.swingStartTime + config.withdrawDuration f) =
            some v) ∧
      (∃ p v,
        r.swingPosSpline.eval (f.swingEndTime - config.approachDuration f) = some p ∧
          r.approachPosSpline.eval (f.swingEndTime - config.approachDuration f) = some p ∧
          r.swingPosSpline.derivative (f.swingEndTime - config.approachDuration f) = some v ∧
          r.approachPosSpline.derivative (f.swingEndTime - config.approachDuration f) =
            some v)) := by
  have hkw : f.swingStartTime < f.swingStartTime + config.withdrawDuration f := by linarith
  have hka : f.swingEndTime - config.approachDuration f < f.swingEndTime := by linarith
  have hsep : f.swingStartTime + config.withdrawDuration f <
      f.swingEndTime - config.approachDuration f := lt_trans h1 h2
  constructor
  · intro derivative r hr
    obtain ⟨d1, d2, hd1, hd2, rfl⟩ := synthesizeSwingPos_inv derivative interpolate startPose
      goalPose f config r hw ha hr
    have hwp := swingSynthesisOf_waypoints d1 d2 interpolate startPose goalPose f config h1 h2
    refine ⟨?_, ?_, ?_, ?_, ?_, ?_, ?_, ⟨d1, d2, hd1, hd2, ?_, ?_⟩, ?_⟩
    · simp only [swingSynthesisOf]
    · simp only [swingSynthesisOf]
    · simp only [swingSynthesisOf]
    · rw [hwp]
      simp only [swingSynthesisOf, withdrawSplineOf, List.head?, List.getLast?_cons_cons,
        List.getLast?_singleton]
    · rw [hwp]
      simp only [swingSynthesisOf, approachSplineOf, List.head?, List.getLast?_cons_cons,
        List.getLast?_singleton]
    · simp only [swingSynthesisOf, withdrawSplineOf, List.getLast?_cons_cons,
        List.getLast?_singleton, Option.map_some']
    · simp only [swingSynthesisOf, approachSplineOf, List.head?, Option.map_some']
    · simp only [swingSynthesisOf]
    · simp only [swingSynthesisOf]
    · have := appendFunc_three (withdrawSplineOf startPose f config)
        (swingSynthesisOf d1 d2 interpolate startPose goalPose f config).swingPosSpline
        (approachSplineOf goalPose f config) _ _ _ hsep hka
      simp only [swingSynthesisOf] at this ⊢
      rw [this]
  · obtain ⟨d1, hd1⟩ := CubicSpline.query_two_isSome 1 (withdrawSplineOf startPose f config)
      _ _ rfl (f.swingStartTime + config.withdrawDuration f)
    obtain ⟨d2, hd2⟩ := CubicSpline.query_two_isSome 1 (approachSplineOf goalPose f config)
      _ _ rfl (f.swingEndTime - config.approachDuration f)
    have hsyn := synthesizeSwingPos_pos CubicSpline.derivative interpolate startPose goalPose f
      config d1 d2 hw ha hd1 hd2
    have hwp := swingSynthesisOf_waypoints d1 d2 interpolate startPose goalPose f config h1 h2
    have hsp : (swingSynthesisOf d1 d2 interpolate startPose goalPose f config).swingPosSpline.points
        = [(f.swingStartTime + config.withdrawDuration f,
              ((PTransformd.ofTranslation config.withdrawOffset).mul startPose).translation),
            (1 / 2 * (f.swingStartTime + f.swingEndTime),
              ((PTransformd.ofTranslation config.swingOffset).mul
                (interpolate startPose goalPose (1 / 2))).translation),
            (f.swingEndTime - config.approachDuration f,
              ((PTransformd.ofTranslation config.approachOffset).mul goalPose).translation)] :=
      hwp
    refine ⟨swingSynthesisOf d1 d2 interpolate startPose goalPose f config, hsyn,
      ⟨((PTransformd.ofTranslation config.withdrawOffset).mul startPose).translation, d1,
        ?_, ?_, ?_, ?_⟩,
      ⟨((PTransformd.ofTranslation config.approachOffset).mul goalPose).translation, d2,
        ?_, ?_, ?_, ?_⟩⟩
    · exact CubicSpline.eval_two_last (withdrawSplineOf startPose f config)
        (f.swingStartTime, startPose.translation)
        (f.swingStartTime + config.withdrawDuration f,
          ((PTransformd.ofTranslation config.withdrawOffset).mul startPose).translation)
        rfl hkw
    · exact CubicSpline.eval_three_first _
        (f.swingStartTime + config.withdrawDuration f,
          ((PTransformd.ofTranslation config.withdrawOffset).mul startPose).translation)
        (1 / 2 * (f.swingStartTime + f.swingEndTime),
          ((PTransformd.ofTranslation config.swingOffset).mul
            (interpolate startPose goalPose (1 / 2))).translation)
        (f.swingEndTime - config.approachDuration f,
          ((PTransformd.ofTranslation config.approachOffset).mul goalPose).translation)
        hsp rfl rfl h1
    · exact hd1
    · exact CubicSpline.derivative_three_first _
        (f.swingStartTime + config.withdrawDuration f,
          ((PTransformd.ofTranslation config.withdrawOffset).mul startPose).translation)
        (1 / 2 * (f.swingStartTime + f.swingEndTime),
          ((PTransformd.ofTranslation config.swingOffset).mul
            (interpolate startPose goalPose (1 / 2))).translation)
        (f.swingEndTime - config.approachDuration f,
          ((PTransformd.ofTranslation config.approachOffset).mul goalPose).translation)
        hsp rfl rfl h1
    · exact CubicSpline.eval_three_last _
        (f.swingStartTime + config.withdrawDuration f,
          ((PTransformd.ofTranslation config.withdrawOffset).mul startPose).translation)
        (1 / 2 * (f.swingStartTime + f.swingEndTime),
          ((PTransformd.ofTranslation config.swingOffset).mul
            (interpolate startPose goalPose (1 / 2))).translation)
        (f.swingEndTime - config.approachDuration f,
          ((PTransformd.ofTranslation config.approachOffset).mul goalPose).translation)
        hsp rfl rfl h2
    · exact CubicSpline.eval_two_first (approachSplineOf goalPose f config)
        (f.swingEndTime - config.approachDuration f,
          ((PTransformd.ofTranslation config.approachOffset).mul goalPose).translation)
        (f.swingEndTime, goalPose.translation) rfl
    · exact CubicSpline.derivative_three_last _
        (f.swingStartTime + config.withdrawDuration f,
          ((PTransformd.ofTranslation config.withdrawOffset).mul startPose).translation)
        (1 / 2 * (f.swingStartTime + f.swingEndTime),
          ((PTransformd.ofTranslation config.swingOffset).mul
            (interpolate startPose goalPose (1 / 2))).translation)
        (f.swingEndTime - config.approachDuration f,
          ((PTransformd.ofTranslation config.approachOffset).mul goalPose).translation)
        hsp rfl rfl h2
    · exact hd2

theorem swingPos_continuity_witness :
    ∃ r, synthesizeSwingPos CubicSpline.derivative blendTranslation originPose samplePose
        (scenarioStep samplePose) sampleSwingConfig = some r ∧
      (∃ p v,
        r.withdrawPosSpline.eval ((scenarioStep samplePose).swingStartTime +
            sampleSwingConfig.withdrawDuration (scenarioStep samplePose)) = some p ∧
          r.swingPosSpline.eval ((scenarioStep samplePose).swingStartTime +
            sampleSwingConfig.withdrawDuration (scenarioStep samplePose)) = some p ∧
          r.withdrawPosSpline.derivative ((scenarioStep samplePose).swingStartTime +
            sampleSwingConfig.withdrawDuration (scenarioStep samplePose)) = some v ∧
          r.swingPosSpline.derivative ((scenarioStep samplePose).swingStartTime +
            sampleSwingConfig.withdrawDuration (scenarioStep samplePose)) = some v) ∧
      (∃ p v,
        r.swingPosSpline.eval ((scenarioStep samplePose).swingEndTime -
            sampleSwingConfig.approachDuration (scenarioStep samplePose)) = some p ∧
          r.approachPosSpline.eval ((scenarioStep samplePose).swingEndTime -
            sampleSwingConfig.approachDuration (scenarioStep samplePose)) = some p ∧
          r.swingPosSpline.derivative ((scenarioStep samplePose).swingEndTime -
            sampleSwingConfig.approachDuration (scenarioStep samplePose)) = some v ∧
          r.approachPosSpline.derivative ((scenarioStep samplePose).swingEndTime -
            sampleSwingConfig.approachDuration (scenarioStep samplePose)) = some v) :=
  (swingPos_continuity blendTranslation originPose samplePose (scenarioStep samplePose)
    sampleSwingConfig
    (by norm_num [SwingTrajConfig.withdrawDuration, sampleSwingConfig, scenarioStep])
    (by norm_num [SwingTrajConfig.approachDuration, sampleSwingConfig, scenarioStep])
    (by norm_num [SwingTrajConfig.withdrawDuration, sampleSwingConfig, scenarioStep])
    (by norm_num [SwingTrajConfig.approachDuration, sampleSwingConfig, scenarioStep])).2

/-- C15 (as stated) fails when the withdraw outlasts the middle of the swing.
For the footstep with times 1.0, 1.1, 1.9, 2.0, a withdraw ratio of 3/4 and an
approach ratio of 1/8, the withdraw ends at 1.7 and the approach starts at
1.8, but the swing waypoint map also holds the midpoint at 1.5, which is its
first waypoint: the swing segment does not start at the withdraw segment's
last waypoint. -/
theorem swingPos_continuity_counterexample :
    (scenarioStep samplePose).transitStartTime ≤ (scenarioStep samplePose).swingStartTime ∧
      (scenarioStep samplePose).swingStartTime ≤ (scenarioStep samplePose).swingEndTime ∧
      (scenarioStep samplePose).swingEndTime ≤ (scenarioStep samplePose).transitEndTime ∧
      ∃ r, synthesizeSwingPos CubicSpline.derivative blendTranslation originPose samplePose
          (scenarioStep samplePose) longWithdrawConfig = some r ∧
        r.swingPosSpline.points = r.swingPosWaypoints ∧
        r.withdrawPosSpline.points = r.withdrawPosWaypoints ∧
        (r.swingPosWaypoints.head?.map fun p => p.1) = some (3 / 2) ∧
        (r.withdrawPosWaypoints.getLast?.map fun p => p.1) = some (17 / 10) ∧
        r.swingPosWaypoints.head? ≠ r.withdrawPosWaypoints.getLast? := by
  refine ⟨by norm_num [scenarioStep], by norm_num [scenarioStep], by norm_num [scenarioStep],
    ?_⟩
  obtain ⟨d1, hd1⟩ := CubicSpline.query_two_isSome 1
    (withdrawSplineOf originPose (scenarioStep samplePose) longWithdrawConfig) _ _ rfl
    ((scenarioStep samplePose).swingStartTime +
      longWithdrawConfig.withdrawDuration (scenarioStep samplePose))
  obtain ⟨d2, hd2⟩ := CubicSpline.query_two_isSome 1
    (approachSplineOf samplePose (scenarioStep samplePose) longWithdrawConfig) _ _ rfl
    ((scenarioStep samplePose).swingEndTime -
      longWithdrawConfig.approachDuration (scenarioStep samplePose))
  have hsyn := synthesizeSwingPos_pos CubicSpline.derivative blendTranslation originPose
    samplePose (scenarioStep samplePose) longWithdrawConfig d1 d2
    (by norm_num [SwingTrajConfig.withdrawDuration, longWithdrawConfig, scenarioStep])
    (by norm_num [SwingTrajConfig.approachDuration, longWithdrawConfig, scenarioStep])
    hd1 hd2
  have hwp : (swingSynthesisOf d1 d2 blendTranslation originPose samplePose
      (scenarioStep samplePose) longWithdrawConfig).swingPosWaypoints =
      [(1 / 2 * ((scenarioStep samplePose).swingStartTime +
            (scenarioStep samplePose).swingEndTime),
          ((PTransformd.ofTranslation longWithdrawConfig.swingOffset).mul
            (blendTranslation originPose samplePose (1 / 2))).translation),
        ((scenarioStep samplePose).swingStartTime +
            longWithdrawConfig.withdrawDuration (scenarioStep samplePose),
          ((PTransformd.ofTranslation longWithdrawConfig.withdrawOffset).mul
            originPose).translation),
        ((scenarioStep samplePose).swingEndTime -
            longWithdrawConfig.approachDuration (scenarioStep samplePose),
          ((PTransformd.ofTranslation longWithdrawConfig.approachOffset).mul
            samplePose).translation)] := by
    simp only [swingSynthesisOf]
    exact mapOfList_triple_swap _ _ _
      (by norm_num [SwingTrajConfig.withdrawDuration, longWithdrawConfig, scenarioStep])
      (by norm_num [SwingTrajConfig.withdrawDuration, SwingTrajConfig.approachDuration,
        longWithdrawConfig, scenarioStep])
  have hhead : ((swingSynthesisOf d1 d2 blendTranslation originPose samplePose
      (scenarioStep samplePose) longWithdrawConfig).swingPosWaypoints.head?.map
        fun p => p.1) = some (3 / 2) := by
    rw [hwp]
    norm_num [scenarioStep]
  have hlast : ((swingSynthesisOf d1 d2 blendTranslation originPose samplePose
      (scenarioStep samplePose) longWithdrawConfig).withdrawPosWaypoints.getLast?.map
        fun p => p.1) = some (17 / 10) := by
    simp only [swingSynthesisOf, withdrawSplineOf, List.getLast?_cons_cons,
      List.getLast?_singleton, Option.map_some']
    norm_num [SwingTrajConfig.withdrawDuration, longWithdrawConfig, scenarioStep]
  refine ⟨_, hsyn, ?_, ?_, hhead, hlast, ?_⟩
  · simp only [swingSynthesisOf]
  · simp only [swingSynthesisOf]
  · intro h
    rw [h, hlast] at hhead
    norm_num at hhead


/-! ## ZMP reference planner -/

theorem zmpLoop_noBreak (zmpOffset : Vec3) (horizonEnd : ℚ) (queue : List Footstep)
    (footPoses : FootPoses) (traj : ZmpTraj)
    (h : ∀ f ∈ queue, f.transitEndTime < horizonEnd) :
    (zmpLoop zmpOffset horizonEnd queue footPoses traj).1 = posesAfterQueue footPoses queue := by
  induction queue generalizing footPoses traj with
  | nil => rfl
  | cons f rest ih =>
    unfold zmpLoop
    simp only
    rw [if_neg (not_le.2 (h f (List.mem_cons_self _ _)))]
    rw [ih _ _ (fun g hg => h g (List.mem_cons_of_mem _ hg))]
    rfl

theorem transitEnd_le_last (queue : List Footstep) (back : Footstep)
    (hchain : List.Chain' NoOverlap queue)
    (hvalid : ∀ f ∈ queue, f.transitStartTime ≤ f.transitEndTime)
    (hback : queue.getLast? = some back) :
    ∀ f ∈ queue, f.transitEndTime ≤ back.transitEndTime := by
  induction queue with
  | nil => simp
  | cons a rest ih =>
    intro f hf
    have hbm : back ∈ a :: rest := List.mem_of_getLast?_eq_some hback
    rcases List.mem_cons.1 hf with rfl | hf
    · rcases List.mem_cons.1 hbm with rfl | hb
      · exact le_refl _
      · exact chain_transitEnd_le _ rest hchain
          (fun g hg => hvalid g (List.mem_cons_of_mem _ hg)) back hb
    · cases rest with
      | nil => simp at hf
      | cons b rest' =>
        have hback' : (b :: rest').getLast? = some back := by
          rw [List.getLast?_cons_cons] at hback
          exact hback
        exact ih (List.chain'_cons.1 hchain).2
          (fun g hg => hvalid g (List.mem_cons_of_mem _ hg)) hback' f hf

theorem zmpLoop_times (zmpOffset : Vec3) (horizonEnd : ℚ) (queue : List Footstep)
    (footPoses : FootPoses) (traj : ZmpTraj) :
    ∀ p ∈ (zmpLoop zmpOffset horizonEnd queue footPoses traj).2.zmpPoints,
      p ∈ traj.zmpPoints ∨
        ∃ f ∈ queue, p.1 = f.transitStartTime ∨ p.1 = f.swingStartTime ∨
          p.1 = f.swingEndTime ∨ p.1 = f.transitEndTime := by
  induction queue generalizing footPoses traj with
  | nil =>
    intro p hp
    exact Or.inl hp
  | cons f rest ih =>
    intro p hp
    unfold zmpLoop at hp
    simp only at hp
    have hstep : ∀ q : ℚ × Vec3,
        q ∈ ((((traj.append f.transitStartTime
            (calcZmpWithOffset zmpOffset footPoses.toMap) (calcFootMidposZ footPoses)
            footPoses.toMap).append f.swingStartTime
            (calcZmpWithOffsetFoot zmpOffset (opposite f.foot)
              (footPoses.at (opposite f.foot)))
            (calcFootMidposZ footPoses)
            (FootPoseMap.single (opposite f.foot) (footPoses.at (opposite f.foot)))).append
            f.swingEndTime
            (calcZmpWithOffsetFoot zmpOffset (opposite f.foot)
              (footPoses.at (opposite f.foot)))
            (calcFootMidposZ (footPoses.set f.foot f.pose))
            (footPoses.set f.foot f.pose).toMap).append f.transitEndTime
            (calcZmpWithOffset zmpOffset (footPoses.set f.foot f.pose).toMap)
            (calcFootMidposZ (footPoses.set f.foot f.pose))
            (footPoses.set f.foot f.pose).toMap).zmpPoints →
        q ∈ traj.zmpPoints ∨ q.1 = f.transitStartTime ∨ q.1 = f.swingStartTime ∨
          q.1 = f.swingEndTime ∨ q.1 = f.transitEndTime := by
      intro q hq
      simp only [ZmpTraj.append, List.mem_append, List.mem_singleton] at hq
      rcases hq with (((hq | hq) | hq) | hq) | hq
      · exact Or.inl hq
      · right; left; rw [hq]
      · right; right; left; rw [hq]
      · right; right; right; left; rw [hq]
      · right; right; right; right; rw [hq]
    by_cases hb : horizonEnd ≤ f.transitEndTime
    · rw [if_pos hb] at hp
      rcases hstep p hp with h | h
      · exact Or.inl h
      · exact Or.inr ⟨f, List.mem_cons_self _ _, h⟩
    · rw [if_neg hb] at hp
      rcases ih _ _ p hp with h | ⟨g, hg, h⟩
      · rcases hstep p h with h | h
        · exact Or.inl h
        · exact Or.inr ⟨f, List.mem_cons_self _ _, h⟩
      · exact Or.inr ⟨g, List.mem_cons_of_mem _ hg, h⟩

/-- C17: for a non-empty queue that satisfies the no-overlap invariant and
whose footsteps satisfy the timing order, with the last footstep's
`transitEndTime` before `t + zmpHorizon`, the last ZMP waypoint appended by
`updateZmpTraj` is at time `t + zmpHorizon` and is `calcZmpWithOffset` of
`lastDoubleSupportFootPoses` with, for every queued footstep in order, the
pose of its foot replaced by the footstep pose; the last ground-height
waypoint is at the same time, and every ZMP waypoint appended before has an
earlier time. -/
theorem zmpTraj_terminal (zmpOffset : Vec3) (zmpHorizon : ℚ) (footstepQueue : List Footstep)
    (lastDoubleSupportFootPoses : FootPoses) (t : ℚ) (back : Footstep)
    (hback : footstepQueue.getLast? = some back)
    (hchain : List.Chain' NoOverlap footstepQueue)
    (hvalid : ∀ f ∈ footstepQueue, f.transitStartTime ≤ f.swingStartTime ∧
      f.swingStartTime ≤ f.swingEndTime ∧ f.swingEndTime ≤ f.transitEndTime)
    (hin : back.transitEndTime < t + zmpHorizon) :
    (updateZmpTraj zmpOffset zmpHorizon footstepQueue lastDoubleSupportFootPoses
        t).zmpPoints.getLast? =
      some (t + zmpHorizon,
        calcZmpWithOffset zmpOffset
          (posesAfterQueue lastDoubleSupportFootPoses footstepQueue).toMap) ∧
    (updateZmpTraj zmpOffset zmpHorizon footstepQueue lastDoubleSupportFootPoses
        t).groundPosZPoints.getLast? =
      some (t + zmpHorizon,
        calcFootMidposZ (posesAfterQueue lastDoubleSupportFootPoses footstepQueue)) ∧
    ∀ p ∈ (updateZmpTraj zmpOffset zmpHorizon footstepQueue lastDoubleSupportFootPoses
        t).zmpPoints.dropLast, p.1 < t + zmpHorizon := by
  have hv : ∀ f ∈ footstepQueue, f.transitStartTime ≤ f.transitEndTime :=
    fun f hf => le_trans (hvalid f hf).1 (le_trans (hvalid f hf).2.1 (hvalid f hf).2.2)
  have hall : ∀ f ∈ footstepQueue, f.transitEndTime < t + zmpHorizon :=
    fun f hf => lt_of_le_of_lt (transitEnd_le_last footstepQueue back hchain hv hback f hf) hin
  have hcond : footstepQueue.isEmpty = true ∨
      (∃ b ∈ footstepQueue.getLast?, b.transitEndTime < t + zmpHorizon) :=
    Or.inr ⟨back, hback, hin⟩
  obtain ⟨front, rest, hq⟩ : ∃ front rest, footstepQueue = front :: rest := by
    cases footstepQueue with
    | nil => simp at hback
    | cons a r => exact ⟨a, r, rfl⟩
  unfold updateZmpTraj
  simp only
  rw [if_pos hcond]
  refine ⟨?_, ?_, ?_⟩
  · rw [zmpLoop_noBreak _ _ _ _ _ hall]
    simp
  · rw [zmpLoop_noBreak _ _ _ _ _ hall]
    simp
  · intro p hp
    rw [List.dropLast_concat] at hp
    rcases zmpLoop_times _ _ _ _ _ p hp with h | ⟨f, hf, h⟩
    · by_cases hinit : footstepQueue.isEmpty = true ∨
          (∃ front ∈ footstepQueue.head?, t < front.transitStartTime)
      · rw [if_pos hinit] at h
        simp only [ZmpTraj.append, List.nil_append, List.mem_singleton] at h
        rw [h]
        rcases hinit with he | ⟨fr, hfr, hlt⟩
        · rw [hq] at he
          simp at he
        · have hfm : fr ∈ footstepQueue := List.mem_of_mem_head? hfr
          have := hall fr hfm
          have := hv fr hfm
          simp only
          linarith
      · rw [if_neg hinit] at h
        simp at h
    · have h1 := hvalid f hf
      have h2 := hall f hf
      rcases h with h | h | h | h <;> rw [h] <;> linarith

theorem zmpTraj_terminal_witness :
    (updateZmpTraj ⟨0, 1 / 100, 0⟩ 4 [sampleStepA, sampleStepB] standingPoses
        (1 / 2)).zmpPoints.getLast? =
      some (1 / 2 + 4,
        calcZmpWithOffset ⟨0, 1 / 100, 0⟩
          (posesAfterQueue standingPoses [sampleStepA, sampleStepB]).toMap) ∧
    (updateZmpTraj ⟨0, 1 / 100, 0⟩ 4 [sampleStepA, sampleStepB] standingPoses
        (1 / 2)).groundPosZPoints.getLast? =
      some (1 / 2 + 4,
        calcFootMidposZ (posesAfterQueue standingPoses [sampleStepA, sampleStepB])) ∧
    ∀ p ∈ (updateZmpTraj ⟨0, 1 / 100, 0⟩ 4 [sampleStepA, sampleStepB] standingPoses
        (1 / 2)).zmpPoints.dropLast, p.1 < 1 / 2 + 4 :=
  zmpTraj_terminal ⟨0, 1 / 100, 0⟩ 4 [sampleStepA, sampleStepB] standingPoses (1 / 2)
    sampleStepB rfl (by norm_num [NoOverlap, sampleStepA, sampleStepB])
    (by norm_num [sampleStepA, sampleStepB]) (by norm_num [sampleStepB])

theorem hermite_const (t0 t1 x t : ℚ) : hermite t0 t1 x x 0 0 t = x := by
  simp only [hermite]
  ring

/-- C18: with an empty footstep queue, `updateZmpTraj` appends exactly two ZMP
waypoints, at times `t` and `t + zmpHorizon`, both equal to
`calcZmpWithOffset(lastDoubleSupportFootPoses)`, and exactly two ground-height
waypoints at the same times, both equal to the mean height of the two feet;
hence the modelled cubic interpolator through the ZMP waypoints has that ZMP
as its value at every time. -/
theorem zmpTraj_empty_queue (zmpOffset : Vec3) (zmpHorizon : ℚ)
    (lastDoubleSupportFootPoses : FootPoses) (t : ℚ) :
    (updateZmpTraj zmpOffset zmpHorizon [] lastDoubleSupportFootPoses t).zmpPoints =
      [(t, calcZmpWithOffset zmpOffset lastDoubleSupportFootPoses.toMap),
        (t + zmpHorizon, calcZmpWithOffset zmpOffset lastDoubleSupportFootPoses.toMap)] ∧
    (updateZmpTraj zmpOffset zmpHorizon [] lastDoubleSupportFootPoses t).groundPosZPoints =
      [(t, calcFootMidposZ lastDoubleSupportFootPoses),
        (t + zmpHorizon, calcFootMidposZ lastDoubleSupportFootPoses)] ∧
    ∀ time : ℚ,
      cubicInterpolatorValue
          (updateZmpTraj zmpOffset zmpHorizon [] lastDoubleSupportFootPoses t).zmpPoints time =
        some (calcZmpWithOffset zmpOffset lastDoubleSupportFootPoses.toMap) := by
  have hz : (updateZmpTraj zmpOffset zmpHorizon [] lastDoubleSupportFootPoses t).zmpPoints =
      [(t, calcZmpWithOffset zmpOffset lastDoubleSupportFootPoses.toMap),
        (t + zmpHorizon, calcZmpWithOffset zmpOffset lastDoubleSupportFootPoses.toMap)] := by
    simp [updateZmpTraj, zmpLoop, ZmpTraj.append]
  refine ⟨hz, ?_, ?_⟩
  · simp [updateZmpTraj, zmpLoop, ZmpTraj.append]
  · intro time
    rw [hz]
    simp [cubicInterpolatorValue, hermite_const]


/-! ## Contact-pose history lookup -/


theorem mapInsert_mem {α : Type} (m : List (ℚ × α)) (e x : ℚ × α) (h : x ∈ mapInsert m e) :
    x ∈ m ∨ x = e := by
  induction m with
  | nil =>
    simp only [mapInsert, List.mem_singleton] at h
    exact Or.inr h
  | cons a m ih =>
    unfold mapInsert at h
    by_cases h1 : e.1 < a.1
    · rw [if_pos h1] at h
      rcases List.mem_cons.1 h with h | h
      · exact Or.inr h
      · exact Or.inl h
    · rw [if_neg h1] at h
      by_cases h2 : e.1 = a.1
      · rw [if_pos h2] at h
        exact Or.inl h
      · rw [if_neg h2] at h
        rcases List.mem_cons.1 h with h | h
        · exact Or.inl (h ▸ List.mem_cons_self _ _)
        · rcases ih h with h | h
          · exact Or.inl (List.mem_cons_of_mem _ h)
          · exact Or.inr h

theorem mapInsert_sorted {α : Type} (m : List (ℚ × α)) (e : ℚ × α) (h : KeysSorted m) :
    KeysSorted (mapInsert m e) := by
  unfold KeysSorted at h ⊢
  induction m with
  | nil => simp [mapInsert]
  | cons a m ih =>
    unfold mapInsert
    have ha := (List.pairwise_cons.1 h).1
    have hm := (List.pairwise_cons.1 h).2
    by_cases h1 : e.1 < a.1
    · rw [if_pos h1]
      refine List.pairwise_cons.2 ⟨?_, h⟩
      intro b hb
      rcases List.mem_cons.1 hb with rfl | hb
      · exact h1
      · exact lt_trans h1 (ha b hb)
    · rw [if_neg h1]
      by_cases h2 : e.1 = a.1
      · rw [if_pos h2]
        exact h
      · rw [if_neg h2]
        refine List.pairwise_cons.2 ⟨?_, ih hm⟩
        intro b hb
        rcases mapInsert_mem m e b hb with hb | rfl
        · exact ha b hb
        · exact lt_of_le_of_ne (not_lt.1 h1) (Ne.symm h2)

theorem mapInsert_key_self {α : Type} (m : List (ℚ × α)) (e : ℚ × α) :
    ∃ x ∈ mapInsert m e, x.1 = e.1 := by
  induction m with
  | nil => exact ⟨e, by simp [mapInsert], rfl⟩
  | cons a m ih =>
    unfold mapInsert
    by_cases h1 : e.1 < a.1
    · rw [if_pos h1]
      exact ⟨e, List.mem_cons_self _ _, rfl⟩
    · rw [if_neg h1]
      by_cases h2 : e.1 = a.1
      · rw [if_pos h2]
        exact ⟨a, List.mem_cons_self _ _, h2.symm⟩
      · rw [if_neg h2]
        obtain ⟨x, hx, hk⟩ := ih
        exact ⟨x, List.mem_cons_of_mem _ hx, hk⟩

theorem mapInsert_key_mono {α : Type} (m : List (ℚ × α)) (e x : ℚ × α) (h : x ∈ m) :
    x ∈ mapInsert m e := by
  induction m with
  | nil => simp at h
  | cons a m ih =>
    unfold mapInsert
    by_cases h1 : e.1 < a.1
    · rw [if_pos h1]
      exact List.mem_cons_of_mem _ h
    · rw [if_neg h1]
      by_cases h2 : e.1 = a.1
      · rw [if_pos h2]
        exact h
      · rw [if_neg h2]
        rcases List.mem_cons.1 h with rfl | h
        · exact List.mem_cons_self _ _
        · exact List.mem_cons_of_mem _ (ih h)

theorem mapOfList_sorted {α : Type} (entries : List (ℚ × α)) : KeysSorted (mapOfList entries) := by
  unfold mapOfList
  have : ∀ (m : List (ℚ × α)), KeysSorted m → KeysSorted (entries.foldl mapInsert m) := by
    induction entries with
    | nil => exact fun m hm => hm
    | cons e es ih => exact fun m hm => ih _ (mapInsert_sorted m e hm)
  exact this [] List.Pairwise.nil

theorem calcContactFootPoses_before {α : Type} (m : List (ℚ × α)) (t : ℚ)
    (h : ∀ e ∈ m, t < e.1) : upperBound m t = 0 := by
  cases m with
  | nil => rfl
  | cons a m =>
    unfold upperBound
    rw [if_pos (h a (List.mem_cons_self _ _))]

/-- On a map with increasing keys, the entry before `upper_bound(t)` is the
one with the largest key not above `t`. -/
theorem upperBound_entry {α : Type} (m : List (ℚ × α)) (t : ℚ) (e : ℚ × α)
    (hs : KeysSorted m) (he : e ∈ m) (hle : e.1 ≤ t)
    (hmax : ∀ x ∈ m, x.1 ≤ t → x.1 ≤ e.1) :
    ∃ it, upperBound m t = it + 1 ∧ m.get? it = some e := by
  induction m with
  | nil => simp at he
  | cons a m ih =>
    have ha := (List.pairwise_cons.1 hs).1
    have hm := (List.pairwise_cons.1 hs).2
    unfold upperBound
    rcases List.mem_cons.1 he with rfl | hem
    · rw [if_neg (not_lt.2 hle)]
      have hrest : upperBound m t = 0 := by
        apply calcContactFootPoses_before
        intro x hx
        by_contra hc
        have := hmax x (List.mem_cons_of_mem _ hx) (not_lt.1 hc)
        exact absurd (ha x hx) (not_lt.2 this)
      exact ⟨0, by rw [hrest], rfl⟩
    · have hat : a.1 ≤ t := le_trans (le_of_lt (ha e hem)) hle
      rw [if_neg (not_lt.2 hat)]
      obtain ⟨it, hit, hget⟩ := ih hm hem (fun x hx => hmax x (List.mem_cons_of_mem _ hx))
      exact ⟨it + 1, by rw [hit], by simpa using hget⟩

/-- C21: for every time-keyed contact-pose list (a `std::map`, built by any
sequence of insertions) and every query time `t`, `calcContactFootPoses(t)`
returns the entry stored at the largest key `≤ t`, and the empty map when the
list is empty or `t` is smaller than every key. -/
theorem calcContactFootPoses_spec (entries : List (ℚ × FootPoseMap)) (t : ℚ) :
    calcContactFootPoses [] t = FootPoseMap.empty ∧
    ((∀ e ∈ mapOfList entries, t < e.1) →
      calcContactFootPoses (mapOfList entries) t = FootPoseMap.empty) ∧
    (∀ e ∈ mapOfList entries, e.1 ≤ t → (∀ x ∈ mapOfList entries, x.1 ≤ t → x.1 ≤ e.1) →
      calcContactFootPoses (mapOfList entries) t = e.2) := by
  refine ⟨rfl, ?_, ?_⟩
  · intro h
    unfold calcContactFootPoses
    rw [calcContactFootPoses_before _ t h]
  · intro e he hle hmax
    obtain ⟨it, hit, hget⟩ := upperBound_entry _ t e (mapOfList_sorted entries) he hle hmax
    unfold calcContactFootPoses
    rw [hit]
    simp only
    rw [hget]

theorem sampleHistory_eq :
    mapOfList
      [((2 : ℚ), FootPoseMap.single Foot.Left turnedPose), (1, standingPoses.toMap),
        (3, FootPoseMap.single Foot.Right samplePose)] =
      [(1, standingPoses.toMap), (2, FootPoseMap.single Foot.Left turnedPose),
        (3, FootPoseMap.single Foot.Right samplePose)] := by
  norm_num [mapOfList, mapInsert]

theorem calcContactFootPoses_spec_witness :
    calcContactFootPoses sampleHistory (5 / 2) = FootPoseMap.single Foot.Left turnedPose ∧
    calcContactFootPoses sampleHistory (1 / 2) = FootPoseMap.empty :=
  ⟨(calcContactFootPoses_spec
      [(2, FootPoseMap.single Foot.Left turnedPose), (1, standingPoses.toMap),
        (3, FootPoseMap.single Foot.Right samplePose)] (5 / 2)).2.2
      (2, FootPoseMap.single Foot.Left turnedPose)
      (by rw [sampleHistory_eq]; simp)
      (by norm_num)
      (by
        rw [sampleHistory_eq]
        intro x hx hle
        simp only [List.mem_cons, List.mem_singleton, List.not_mem_nil, or_false] at hx
        rcases hx with rfl | rfl | rfl
        · norm_num
        · norm_num
        · norm_num at hle),
    (calcContactFootPoses_spec
      [(2, FootPoseMap.single Foot.Left turnedPose), (1, standingPoses.toMap),
        (3, FootPoseMap.single Foot.Right samplePose)] (1 / 2)).2.1
      (by
        rw [sampleHistory_eq]
        intro x hx
        simp only [List.mem_cons, List.mem_singleton, List.not_mem_nil, or_false] at hx
        rcases hx with rfl | rfl | rfl <;> norm_num)⟩

/-! ## Binary64 rounding and generated footsteps -/

theorem roundHalfEven_floor_le (y : ℚ) : ⌊y⌋ ≤ roundHalfEven y := by
  unfold roundHalfEven
  split_ifs <;> omega

theorem roundHalfEven_le_floor_succ (y : ℚ) : roundHalfEven y ≤ ⌊y⌋ + 1 := by
  unfold roundHalfEven
  split_ifs <;> omega

theorem roundHalfEven_intCast (n : ℤ) : roundHalfEven (n : ℚ) = n := by
  unfold roundHalfEven
  simp

theorem roundHalfEven_mono {y z : ℚ} (h : y ≤ z) : roundHalfEven y ≤ roundHalfEven z := by
  have hf : ⌊y⌋ ≤ ⌊z⌋ := Int.floor_mono h
  rcases lt_or_eq_of_le hf with hlt | heq
  · calc roundHalfEven y ≤ ⌊y⌋ + 1 := roundHalfEven_le_floor_succ y
      _ ≤ ⌊z⌋ := hlt
      _ ≤ roundHalfEven z := roundHalfEven_floor_le z
  · unfold roundHalfEven
    rw [heq]
    have hyz : y - (⌊z⌋ : ℚ) ≤ z - (⌊z⌋ : ℚ) := by linarith
    split_ifs with h1 h2 h3 h4 h5 h6 h7 h8 h9 <;> first | omega | (exfalso; linarith)

theorem roundHalfEven_eq_of_lt (y : ℚ) (n : ℤ) (h1 : (n : ℚ) - 1 / 2 < y)
    (h2 : y < (n : ℚ) + 1 / 2) : roundHalfEven y = n := by
  unfold roundHalfEven
  by_cases hy : (n : ℚ) ≤ y
  · have hfl : ⌊y⌋ = n := Int.floor_eq_iff.2 ⟨hy, by linarith⟩
    rw [hfl, if_pos (by linarith)]
  · have hfl : ⌊y⌋ = n - 1 := Int.floor_eq_iff.2 ⟨by push_cast; linarith, by push_cast; linarith⟩
    rw [hfl]
    push_cast
    rw [if_neg (by linarith), if_pos (by linarith)]
    ring

theorem roundHalfEven_tie_even (y : ℚ) (n : ℤ) (h : y = (n : ℚ) + 1 / 2) (he : n % 2 = 0) :
    roundHalfEven y = n := by
  unfold roundHalfEven
  have hfl : ⌊y⌋ = n := Int.floor_eq_iff.2 ⟨by linarith, by linarith⟩
  rw [hfl, if_neg (by linarith), if_neg (by linarith), if_pos he]

theorem roundHalfEven_nonneg {y : ℚ} (h : 0 ≤ y) : 0 ≤ roundHalfEven y := by
  have := roundHalfEven_mono h
  rwa [show ((0 : ℚ) = ((0 : ℤ) : ℚ)) by norm_num, roundHalfEven_intCast] at this

theorem int_log_eq (x : ℚ) (k : ℤ) (h1 : (2 : ℚ) ^ k ≤ x) (h2 : x < (2 : ℚ) ^ (k + 1)) :
    Int.log 2 x = k := by
  have hx : 0 < x := lt_of_lt_of_le (zpow_pos (by norm_num) k) h1
  have ha : Int.log 2 x < k + 1 :=
    (Int.lt_zpow_iff_log_lt (b := 2) (by norm_num) hx).1 (by exact_mod_cast h2)
  have hb : k ≤ Int.log 2 x :=
    (Int.zpow_le_iff_le_log (b := 2) (by norm_num) hx).1 (by exact_mod_cast h1)
  omega

theorem doubleQuantum_pos (x : ℚ) : 0 < doubleQuantum x :=
  zpow_pos (by norm_num) _

theorem doubleQuantum_mul_pow (x : ℚ) :
    doubleQuantum x * (2 : ℚ) ^ (53 : ℤ) = (2 : ℚ) ^ (max (Int.log 2 x) (-1022) + 1) ∧
    doubleQuantum x * (2 : ℚ) ^ (52 : ℤ) = (2 : ℚ) ^ (max (Int.log 2 x) (-1022)) := by
  unfold doubleQuantum
  constructor
  · rw [← zpow_add₀ (by norm_num : (2 : ℚ) ≠ 0)]
    congr 1
    ring
  · rw [← zpow_add₀ (by norm_num : (2 : ℚ) ≠ 0)]
    congr 1
    ring

theorem roundDoubleNonneg_zero : roundDoubleNonneg 0 = 0 := by
  unfold roundDoubleNonneg
  rw [zero_div, show ((0 : ℚ) = ((0 : ℤ) : ℚ)) by norm_num, roundHalfEven_intCast]
  simp

theorem roundDoubleNonneg_nonneg {x : ℚ} (hx : 0 ≤ x) : 0 ≤ roundDoubleNonneg x := by
  unfold roundDoubleNonneg
  have hq := doubleQuantum_pos x
  have : 0 ≤ roundHalfEven (x / doubleQuantum x) := roundHalfEven_nonneg (div_nonneg hx hq.le)
  exact mul_nonneg (by exact_mod_cast this) hq.le

theorem roundDoubleNonneg_le_pow (x : ℚ) :
    roundDoubleNonneg x ≤ (2 : ℚ) ^ (max (Int.log 2 x) (-1022) + 1) := by
  have hq := doubleQuantum_pos x
  have hlt : x < (2 : ℚ) ^ (Int.log 2 x + 1) := by
    exact_mod_cast Int.lt_zpow_succ_log_self (b := 2) (by norm_num) x
  have hle : (2 : ℚ) ^ (Int.log 2 x + 1) ≤ (2 : ℚ) ^ (max (Int.log 2 x) (-1022) + 1) :=
    zpow_le_zpow_right₀ (by norm_num) (by have := le_max_left (Int.log 2 x) (-1022); omega)
  have hy : x / doubleQuantum x ≤ (((2 : ℤ) ^ 53 : ℤ) : ℚ) := by
    rw [div_le_iff₀ hq, mul_comm]
    have := (doubleQuantum_mul_pow x).1
    have h53 : (((2 : ℤ) ^ 53 : ℤ) : ℚ) = (2 : ℚ) ^ (53 : ℤ) := by norm_num
    rw [h53, this]
    exact le_of_lt (lt_of_lt_of_le hlt hle)
  have hr := roundHalfEven_mono hy
  rw [roundHalfEven_intCast] at hr
  unfold roundDoubleNonneg
  rw [← (doubleQuantum_mul_pow x).1, mul_comm (doubleQuantum x)]
  have hr2 : ((roundHalfEven (x / doubleQuantum x) : ℤ) : ℚ) ≤ (2 : ℚ) ^ (53 : ℤ) := by
    have : ((roundHalfEven (x / doubleQuantum x) : ℤ) : ℚ) ≤ (((2 : ℤ) ^ 53 : ℤ) : ℚ) := by
      exact_mod_cast hr
    calc ((roundHalfEven (x / doubleQuantum x) : ℤ) : ℚ) ≤ (((2 : ℤ) ^ 53 : ℤ) : ℚ) := this
      _ = (2 : ℚ) ^ (53 : ℤ) := by norm_num
  exact mul_le_mul_of_nonneg_right hr2 hq.le

theorem pow_le_roundDoubleNonneg (x : ℚ) (hx : 0 < x) (hn : -1022 ≤ Int.log 2 x) :
    (2 : ℚ) ^ (max (Int.log 2 x) (-1022)) ≤ roundDoubleNonneg x := by
  have hq := doubleQuantum_pos x
  have hmax : max (Int.log 2 x) (-1022) = Int.log 2 x := max_eq_left hn
  have hge : (2 : ℚ) ^ (Int.log 2 x) ≤ x := by
    exact_mod_cast Int.zpow_log_le_self (b := 2) (by norm_num) hx
  have hy : (((2 : ℤ) ^ 52 : ℤ) : ℚ) ≤ x / doubleQuantum x := by
    rw [le_div_iff₀ hq, mul_comm]
    have := (doubleQuantum_mul_pow x).2
    have h52 : (((2 : ℤ) ^ 52 : ℤ) : ℚ) = (2 : ℚ) ^ (52 : ℤ) := by norm_num
    rw [h52, this, hmax]
    exact hge
  have hr := roundHalfEven_mono hy
  rw [roundHalfEven_intCast] at hr
  unfold roundDoubleNonneg
  rw [← (doubleQuantum_mul_pow x).2, mul_comm (doubleQuantum x)]
  have hr2 : (2 : ℚ) ^ (52 : ℤ) ≤ ((roundHalfEven (x / doubleQuantum x) : ℤ) : ℚ) := by
    have : (((2 : ℤ) ^ 52 : ℤ) : ℚ) ≤ ((roundHalfEven (x / doubleQuantum x) : ℤ) : ℚ) := by
      exact_mod_cast hr
    calc (2 : ℚ) ^ (52 : ℤ) = (((2 : ℤ) ^ 52 : ℤ) : ℚ) := by norm_num
      _ ≤ _ := this
  exact mul_le_mul_of_nonneg_right hr2 hq.le

theorem roundDoubleNonneg_mono {x y : ℚ} (hx : 0 ≤ x) (h : x ≤ y) :
    roundDoubleNonneg x ≤ roundDoubleNonneg y := by
  rcases eq_or_lt_of_le hx with h0 | hpos
  · rw [← h0, roundDoubleNonneg_zero]
    exact roundDoubleNonneg_nonneg (le_trans hx h)
  · have hlog : Int.log 2 x ≤ Int.log 2 y := Int.log_mono_right hpos h
    have hE : max (Int.log 2 x) (-1022) ≤ max (Int.log 2 y) (-1022) :=
      max_le_max hlog (le_refl _)
    rcases eq_or_lt_of_le hE with heq | hlt
    · have hq : doubleQuantum x = doubleQuantum y := by
        unfold doubleQuantum
        rw [heq]
      unfold roundDoubleNonneg
      rw [hq]
      have hqp := doubleQuantum_pos y
      have hr : roundHalfEven (x / doubleQuantum y) ≤ roundHalfEven (y / doubleQuantum y) :=
        roundHalfEven_mono (div_le_div_of_nonneg_right h hqp.le)
      exact mul_le_mul_of_nonneg_right (by exact_mod_cast hr) hqp.le
    · have hny : -1022 ≤ Int.log 2 y := by
        by_contra hc
        have : max (Int.log 2 y) (-1022) = -1022 := max_eq_right (by omega)
        have := le_max_right (Int.log 2 x) (-1022)
        omega
      calc roundDoubleNonneg x ≤ (2 : ℚ) ^ (max (Int.log 2 x) (-1022) + 1) :=
            roundDoubleNonneg_le_pow x
        _ ≤ (2 : ℚ) ^ (max (Int.log 2 y) (-1022)) :=
            zpow_le_zpow_right₀ (by norm_num) (by omega)
        _ ≤ roundDoubleNonneg y := pow_le_roundDoubleNonneg y (lt_of_lt_of_le hpos h) hny

/-- Rounding to binary64 is monotone. -/
theorem roundDouble_mono {x y : ℚ} (h : x ≤ y) : roundDouble x ≤ roundDouble y := by
  unfold roundDouble
  by_cases hx : 0 ≤ x
  · rw [if_pos hx, if_pos (le_trans hx h)]
    exact roundDoubleNonneg_mono hx h
  · rw [if_neg hx]
    have hx2 : 0 ≤ -x := by linarith
    by_cases hy : 0 ≤ y
    · rw [if_pos hy]
      have := roundDoubleNonneg_nonneg hx2
      have := roundDoubleNonneg_nonneg hy
      linarith
    · rw [if_neg hy]
      have := roundDoubleNonneg_mono (x := -y) (y := -x) (by linarith) (by linarith)
      linarith

theorem roundDoubleNonneg_eval (x : ℚ) (k n : ℤ) (hk : -1022 ≤ k) (h1 : (2 : ℚ) ^ k ≤ x)
    (h2 : x < (2 : ℚ) ^ (k + 1)) (hn : roundHalfEven (x / (2 : ℚ) ^ (k - 52)) = n) :
    roundDoubleNonneg x = n * (2 : ℚ) ^ (k - 52) := by
  unfold roundDoubleNonneg doubleQuantum
  rw [int_log_eq x k h1 h2, max_eq_left hk, hn]

theorem roundDouble_zero : roundDouble 0 = 0 := by
  unfold roundDouble
  rw [if_pos (le_refl _), roundDoubleNonneg_zero]

theorem roundDouble_one : roundDouble 1 = 1 := by
  unfold roundDouble
  rw [if_pos (by norm_num), roundDoubleNonneg_eval 1 0 (2 ^ 52) (by norm_num) (by norm_num)
    (by norm_num) (by
      have : (1 : ℚ) / (2 : ℚ) ^ ((0 : ℤ) - 52) = (((2 : ℤ) ^ 52 : ℤ) : ℚ) := by norm_num
      rw [this, roundHalfEven_intCast])]
  norm_num

theorem roundDouble_half : roundDouble (1 / 2) = 1 / 2 := by
  unfold roundDouble
  rw [if_pos (by norm_num), roundDoubleNonneg_eval (1 / 2) (-1) (2 ^ 52) (by norm_num)
    (by norm_num) (by norm_num) (by
      have : (1 / 2 : ℚ) / (2 : ℚ) ^ ((-1 : ℤ) - 52) = (((2 : ℤ) ^ 52 : ℤ) : ℚ) := by norm_num
      rw [this, roundHalfEven_intCast])]
  norm_num

theorem roundDouble_eval (x : ℚ) (k n : ℤ) (hk : -1022 ≤ k) (h1 : (2 : ℚ) ^ k ≤ x)
    (h2 : x < (2 : ℚ) ^ (k + 1)) (hn : roundHalfEven (x / (2 : ℚ) ^ (k - 52)) = n) :
    roundDouble x = n * (2 : ℚ) ^ (k - 52) := by
  have hx : 0 ≤ x := le_trans (zpow_pos (by norm_num) k).le h1
  unfold roundDouble
  rw [if_pos hx]
  exact roundDoubleNonneg_eval x k n hk h1 h2 hn

/-- A positive rational `n · 2^(k - 52)` inside the binade of exponent
`k ≥ -1022` is a `double` value. -/
theorem isDouble_eval (x : ℚ) (k n : ℤ) (hk : -1022 ≤ k) (h1 : (2 : ℚ) ^ k ≤ x)
    (h2 : x < (2 : ℚ) ^ (k + 1)) (hx : x = n * (2 : ℚ) ^ (k - 52)) : IsDouble x := by
  unfold IsDouble
  rw [roundDouble_eval x k n hk h1 h2]
  · exact hx.symm
  · have hq : (2 : ℚ) ^ (k - 52) ≠ 0 := ne_of_gt (zpow_pos (by norm_num) _)
    rw [hx, mul_div_assoc, div_self hq, mul_one, roundHalfEven_intCast]

theorem roundDouble_nonneg {x : ℚ} (hx : 0 ≤ x) : 0 ≤ roundDouble x := by
  have := roundDouble_mono hx
  rwa [roundDouble_zero] at this

/-- The times of `makeFootstep` are ordered, whatever the rounding. -/
theorem makeFootstep_ordered (footstepDuration doubleSupportRatio : ℚ)
    (midToFootTranss : Foot → PTransformd) (foot : Foot) (footMidpose : PTransformd)
    (startTime : ℚ) (h0 : 0 ≤ doubleSupportRatio) (h1 : doubleSupportRatio ≤ 1)
    (hd : 0 ≤ footstepDuration) (hs : IsDouble startTime) (hdd : IsDouble footstepDuration) :
    startTime ≤
      (makeFootstep footstepDuration doubleSupportRatio midToFootTranss foot footMidpose
        startTime).swingStartTime ∧
    (makeFootstep footstepDuration doubleSupportRatio midToFootTranss foot footMidpose
        startTime).swingStartTime ≤
      (makeFootstep footstepDuration doubleSupportRatio midToFootTranss foot footMidpose
        startTime).swingEndTime ∧
    (makeFootstep footstepDuration doubleSupportRatio midToFootTranss foot footMidpose
        startTime).swingEndTime ≤
      (makeFootstep footstepDuration doubleSupportRatio midToFootTranss foot footMidpose
        startTime).transitEndTime := by
  have hh0 : 0 ≤ roundDouble (1 / 2 * doubleSupportRatio) :=
    roundDouble_nonneg (by linarith)
  have hh1 : roundDouble (1 / 2 * doubleSupportRatio) ≤ 1 / 2 := by
    have := roundDouble_mono (show 1 / 2 * doubleSupportRatio ≤ 1 / 2 by linarith)
    rwa [roundDouble_half] at this
  have hu0 : 1 / 2 ≤ roundDouble (1 - roundDouble (1 / 2 * doubleSupportRatio)) := by
    have := roundDouble_mono
      (show 1 / 2 ≤ 1 - roundDouble (1 / 2 * doubleSupportRatio) by linarith)
    rwa [roundDouble_half] at this
  have hu1 : roundDouble (1 - roundDouble (1 / 2 * doubleSupportRatio)) ≤ 1 := by
    have := roundDouble_mono
      (show 1 - roundDouble (1 / 2 * doubleSupportRatio) ≤ 1 by linarith)
    rwa [roundDouble_one] at this
  have hp0 : 0 ≤ roundDouble (roundDouble (1 / 2 * doubleSupportRatio) * footstepDuration) :=
    roundDouble_nonneg (mul_nonneg hh0 hd)
  have hpq : roundDouble (roundDouble (1 / 2 * doubleSupportRatio) * footstepDuration) ≤
      roundDouble
        (roundDouble (1 - roundDouble (1 / 2 * doubleSupportRatio)) * footstepDuration) :=
    roundDouble_mono (mul_le_mul_of_nonneg_right (by linarith) hd)
  have hqd : roundDouble
      (roundDouble (1 - roundDouble (1 / 2 * doubleSupportRatio)) * footstepDuration) ≤
      footstepDuration := by
    have := roundDouble_mono
      (show roundDouble (1 - roundDouble (1 / 2 * doubleSupportRatio)) * footstepDuration ≤
        footstepDuration by nlinarith)
    rwa [hdd] at this
  refine ⟨?_, ?_, ?_⟩
  · have := roundDouble_mono
      (show startTime ≤ startTime +
        roundDouble (roundDouble (1 / 2 * doubleSupportRatio) * footstepDuration) by linarith)
    rwa [hs] at this
  · exact roundDouble_mono (by linarith)
  · exact roundDouble_mono (by linarith)

theorem isDouble_two : IsDouble 2 :=
  isDouble_eval 2 1 (2 ^ 52) (by norm_num) (by norm_num) (by norm_num) (by norm_num)

theorem roundDouble_eighth : roundDouble (1 / 2 * (1 / 4)) = 1 / 8 := by
  have h : IsDouble (1 / 2 * (1 / 4)) :=
    isDouble_eval _ (-3) (2 ^ 52) (by norm_num) (by norm_num) (by norm_num) (by norm_num)
  rw [h]
  norm_num

theorem roundDouble_seven_eighths : roundDouble (1 - 1 / 8) = 7 / 8 := by
  have h : IsDouble (1 - 1 / 8) :=
    isDouble_eval _ (-1) (7 * 2 ^ 50) (by norm_num) (by norm_num) (by norm_num) (by norm_num)
  rw [h]
  norm_num

/-- The `double` nearest to 0.8. -/
theorem roundDouble_four_fifths : roundDouble (4 / 5) = 3602879701896397 / 2 ^ 52 := by
  rw [roundDouble_eval (4 / 5) (-1) 7205759403792794 (by norm_num) (by norm_num) (by norm_num)
    (roundHalfEven_eq_of_lt _ _ (by norm_num) (by norm_num))]
  norm_num

/-- The times that `makeFootstep` computes for the start time 2, the ratio
0.25 and the duration 0.8 (the `double` nearest to it). -/
theorem makeFootstep_sample_times :
    (makeFootstep (roundDouble (4 / 5)) (1 / 4) (fun _ => originPose) Foot.Left samplePose
        2).swingStartTime = 4728779608739021 / 2 ^ 51 ∧
    (makeFootstep (roundDouble (4 / 5)) (1 / 4) (fun _ => originPose) Foot.Left samplePose
        2).swingEndTime = 6079859496950170 / 2 ^ 51 ∧
    (makeFootstep (roundDouble (4 / 5)) (1 / 4) (fun _ => originPose) Foot.Left samplePose
        2).transitEndTime = 6305039478318694 / 2 ^ 51 ∧
    roundDouble (roundDouble (1 / 2 * (1 / 4)) * roundDouble (4 / 5)) =
      3602879701896397 / 2 ^ 55 := by
  have hp : roundDouble (1 / 8 * (3602879701896397 / 2 ^ 52)) = 3602879701896397 / 2 ^ 55 := by
    have h : IsDouble (1 / 8 * (3602879701896397 / 2 ^ 52)) :=
      isDouble_eval _ (-4) 7205759403792794 (by norm_num) (by norm_num) (by norm_num)
        (by norm_num)
    rw [h]
    norm_num
  have hq : roundDouble (7 / 8 * (3602879701896397 / 2 ^ 52)) =
      6305039478318695 / 2 ^ 53 := by
    rw [roundDouble_eval _ (-1) 6305039478318695 (by norm_num) (by norm_num) (by norm_num)
      (roundHalfEven_eq_of_lt _ _ (by norm_num) (by norm_num))]
    norm_num
  have h1 : roundDouble (2 + 3602879701896397 / 2 ^ 55) = 4728779608739021 / 2 ^ 51 := by
    rw [roundDouble_eval _ 1 4728779608739021 (by norm_num) (by norm_num) (by norm_num)
      (roundHalfEven_eq_of_lt _ _ (by norm_num) (by norm_num))]
    norm_num
  have h2 : roundDouble (2 + 6305039478318695 / 2 ^ 53) = 6079859496950170 / 2 ^ 51 := by
    rw [roundDouble_eval _ 1 6079859496950170 (by norm_num) (by norm_num) (by norm_num)
      (roundHalfEven_eq_of_lt _ _ (by norm_num) (by norm_num))]
    norm_num
  have h3 : roundDouble (2 + 3602879701896397 / 2 ^ 52) = 6305039478318694 / 2 ^ 51 := by
    rw [roundDouble_eval _ 1 6305039478318694 (by norm_num) (by norm_num) (by norm_num)
      (roundHalfEven_tie_even _ _ (by norm_num) (by norm_num))]
    norm_num
  simp only [makeFootstep]
  rw [roundDouble_eighth, roundDouble_seven_eighths, roundDouble_four_fifths, hp, hq, h1, h2,
    h3]
  exact ⟨rfl, rfl, rfl, rfl⟩

theorem calcZmp_of_comWrench (wrenchList : List (Foot × ForceVecd)) (c zmp : Vec3) (fz : ℚ)
    (hz : c.z ≠ 0) (hf : 0 < fz)
    (hforce : (totalWrench wrenchList).force =
      ⟨fz / c.z * (c.x - zmp.x), fz / c.z * (c.y - zmp.y), fz⟩)
    (hmoment : (totalWrench wrenchList).moment =
      Vec3.zero.add (c.cross ⟨fz / c.z * (c.x - zmp.x), fz / c.z * (c.y - zmp.y), fz⟩)) :
    calcZmp wrenchList 0 ⟨0, 0, 1⟩ = ⟨zmp.x, zmp.y, 0⟩ := by
  have hfz : fz ≠ 0 := ne_of_gt hf
  unfold calcZmp calcZmpWith
  rw [hforce, hmoment]
  simp only [if_pos hf, Vec3.cross, Vec3.sub, Vec3.add, Vec3.zero]
  congr 1
  · field_simp
    ring
  · field_simp
    ring
  · simp

theorem ZmpTraj.Extends.refl (a : ZmpTraj) : a.Extends a :=
  ⟨fun _ h => h, fun _ h => h, fun _ h => h, fun h => h⟩

theorem ZmpTraj.Extends.trans {a b c : ZmpTraj} (h1 : a.Extends b) (h2 : b.Extends c) :
    a.Extends c :=
  ⟨fun p h => h2.1 p (h1.1 p h), fun p h => h2.2.1 p (h1.2.1 p h),
    fun p h => h2.2.2.1 p (h1.2.2.1 p h), fun h => h2.2.2.2 (h1.2.2.2 h)⟩

theorem ZmpTraj.HasTime.mono {a b : ZmpTraj} {time : ℚ} (h : a.HasTime time)
    (hab : a.Extends b) : b.HasTime time := by
  obtain ⟨⟨p, hp, hpt⟩, ⟨q, hq, hqt⟩, ⟨x, hx, hxt⟩⟩ := h
  exact ⟨⟨p, hab.1 p hp, hpt⟩, ⟨q, hab.2.1 q hq, hqt⟩, ⟨x, hab.2.2.1 x hx, hxt⟩⟩

theorem ZmpTraj.append_extends (traj : ZmpTraj) (time : ℚ) (zmp : Vec3) (groundPosZ : ℚ)
    (contact : FootPoseMap) : traj.Extends (traj.append time zmp groundPosZ contact) :=
  ⟨fun _ hp => List.mem_append_left _ hp, fun _ hp => List.mem_append_left _ hp,
    fun _ hx => mapInsert_key_mono _ _ _ hx, fun h => mapInsert_sorted _ _ h⟩

theorem ZmpTraj.append_hasTime (traj : ZmpTraj) (time : ℚ) (zmp : Vec3) (groundPosZ : ℚ)
    (contact : FootPoseMap) : (traj.append time zmp groundPosZ contact).HasTime time := by
  refine ⟨⟨(time, zmp), ?_, rfl⟩, ⟨(time, groundPosZ), ?_, rfl⟩, ?_⟩
  · simp [ZmpTraj.append]
  · simp [ZmpTraj.append]
  · exact mapInsert_key_self _ _

theorem zmpLoop_cons (zmpOffset : Vec3) (horizonEnd : ℚ) (f : Footstep) (rest : List Footstep)
    (footPoses : FootPoses) (traj : ZmpTraj) :
    zmpLoop zmpOffset horizonEnd (f :: rest) footPoses traj =
      if horizonEnd ≤ f.transitEndTime then zmpLoopBody zmpOffset f footPoses traj
      else zmpLoop zmpOffset horizonEnd rest (zmpLoopBody zmpOffset f footPoses traj).1
        (zmpLoopBody zmpOffset f footPoses traj).2 :=
  rfl

theorem zmpLoopBody_extends (zmpOffset : Vec3) (f : Footstep) (footPoses : FootPoses)
    (traj : ZmpTraj) :
    traj.Extends (zmpLoopBody zmpOffset f footPoses traj).2 ∧
    (zmpLoopBody zmpOffset f footPoses traj).2.HasTime f.transitStartTime ∧
    (zmpLoopBody zmpOffset f footPoses traj).2.HasTime f.transitEndTime := by
  unfold zmpLoopBody
  simp only
  refine ⟨?_, ?_, ?_⟩
  · exact (((ZmpTraj.append_extends _ _ _ _ _).trans (ZmpTraj.append_extends _ _ _ _ _)).trans
      (ZmpTraj.append_extends _ _ _ _ _)).trans (ZmpTraj.append_extends _ _ _ _ _)
  · exact (ZmpTraj.append_hasTime _ _ _ _ _).mono
      (((ZmpTraj.append_extends _ _ _ _ _).trans (ZmpTraj.append_extends _ _ _ _ _)).trans
        (ZmpTraj.append_extends _ _ _ _ _))
  · exact ZmpTraj.append_hasTime _ _ _ _ _

theorem zmpLoop_extends (zmpOffset : Vec3) (horizonEnd : ℚ) (queue : List Footstep) :
    ∀ (footPoses : FootPoses) (traj : ZmpTraj),
      traj.Extends (zmpLoop zmpOffset horizonEnd queue footPoses traj).2 := by
  induction queue with
  | nil => exact fun _ traj => ZmpTraj.Extends.refl traj
  | cons f rest ih =>
    intro footPoses traj
    rw [zmpLoop_cons]
    split
    · exact (zmpLoopBody_extends zmpOffset f footPoses traj).1
    · exact (zmpLoopBody_extends zmpOffset f footPoses traj).1.trans (ih _ _)

/-- On a non-empty queue the loop leaves an entry at the head's `transitStartTime`. -/
theorem zmpLoop_front (zmpOffset : Vec3) (horizonEnd : ℚ) (f : Footstep) (rest : List Footstep)
    (footPoses : FootPoses) (traj : ZmpTraj) :
    (zmpLoop zmpOffset horizonEnd (f :: rest) footPoses traj).2.HasTime f.transitStartTime := by
  rw [zmpLoop_cons]
  split
  · exact (zmpLoopBody_extends zmpOffset f footPoses traj).2.1
  · exact (zmpLoopBody_extends zmpOffset f footPoses traj).2.1.mono (zmpLoop_extends _ _ _ _ _)

/-- When some queued footstep ends at or after the horizon end, the loop leaves
an entry at or after the horizon end. -/
theorem zmpLoop_end (zmpOffset : Vec3) (horizonEnd : ℚ) (queue : List Footstep) :
    ∀ (footPoses : FootPoses) (traj : ZmpTraj),
      (∃ f ∈ queue, horizonEnd ≤ f.transitEndTime) →
      ∃ time, horizonEnd ≤ time ∧
        (zmpLoop zmpOffset horizonEnd queue footPoses traj).2.HasTime time := by
  induction queue with
  | nil =>
    intro _ _ h
    obtain ⟨f, hf, _⟩ := h
    simp at hf
  | cons f rest ih =>
    intro footPoses traj h
    rw [zmpLoop_cons]
    by_cases hb : horizonEnd ≤ f.transitEndTime
    · rw [if_pos hb]
      exact ⟨f.transitEndTime, hb, (zmpLoopBody_extends zmpOffset f footPoses traj).2.2⟩
    · rw [if_neg hb]
      apply ih
      obtain ⟨g, hg, hge⟩ := h
      rcases List.mem_cons.1 hg with rfl | hg
      · exact absurd hge hb
      · exact ⟨g, hg, hge⟩

theorem calcContactFootPoses_mem (m : List (ℚ × FootPoseMap)) (t : ℚ) (hs : KeysSorted m)
    (h : ∃ x ∈ m, x.1 ≤ t) :
    ∃ e ∈ m, e.1 ≤ t ∧ calcContactFootPoses m t = e.2 := by
  have key : ∀ (l : List (ℚ × FootPoseMap)), (∃ x ∈ l, x.1 ≤ t) →
      ∃ e ∈ l, e.1 ≤ t ∧ ∀ x ∈ l, x.1 ≤ t → x.1 ≤ e.1 := by
    intro l
    induction l with
    | nil =>
      rintro ⟨x, hx, _⟩
      simp at hx
    | cons a l ih =>
      rintro ⟨x, hx, hxt⟩
      by_cases hl : ∃ y ∈ l, y.1 ≤ t
      · obtain ⟨e, he, het, hmax⟩ := ih hl
        by_cases hae : a.1 ≤ e.1
        · refine ⟨e, List.mem_cons_of_mem _ he, het, ?_⟩
          intro y hy hyt
          rcases List.mem_cons.1 hy with rfl | hy
          · exact hae
          · exact hmax y hy hyt
        · by_cases hat : a.1 ≤ t
          · refine ⟨a, List.mem_cons_self _ _, hat, ?_⟩
            intro y hy hyt
            rcases List.mem_cons.1 hy with rfl | hy
            · exact le_refl _
            · exact le_trans (hmax y hy hyt) (le_of_lt (not_le.1 hae))
          · refine ⟨e, List.mem_cons_of_mem _ he, het, ?_⟩
            intro y hy hyt
            rcases List.mem_cons.1 hy with rfl | hy
            · exact absurd hyt hat
            · exact hmax y hy hyt
      · rcases List.mem_cons.1 hx with rfl | hx
        · refine ⟨x, List.mem_cons_self _ _, hxt, ?_⟩
          intro y hy hyt
          rcases List.mem_cons.1 hy with rfl | hy
          · exact le_refl _
          · exact absurd ⟨y, hy, hyt⟩ hl
        · exact absurd ⟨x, hx, hxt⟩ hl
  obtain ⟨e, he, het, hmax⟩ := key m h
  obtain ⟨it, hit, hget⟩ := upperBound_entry m t e hs he het hmax
  refine ⟨e, he, het, ?_⟩
  unfold calcContactFootPoses
  rw [hit]
  simp only
  rw [hget]

/-- A tick raises exactly through the consistency check. -/
theorem updateFootTraj_error_iff (s : FootManager) (t : ℚ) (inp : TickInput) (e : TickError) :
    s.updateFootTraj t inp = .error e ↔
      e = TickError.swingFootstepNotConsistent ∧
        ∃ front r, (s.removeOldFootsteps t).swingFront t = some front ∧
          s.swingFootstep = some r ∧ r.slot ≠ (s.removeOldFootsteps t).popCount := by
  have hsw : (s.removeOldFootsteps t).swingFootstep = s.swingFootstep := rfl
  constructor
  · intro h
    by_contra hne
    have hprog : ∀ s1, s.updateFootTraj t inp ≠ .ok s1 := by
      intro s1 h1
      rw [h] at h1
      cases h1
    unfold FootManager.updateFootTraj at h
    simp only at h
    cases hf : (s.removeOldFootsteps t).swingFront t with
    | some front =>
      rw [hf] at h
      simp only at h
      cases hs : (s.removeOldFootsteps t).swingFootstep with
      | some r =>
        rw [hs] at h
        simp only at h
        by_cases hc : r.slot ≠ (s.removeOldFootsteps t).popCount
        · rw [if_pos hc] at h
          cases h
          exact hne ⟨rfl, front, r, hf, hsw ▸ hs, hc⟩
        · rw [if_neg hc] at h
          obtain ⟨s1, h1⟩ := updateTouchDown_progress _ t inp r hs
          rw [h1] at h
          cases h
      | none =>
        rw [hs] at h
        simp only at h
        obtain ⟨s1, h1⟩ := updateTouchDown_progress
          { s.removeOldFootsteps t with
            swingFootstep := some ⟨(s.removeOldFootsteps t).popCount, front⟩
            supportPhase :=
              if front.foot = Foot.Left then SupportPhase.RightSupport
              else SupportPhase.LeftSupport } t inp _ rfl
        rw [h1] at h
        cases h
    | none =>
      rw [hf] at h
      simp only at h
      cases hs : (s.removeOldFootsteps t).swingFootstep with
      | some r => rw [hs] at h; cases h
      | none => rw [hs] at h; cases h
  · rintro ⟨rfl, front, r, hf, hs, hc⟩
    unfold FootManager.updateFootTraj
    simp only
    rw [hf]
    simp only
    rw [hsw, hs]
    simp only
    rw [if_pos hc]

/-- In a consistent state, the swing footstep is no longer the queue head
after eviction exactly when its transit ended before `t`. -/
theorem swingFootstep_evicted_iff (s : FootManager) (t : ℚ) (r : SwingRef) (hinv : PhaseInv s)
    (hs : s.swingFootstep = some r) :
    r.slot ≠ (s.removeOldFootsteps t).popCount ↔ r.step.transitEndTime < t := by
  unfold PhaseInv at hinv
  rw [hs] at hinv
  simp only at hinv
  obtain ⟨_, hslot, hhead⟩ := hinv
  have hc : (s.removeOldFootsteps t).popCount =
      s.popCount + (s.footstepQueue.takeWhile (fun f => decide (f.transitEndTime < t))).length :=
    evictLoop_count t s.footstepQueue s.prevFootstep s.popCount
  cases hq : s.footstepQueue with
  | nil => rw [hq] at hhead; simp at hhead
  | cons f q =>
    rw [hq] at hhead hc
    simp only [List.head?_cons, Option.some.injEq] at hhead
    subst hhead
    by_cases ht : r.step.transitEndTime < t
    · simp only [ht, iff_true]
      rw [hc, hslot]
      simp [List.takeWhile_cons, ht]
    · simp only [ht, iff_false, not_not]
      rw [hc, hslot]
      simp [List.takeWhile_cons, ht]

theorem phasesExited_run (ops : List Op) :
    ∀ s : FootManager, PhaseInv s → s.phasesExited ops → ∃ s1, s.run ops = .ok s1 := by
  induction ops with
  | nil => exact fun s _ _ => ⟨s, rfl⟩
  | cons op ops ih =>
    intro s hinv hex
    unfold FootManager.phasesExited at hex
    obtain ⟨htick, hrest⟩ := hex
    have hstep : ∃ s1, s.step op = .ok s1 := by
      cases op with
      | reset => exact ⟨_, rfl⟩
      | configure c => exact ⟨_, rfl⟩
      | append t f => exact ⟨_, rfl⟩
      | tick t inp =>
        simp only at htick
        apply updateFootTraj_progress
        intro front r hf hs
        by_contra hc
        have hlt := (swingFootstep_evicted_iff s t r hinv hs).1 hc
        unfold FootManager.tickExitsPhase at htick
        rw [hs] at htick
        simp only at htick
        rw [htick hlt] at hf
        cases hf
    obtain ⟨s1, h1⟩ := hstep
    rw [h1] at hrest
    simp only at hrest
    obtain ⟨s2, h2⟩ := ih s1 (step_phaseInv s s1 op hinv h1) hrest
    exact ⟨s2, by unfold FootManager.run; rw [h1]; exact h2⟩

/-- C25: in every state reached from reset, a tick at time `t` raises the
"Swing footstep is not consistent" error exactly when a swing footstep was
active before the tick, it is no longer the queue head after eviction (its
`transitEndTime < t`) and the swing interval of the new head contains `t`,
and a tick raises no other error; hence a run from reset in which every tick
that follows a single-support phase whose footstep has been evicted lies
outside the swing interval of the then-current head never raises. -/
theorem swingFootstepNotConsistent_iff (s0 : FootManager) (ops : List Op) :
    (∀ s, s0.reset.run ops = .ok s → ∀ (t : ℚ) (inp : TickInput),
      (s.updateFootTraj t inp = .error TickError.swingFootstepNotConsistent ↔
        ∃ r front, s.swingFootstep = some r ∧
          r.slot ≠ (s.removeOldFootsteps t).popCount ∧ r.step.transitEndTime < t ∧
          (s.removeOldFootsteps t).footstepQueue.head? = some front ∧
          front.swingStartTime ≤ t ∧ t ≤ front.swingEndTime) ∧
      s.updateFootTraj t inp ≠ .error TickError.nullSwingFootstep) ∧
    (s0.reset.phasesExited ops → ∃ s, s0.reset.run ops = .ok s) := by
  refine ⟨?_, phasesExited_run ops s0.reset (reset_phaseInv s0)⟩
  intro s hrun t inp
  have hinv : PhaseInv s := run_phaseInv s0.reset s ops (reset_phaseInv s0) hrun
  refine ⟨?_, ?_⟩
  · rw [updateFootTraj_error_iff]
    constructor
    · rintro ⟨_, front, r, hf, hs, hc⟩
      have hfr := swingFront_eq_some _ t front hf
      exact ⟨r, front, hs, hc, (swingFootstep_evicted_iff s t r hinv hs).1 hc, hfr.1, hfr.2.1,
        hfr.2.2⟩
    · rintro ⟨r, front, hs, hc, _, hhead, h1, h2⟩
      refine ⟨rfl, front, r, ?_, hs, hc⟩
      unfold FootManager.swingFront
      cases hq : (s.removeOldFootsteps t).footstepQueue with
      | nil => rw [hq] at hhead; simp at hhead
      | cons f q =>
        rw [hq] at hhead
        simp only [List.head?_cons, Option.some.injEq] at hhead
        subst hhead
        simp only
        rw [if_pos ⟨h1, h2⟩]
  · intro h
    have := (updateFootTraj_error_iff s t inp _).1 h
    cases this.1

theorem twoStepRun_eq : sampleManager.reset.run twoStepRun = .ok swingingTwoManager := by
  norm_num [twoStepRun, FootManager.run, FootManager.step, FootManager.reset, sampleManager,
    FootManager.appendFootstep, sampleStepA, sampleStepB, FootManager.updateFootTraj,
    FootManager.removeOldFootsteps, evictLoop, FootManager.swingFront,
    FootManager.updateTouchDown, FootManager.detectTouchDown,
    FootManager.touchDownRemainingDuration, sampleConfig, swingingTwoManager, noForce,
    Vec3.normGt, Vec3.sub, Vec3.normSq]
  simp

theorem exitRun_phasesExited : sampleManager.reset.phasesExited exitRun := by
  norm_num [exitRun, FootManager.phasesExited, FootManager.tickExitsPhase, FootManager.step,
    FootManager.reset, sampleManager,
    FootManager.appendFootstep, sampleStepA, FootManager.updateFootTraj,
    FootManager.removeOldFootsteps, evictLoop, FootManager.swingFront,
    FootManager.updateTouchDown, FootManager.detectTouchDown,
    FootManager.touchDownRemainingDuration, sampleConfig, noForce,
    Vec3.normGt, Vec3.sub, Vec3.normSq]
  simp
  norm_num [evictLoop]

theorem swingFootstepNotConsistent_iff_witness :
    swingingTwoManager.updateFootTraj (5 / 2) noForce =
        .error TickError.swingFootstepNotConsistent ∧
      ∃ s, sampleManager.reset.run exitRun = .ok s :=
  ⟨((swingFootstepNotConsistent_iff sampleManager twoStepRun).1 swingingTwoManager
      twoStepRun_eq (5 / 2) noForce).1.2
      ⟨⟨1, sampleStepA⟩, sampleStepB, rfl,
        by norm_num [swingingTwoManager, FootManager.removeOldFootsteps, evictLoop, sampleStepA,
          sampleStepB],
        by norm_num [sampleStepA],
        by norm_num [swingingTwoManager, FootManager.removeOldFootsteps, evictLoop, sampleStepA,
          sampleStepB],
        by norm_num [sampleStepB], by norm_num [sampleStepB]⟩,
    (swingFootstepNotConsistent_iff sampleManager exitRun).2 exitRun_phasesExited⟩

/-! ## Phase and swing-state invariant -/


/-- Inversion of a tick on the state with interpolants that does not raise:
the state without interpolants makes the same tick, and the interpolants are
kept, synthesised or cleared by branch. -/
theorem SwingState.tick_inversion (s s1 : SwingState) (t : ℚ) (inp : TickInput)
    (syn : SwingSynthesis) (h : s.updateFootTraj t inp syn = .ok s1) :
    s.manager.updateFootTraj t inp = .ok s1.manager ∧
    ((∃ r, s.manager.swingFootstep = some r ∧ s1.manager.swingFootstep = some r ∧
        s1.interp = s.interp) ∨
      (s.manager.swingFootstep = none ∧ (∃ r, s1.manager.swingFootstep = some r) ∧
        s1.interp = s.interp.synthesize syn) ∨
      ((∃ r, s.manager.swingFootstep = some r) ∧ s1.manager.swingFootstep = none ∧
        s1.manager.touchDown = false ∧ s1.interp = SwingInterpolants.cleared) ∨
      (s.manager.swingFootstep = none ∧ s1.manager.swingFootstep = none ∧
        s1.manager.touchDown = s.manager.touchDown ∧ s1.interp = s.interp)) := by
  have hsw : (s.manager.removeOldFootsteps t).swingFootstep = s.manager.swingFootstep := rfl
  have htd : (s.manager.removeOldFootsteps t).touchDown = s.manager.touchDown := rfl
  unfold SwingState.updateFootTraj at h
  unfold FootManager.updateFootTraj
  simp only at h ⊢
  cases hf : (s.manager.removeOldFootsteps t).swingFront t with
  | some front =>
    rw [hf] at h
    simp only at h ⊢
    cases hs : (s.manager.removeOldFootsteps t).swingFootstep with
    | some r =>
      rw [hs] at h
      simp only at h ⊢
      by_cases hc : r.slot ≠ (s.manager.removeOldFootsteps t).popCount
      · rw [if_pos hc] at h
        cases h
      · rw [if_neg hc] at h ⊢
        cases hu : (s.manager.removeOldFootsteps t).updateTouchDown t inp with
        | error e => rw [hu] at h; cases h
        | ok s2 =>
          rw [hu] at h
          simp only at h
          cases h
          have hk := updateTouchDown_ok _ _ _ _ hu
          exact ⟨rfl, Or.inl ⟨r, hsw ▸ hs, hk.2.2.2.2.2.1.trans hs, rfl⟩⟩
    | none =>
      rw [hs] at h
      simp only at h ⊢
      cases hu : FootManager.updateTouchDown
          { s.manager.removeOldFootsteps t with
            swingFootstep := some ⟨(s.manager.removeOldFootsteps t).popCount, front⟩
            supportPhase :=
              if front.foot = Foot.Left then SupportPhase.RightSupport
              else SupportPhase.LeftSupport } t inp with
      | error e => rw [hu] at h; cases h
      | ok s2 =>
        rw [hu] at h
        simp only at h
        cases h
        have hk := updateTouchDown_ok _ _ _ _ hu
        exact ⟨rfl, Or.inr (Or.inl ⟨hsw ▸ hs, ⟨_, hk.2.2.2.2.2.1⟩, rfl⟩)⟩
  | none =>
    rw [hf] at h
    simp only at h ⊢
    cases hs : (s.manager.removeOldFootsteps t).swingFootstep with
    | some r =>
      rw [hs] at h
      simp only at h ⊢
      cases h
      exact ⟨rfl, Or.inr (Or.inr (Or.inl ⟨⟨r, hsw ▸ hs⟩, rfl, rfl, rfl⟩))⟩
    | none =>
      rw [hs] at h
      simp only at h ⊢
      cases h
      exact ⟨rfl, Or.inr (Or.inr (Or.inr ⟨hsw ▸ hs, hs, htd, rfl⟩))⟩

theorem SwingState.step_manager (s s1 : SwingState) (op : SwingOp) (h : s.step op = .ok s1) :
    s.manager.step op.toOp = .ok s1.manager := by
  cases op with
  | reset => cases h; rfl
  | configure c => cases h; rfl
  | append t f => cases h; rfl
  | tick t inp syn => exact (SwingState.tick_inversion s s1 t inp syn h).1

theorem SwingState.step_swingInv (s s1 : SwingState) (op : SwingOp) (hinv : SwingInv s)
    (h : s.step op = .ok s1) : SwingInv s1 := by
  refine ⟨step_phaseInv _ _ _ hinv.1 (SwingState.step_manager s s1 op h), ?_⟩
  cases op with
  | reset =>
    cases h
    exact fun _ => ⟨rfl, rfl⟩
  | configure c =>
    cases h
    exact hinv.2
  | append t f =>
    cases h
    have hfl := appendFootstep_fields s.manager t f
    intro hn
    simp only at hn ⊢
    rw [hfl.2.2.2.2.1] at hn
    rw [hfl.2.2.2.2.2]
    exact hinv.2 hn
  | tick t inp syn =>
    intro hn
    rcases (SwingState.tick_inversion s s1 t inp syn h).2 with
      ⟨r, _, h1, _⟩ | ⟨_, ⟨r, h1⟩, _⟩ | ⟨_, _, h1, h2⟩ | ⟨h0, _, h1, h2⟩
    · rw [h1] at hn; cases hn
    · rw [h1] at hn; cases hn
    · exact ⟨h1, h2⟩
    · rw [h1, h2]
      exact hinv.2 h0

theorem SwingState.run_swingInv (ops : List SwingOp) :
    ∀ s s1 : SwingState, SwingInv s → s.run ops = .ok s1 → SwingInv s1 := by
  induction ops with
  | nil =>
    intro s s1 hinv h
    cases h
    exact hinv
  | cons op ops ih =>
    intro s s1 hinv h
    unfold SwingState.run at h
    cases hs : s.step op with
    | error e => rw [hs] at h; cases h
    | ok s2 =>
      rw [hs] at h
      exact ih s2 s1 (SwingState.step_swingInv s s2 op hinv hs) h

theorem SwingState.reset_swingInv (s : SwingState) : SwingInv s.reset :=
  ⟨reset_phaseInv s.manager, fun _ => ⟨rfl, rfl⟩⟩

theorem phaseInv_doubleSupport_iff (s : FootManager) (hinv : PhaseInv s) :
    s.supportPhase = SupportPhase.DoubleSupport ↔ s.swingFootstep = none := by
  unfold PhaseInv at hinv
  cases hs : s.swingFootstep with
  | none =>
    rw [hs] at hinv
    simp only at hinv
    simp [hinv]
  | some r =>
    rw [hs] at hinv
    simp only at hinv
    rw [hinv.1]
    unfold supportPhaseFor
    split <;> simp

/-- C24: in every state reached from reset, after a tick of `updateFootTraj`
that does not raise, the phase is double support exactly when there is no
active swing footstep; in double support the touchdown flag is false and the
swing position, swing rotation and base-yaw interpolants are empty; when the
phase was single support before the tick and still is after it, the swing
footstep and the interpolants are unchanged; and when the tick enters single
support, the interpolants are those of one synthesis on empty interpolants. -/
theorem phase_swing_invariant (s0 s s1 : SwingState) (ops : List SwingOp) (t : ℚ)
    (inp : TickInput) (syn : SwingSynthesis) (hrun : s0.reset.run ops = .ok s)
    (htick : s.updateFootTraj t inp syn = .ok s1) :
    (s1.manager.supportPhase = SupportPhase.DoubleSupport ↔ s1.manager.swingFootstep = none) ∧
    (s1.manager.supportPhase = SupportPhase.DoubleSupport →
      s1.manager.touchDown = false ∧ s1.interp = SwingInterpolants.cleared) ∧
    (s.manager.supportPhase ≠ SupportPhase.DoubleSupport →
      s1.manager.supportPhase ≠ SupportPhase.DoubleSupport →
      s1.manager.swingFootstep = s.manager.swingFootstep ∧ s1.interp = s.interp) ∧
    (s.manager.supportPhase = SupportPhase.DoubleSupport →
      s1.manager.supportPhase ≠ SupportPhase.DoubleSupport →
      s1.interp = SwingInterpolants.cleared.synthesize syn) := by
  have hinv : SwingInv s := SwingState.run_swingInv ops _ _ (SwingState.reset_swingInv s0) hrun
  have hinv1 : SwingInv s1 := SwingState.step_swingInv s s1 (SwingOp.tick t inp syn) hinv htick
  have hiff := phaseInv_doubleSupport_iff s.manager hinv.1
  have hiff1 := phaseInv_doubleSupport_iff s1.manager hinv1.1
  refine ⟨hiff1, fun h => hinv1.2 (hiff1.1 h), ?_, ?_⟩
  · intro hs hs1
    rcases (SwingState.tick_inversion s s1 t inp syn htick).2 with
      ⟨r, h0, h1, h2⟩ | ⟨h0, _, _⟩ | ⟨_, h1, _, _⟩ | ⟨h0, _, _, _⟩
    · exact ⟨h1.trans h0.symm, h2⟩
    · exact absurd (hiff.2 h0) hs
    · exact absurd (hiff1.2 h1) hs1
    · exact absurd (hiff.2 h0) hs
  · intro hs hs1
    have hnone := hiff.1 hs
    rcases (SwingState.tick_inversion s s1 t inp syn htick).2 with
      ⟨r, h0, _, _⟩ | ⟨_, _, h2⟩ | ⟨_, h1, _, _⟩ | ⟨_, h1, _, _⟩
    · rw [hnone] at h0; cases h0
    · rw [h2, (hinv.2 hnone).2]
    · exact absurd (hiff1.2 h1) hs1
    · exact absurd (hiff1.2 h1) hs1

theorem swingEntryRun_eq : sampleSwingState.reset.run swingEntryRun = .ok swingEntryState := by
  norm_num [sampleSwingState, sampleManager, swingEntryRun, SwingState.run, SwingState.step, SwingState.reset, swingEntryState,
    FootManager.reset, SwingState.updateFootTraj,
    FootManager.appendFootstep, sampleStepA, FootManager.removeOldFootsteps, evictLoop,
    FootManager.swingFront, FootManager.updateTouchDown, FootManager.detectTouchDown,
    FootManager.touchDownRemainingDuration, sampleConfig, noForce, Vec3.normGt, Vec3.sub,
    Vec3.normSq]
  simp

theorem swingExit_tick :
    swingEntryState.updateFootTraj (39 / 20) noForce sampleSynthesis = .ok swingExitState := by
  norm_num [swingEntryState, swingExitState, SwingState.updateFootTraj, sampleStepA,
    FootManager.removeOldFootsteps, evictLoop, FootManager.swingFront]

theorem phase_swing_invariant_witness :
    sampleSwingState.reset.run swingEntryRun = .ok swingEntryState ∧
    swingEntryState.updateFootTraj (39 / 20) noForce sampleSynthesis = .ok swingExitState ∧
    (swingExitState.manager.supportPhase = SupportPhase.DoubleSupport ↔
      swingExitState.manager.swingFootstep = none) ∧
    (swingExitState.manager.supportPhase = SupportPhase.DoubleSupport →
      swingExitState.manager.touchDown = false ∧
        swingExitState.interp = SwingInterpolants.cleared) :=
  have h := phase_swing_invariant sampleSwingState swingEntryState swingExitState swingEntryRun
    (39 / 20) noForce sampleSynthesis swingEntryRun_eq swingExit_tick
  ⟨swingEntryRun_eq, swingExit_tick, h.1, h.2.1⟩

end BWC
